import Mathlib

/-!
# validity: a verification development

Shallow embedding of `validity.go` (package `validity`): the failure kind
(`Error`, `NewError`, `IsError`), the field-visibility test `isPrivateField`,
the pointer resolver `indirect` and the recursive traversal `Check`.

## Modelling conventions

* Go values are finite trees (`Val`).  A non-nil pointer carries the content of
  the memory cell it points at (`Val.ptrTo`); a nil pointer carries its element
  type (`Val.nilPtr`), which is what `reflect.New(value.Type().Elem())` needs.
  Cells are not shared between two pointers and pointer cycles cannot be
  written down; type descriptors (`GoType`) are finite terms, in which a type
  declaration that refers to itself is written with `recur` and `self`.
* `interface{}` arguments are `Any := Option Val` (`none` is the untyped nil).
* The only write the package performs is `value.Set(reflect.New(...))` in
  `indirect`.  Its effect on the caller's memory is made explicit: every
  operation returns the updated version of the value it was handed.
* Loops and recursion are bounded by a fuel argument; a run is `Run.done`,
  `Run.panic` (a Go run-time panic) or `Run.outOfFuel`.
* A `Validate` method is a pure function of its receiver (`Methods`); the method
  set of a struct holds the methods promoted from its embedded fields
  (`Methods.validate`).
* The package-level function `Validate`, which `Check` calls on elements and
  fields, is not declared in `validity.go`; it is modelled from the spec.
-/

set_option linter.dupNamespace false

namespace Validity

/-! ## Outcomes of a run -/

/-- Outcome of running Go code in the model. -/
inductive Run (α : Type) where
  | done (a : α)
  | panic (msg : String)
  | outOfFuel
deriving DecidableEq

/-! ## The failure kind (validity.go lines 8-25) -/

/-- The struct `Error` (lines 8-10). -/
structure Error where
  message : String
deriving DecidableEq, Repr

/-- The method `func (e Error) Error() string` (lines 12-14). -/
def Error.Error (e : Error) : String :=
  e.message

/-- The function `NewError` (lines 16-20); a `*Error` is `Option Error`, `none` being nil. -/
def NewError (message : String) : Option Error :=
  some { message := message }

/-- A value of Go's interface type `error`: nil, a `*Error` (possibly a nil pointer),
or a value of any other concrete type. -/
inductive GoError where
  | nil
  | ptrError (p : Option Error)
  | other (desc : String)
deriving DecidableEq, Repr

/-- The function `IsError` (lines 22-25): the type assertion `err.(*Error)`. -/
def IsError (err : GoError) : Bool :=
  match err with
  | .ptrError _ => true
  | _ => false

/-! ## Types and values as seen through package reflect -/

/-- The part of `reflect.StructField` that matters here: the field name, the package path,
which reflect leaves empty exactly for exported fields, and `Anonymous`, which marks an
embedded field (its methods are promoted to the struct). -/
structure StructField where
  Name : String
  PkgPath : String
  Anonymous : Bool
deriving DecidableEq, Repr

/-- Kinds without structure of their own. -/
inductive BasicKind where
  | Bool | Int | Float64 | String | Func | Chan
deriving DecidableEq, Repr

/-- The values of `reflect.Kind` used by the model. -/
inductive Kind where
  | Invalid | Bool | Int | Float64 | String | Func | Chan
  | Map | Ptr | Slice | Array | Struct | Interface
deriving DecidableEq, Repr

def BasicKind.toKind : BasicKind → Kind
  | .Bool => .Bool
  | .Int => .Int
  | .Float64 => .Float64
  | .String => .String
  | .Func => .Func
  | .Chan => .Chan

/-- Type descriptors, as far as building a zero value needs them. The `name` is
`Type().Name()`: empty for an unnamed type. A type declaration that refers to itself is
`recur name body`, in whose `body` the reference is `self name`: `type P *P` is
`recur "P" (ptr "P" (self "P"))`, `type P **P` is `recur "P" (ptr "P" (ptr "" (self "P")))`,
the pair `type P *Q; type Q *P` is `recur "P" (ptr "P" (ptr "Q" (self "P")))`, and
`type Node struct { Next *Node }` is
`recur "Node" (struct "Node" [(Next, ptr "" (self "Node"))])`. Slices, maps and interfaces
carry no element type, so a type that refers to itself only through them needs no `recur`. -/
inductive GoType where
  | basic (name : String) (kind : BasicKind)
  | map (name : String)
  | ptr (name : String) (elem : GoType)
  | slice (name : String)
  | array (name : String) (len : Nat) (elem : GoType)
  | struct (name : String) (fields : List (StructField × GoType))
  | iface (name : String)
  | recur (name : String) (body : GoType)
  | self (name : String)

def GoType.name : GoType → String
  | .basic n _ => n
  | .map n => n
  | .ptr n _ => n
  | .slice n => n
  | .array n _ _ => n
  | .struct n _ => n
  | .iface n => n
  | .recur _ b => b.name
  | .self n => n

/-- The kind `Type.Kind()` of a type. -/
def GoType.Kind : GoType → Kind
  | .basic _ k => k.toKind
  | .map _ => .Map
  | .ptr _ _ => .Ptr
  | .slice _ => .Slice
  | .array _ _ _ => .Array
  | .struct _ _ => .Struct
  | .iface _ => .Interface
  | .recur _ b => b.Kind
  | .self _ => .Invalid

mutual
/-- The type with every reference `self n` replaced by the declaration `env` gives for `n`;
a declaration `recur n` inside hides the outer one of the same name. -/
def GoType.subst (env : List (String × GoType)) : GoType → GoType
  | .basic n k => .basic n k
  | .map n => .map n
  | .ptr n e => .ptr n (e.subst env)
  | .slice n => .slice n
  | .array n len e => .array n len (e.subst env)
  | .struct n fs => .struct n (substFields env fs)
  | .iface n => .iface n
  | .recur n b => .recur n (b.subst (env.filter (fun p => p.1 ≠ n)))
  | .self n =>
    match env.lookup n with
    | some t => t
    | none => .self n
/-- The same for the field types of a struct type. -/
def substFields (env : List (String × GoType)) :
    List (StructField × GoType) → List (StructField × GoType)
  | [] => []
  | (f, t) :: rest => (f, t.subst env) :: substFields env rest
end

/-- Go values. A storage slot of interface type is `iface`, holding its dynamic value. -/
inductive Val where
  | basic (name : String) (kind : BasicKind) (data : Nat)
  | map (name : String) (entries : List (Val × Val))
  | nilPtr (name : String) (elem : GoType)
  | ptrTo (name : String) (cell : Val)
  | slice (name : String) (elems : List Val)
  | array (name : String) (elems : List Val)
  | struct (name : String) (fields : List (StructField × Val))
  | iface (name : String) (dyn : Option Val)

/-- An `interface{}` value: `none` is the untyped nil. -/
abbrev Any := Option Val

/-- The method `Value.Kind` on a valid value. -/
def Val.Kind : Val → Kind
  | .basic _ k _ => k.toKind
  | .map _ _ => .Map
  | .nilPtr _ _ => .Ptr
  | .ptrTo _ _ => .Ptr
  | .slice _ _ => .Slice
  | .array _ _ => .Array
  | .struct _ _ => .Struct
  | .iface _ _ => .Interface

/-- The name `Value.Type().Name()`. -/
def Val.typeName : Val → String
  | .basic n _ _ => n
  | .map n _ => n
  | .nilPtr n _ => n
  | .ptrTo n _ => n
  | .slice n _ => n
  | .array n _ => n
  | .struct n _ => n
  | .iface n _ => n

/-- The method `Value.IsNil` for pointers and interface slots (the kinds the code asks about). -/
def Val.IsNil : Val → Bool
  | .nilPtr _ _ => true
  | .iface _ none => true
  | _ => false

/-- The method `Value.Interface`: a copy of the value as an `interface{}`; for a slot of
interface type this is the dynamic value inside it. -/
def Val.Interface : Val → Any
  | .iface _ d => d
  | v => some v

/-- What a slot holds after code that worked on the copy `Val.Interface` has updated memory
cells reachable from that copy: the slot keeps its own type, the copy brings the cells. -/
def Val.restore : Val → Any → Val
  | .iface n _, a => .iface n a
  | _, some x => x
  | v, none => v

mutual
/-- The zero value of a type inside the declarations `env`: the element type a null pointer
carries is closed by `env`, so that it can be read on its own. A type cannot contain itself
other than behind a pointer, so a bare `self n` has no zero value to speak of. -/
def zeroValueIn (env : List (String × GoType)) : GoType → Val
  | .basic n k => .basic n k 0
  | .map n => .map n []
  | .ptr n e => .nilPtr n (e.subst env)
  | .slice n => .slice n []
  | .array n len e => .array n (List.replicate len (zeroValueIn env e))
  | .struct n fs => .struct n (zeroFieldsIn env fs)
  | .iface n => .iface n none
  | .recur n b => zeroValueIn ((n, (GoType.recur n b).subst env) :: env) b
  | .self n => .basic n .Bool 0
/-- Zero values of the fields of a struct type inside the declarations `env`. -/
def zeroFieldsIn (env : List (String × GoType)) :
    List (StructField × GoType) → List (StructField × Val)
  | [] => []
  | (f, t) :: rest => (f, zeroValueIn env t) :: zeroFieldsIn env rest
end

mutual
/-- The zero value of a type, which `reflect.New` allocates. -/
def zeroValue : GoType → Val
  | .basic n k => .basic n k 0
  | .map n => .map n []
  | .ptr n e => .nilPtr n e
  | .slice n => .slice n []
  | .array n len e => .array n (List.replicate len (zeroValue e))
  | .struct n fs => .struct n (zeroFields fs)
  | .iface n => .iface n none
  | .recur n b => zeroValueIn [(n, .recur n b)] b
  | .self n => .basic n .Bool 0
/-- Zero values of the fields of a struct type. -/
def zeroFields : List (StructField × GoType) → List (StructField × Val)
  | [] => []
  | (f, t) :: rest => (f, zeroValue t) :: zeroFields rest
end

/-- A `reflect.Value`: `val = none` is the zero Value (kind `Invalid`); `flagAddr` is
what `CanAddr` reports. -/
structure Value where
  val : Option Val
  flagAddr : Bool

/-- The function `reflect.ValueOf`: never addressable. -/
def ValueOf (i : Any) : Value :=
  { val := i, flagAddr := false }

def Value.Kind (value : Value) : Kind :=
  match value.val with
  | none => .Invalid
  | some v => v.Kind

def Value.IsNil (value : Value) : Bool :=
  match value.val with
  | none => false
  | some v => v.IsNil

/-! ## The validatable interface (lines 27-30) -/

/-- The `Validate() *Error` methods declared in the program, by the name of the receiver's
base type: `valueRecv T` is `func (t T) Validate() *Error`, `ptrRecv T` is
`func (t *T) Validate() *Error` (it receives the pointer). `ifaceRecv I` tells whether the
interface type `I` lists `Validate() *Error`, and `pkgPath T` is the package path of the
named type `T`, which the run-time system prints in a panic message. -/
structure Methods where
  valueRecv : String → Option (Val → Option Error)
  ptrRecv : String → Option (Val → Option Error)
  ifaceRecv : String → Bool
  pkgPath : String → String

/-- Outcome of calling a `Validate` method: it returns a `*Error`, or the call panics. -/
inductive Call where
  | returns (e : Option Error)
  | panics (msg : String)
deriving DecidableEq

/-- An entry named `Validate` that the selector rules of Go meet in a type: a method that is
in the method set, with the outcome of calling it, or an entry that only hides the deeper
ones (a field of that name, or a pointer-receiver method of a type that is not reached
through a pointer). -/
inductive Found where
  | method (c : Call)
  | hidden
deriving DecidableEq

/-- The text of the run-time error for a nil pointer dereference. -/
def nilDereference : String :=
  "runtime error: invalid memory address or nil pointer dereference"

/-- The text with which the wrapper `(*T).Validate` of a value-receiver method panics on a
nil `*T`. -/
def valueMethodOnNil (M : Methods) (T : String) : String :=
  "value method " ++ M.pkgPath T ++ "." ++ T ++ ".Validate called using nil *" ++ T ++ " pointer"

/-- The method `Validate` declared on the named type `T`, for the receiver `recv`; `ind`
tells whether `recv` is reached through a pointer, which a pointer-receiver method needs. -/
def declaredOn (M : Methods) (T : String) (recv : Val) (ind : Bool) : List Found :=
  match M.valueRecv T with
  | some g => [.method (.returns (g recv))]
  | none =>
    match M.ptrRecv T with
    | some f => if ind then [.method (.returns (f (.ptrTo "" recv)))] else [.hidden]
    | none => []

/-- The method `Validate` declared on the named type `T`, for the nil `*T` pointer `p`: a
pointer-receiver method is called with `p`, a value-receiver method cannot be called and
panics with `msg`. -/
def declaredOnNil (M : Methods) (T : String) (p : Val) (msg : String) : List Found :=
  match M.valueRecv T with
  | some _ => [.method (.panics msg)]
  | none =>
    match M.ptrRecv T with
    | some f => [.method (.returns (f p))]
    | none => []

/-- The fields named `Validate` of a struct: each hides the methods promoted from deeper. -/
def fieldsNamed {α : Type} (fs : List (StructField × α)) : List Found :=
  fs.filterMap (fun p => if p.1.Name = "Validate" then some Found.hidden else none)

/-- Entries by depth of two embedded fields of one struct, put together. -/
def mergeLevels : List (List Found) → List (List Found) → List (List Found)
  | [], ys => ys
  | x :: xs, [] => x :: xs
  | x :: xs, y :: ys => (x ++ y) :: mergeLevels xs ys

/-- The selector rule of Go on the entries by depth: the shallowest depth with an entry
decides, and it gives a method only if it holds exactly one entry and that is a method of
the method set. -/
def pickMethod : List (List Found) → Option Call
  | [] => none
  | [] :: deeper => pickMethod deeper
  | [.method c] :: _ => some c
  | _ :: _ => none

/-- The method `Validate` declared on the named type `T` when the receiver lies behind a
nil pointer: the call dereferences that pointer. -/
def declaredBehindNil (M : Methods) (T : String) : List Found :=
  if (M.valueRecv T).isSome ∨ (M.ptrRecv T).isSome then [.method (.panics nilDereference)]
  else []

mutual
/-- The entries named `Validate` by depth in the type `T` of a nil `*T` pointer. `decl`
enters the method declared on `T` itself; everything deeper lies behind the nil pointer, so
that calling it dereferences the pointer. An embedded field of type `*U` brings what `U`
brings; a reference `self n` is a type the search has met at a shallower depth. -/
def GoType.selectorsNil (M : Methods) (decl : String → List Found) : GoType → List (List Found)
  | .basic n _ => [decl n]
  | .map n => [decl n]
  | .slice n => [decl n]
  | .array n _ _ => [decl n]
  | .struct n fs => (decl n ++ fieldsNamed fs) :: embeddedNil M fs
  | .ptr _ e => e.selectorsNil M decl
  | .iface n => [if M.ifaceRecv n then [.method (.panics nilDereference)] else []]
  | .recur _ b => b.selectorsNil M decl
  | .self _ => []
/-- The entries by depth that the embedded fields of a struct type behind a nil pointer
bring, one level below the struct. -/
def embeddedNil (M : Methods) : List (StructField × GoType) → List (List Found)
  | [] => []
  | (f, t) :: rest =>
    if f.Anonymous then mergeLevels (t.selectorsNil M (declaredBehindNil M)) (embeddedNil M rest)
    else embeddedNil M rest
end

/-- The entries named `Validate` by depth for the nil pointer `p` of type `*T`, `T` being
`elem`; `msg` is the panic of a value-receiver method declared on `T`. The method sets of
a pointer to a pointer and of a pointer to an interface are empty. -/
def selectorsOfNil (M : Methods) (p : Val) (elem : GoType) (msg : String) :
    List (List Found) :=
  if elem.Kind = Kind.Ptr ∨ elem.Kind = Kind.Interface then []
  else elem.selectorsNil M (fun T => declaredOnNil M T p msg)

mutual
/-- The entries named `Validate` by depth for a value that is the resolved value itself or
an embedded field of it (`ind`: reached through a pointer). An embedded `*T` brings the
entries of the `T` it points at, an embedded interface its method, called on the dynamic
value. -/
def Val.selectors (M : Methods) (ind : Bool) : Val → List (List Found)
  | .basic n k d => [declaredOn M n (.basic n k d) ind]
  | .map n es => [declaredOn M n (.map n es) ind]
  | .slice n es => [declaredOn M n (.slice n es) ind]
  | .array n es => [declaredOn M n (.array n es) ind]
  | .struct n fs => (declaredOn M n (.struct n fs) ind ++ fieldsNamed fs) :: embedded M ind fs
  | .nilPtr n elem =>
    if n = "" then selectorsOfNil M (.nilPtr n elem) elem nilDereference else []
  | .ptrTo n c =>
    if n = "" ∧ c.Kind ≠ Kind.Ptr ∧ c.Kind ≠ Kind.Interface then c.selectors M true else []
  | .iface n none => [if M.ifaceRecv n then [.method (.panics nilDereference)] else []]
  | .iface n (some d) =>
    [if M.ifaceRecv n then
      [.method ((Methods.validate M d).getD (.panics nilDereference))] else []]
/-- The entries by depth that the embedded fields of a struct bring, one level below it. -/
def embedded (M : Methods) (ind : Bool) : List (StructField × Val) → List (List Found)
  | [] => []
  | (f, x) :: rest =>
    if f.Anonymous then mergeLevels (x.selectors M ind) (embedded M ind rest)
    else embedded M ind rest
/-- The type assertion `x.(validatable)` on a dynamic value together with the call
`val.Validate()`: `none` when the method set of the dynamic type lacks `Validate`.
A type `T` has its value-receiver methods and an unnamed pointer type `*T` both kinds; a
struct also has the methods promoted from its embedded fields, from an embedded `T` those
of `T` and from an embedded `*T` those of `*T`; a named pointer type has none. Calling a
value-receiver method through a nil `*T` panics, and so does a promoted call that has to
go through a nil embedded pointer. -/
def Methods.validate (M : Methods) : Val → Option Call
  | .basic n k d => pickMethod [declaredOn M n (.basic n k d) false]
  | .map n es => pickMethod [declaredOn M n (.map n es) false]
  | .slice n es => pickMethod [declaredOn M n (.slice n es) false]
  | .array n es => pickMethod [declaredOn M n (.array n es) false]
  | .struct n fs =>
    pickMethod ((declaredOn M n (.struct n fs) false ++ fieldsNamed fs) :: embedded M false fs)
  | .nilPtr n elem =>
    if n = "" then
      pickMethod (selectorsOfNil M (.nilPtr n elem) elem (valueMethodOnNil M elem.name))
    else none
  | .ptrTo n c =>
    if n = "" ∧ c.Kind ≠ Kind.Ptr ∧ c.Kind ≠ Kind.Interface then pickMethod (c.selectors M true)
    else none
  | .iface _ _ => none
end

/-! ## isPrivateField (lines 100-103) -/

/-- The function `unicode.ToLower` on the code points below 0x100, the only ones a single
byte converted to a string can denote (`A`-`Z`, `À`-`Ö`, `Ø`-`Þ` move by 32); code points
above that range are left alone by the model. -/
def unicodeToLower (c : Char) : Char :=
  if (0x41 ≤ c.toNat ∧ c.toNat ≤ 0x5A) ∨ (0xC0 ≤ c.toNat ∧ c.toNat ≤ 0xD6)
      ∨ (0xD8 ≤ c.toNat ∧ c.toNat ≤ 0xDE) then
    Char.ofNat (c.toNat + 32)
  else c

/-- The function `strings.ToLower`. -/
def stringsToLower (s : String) : String :=
  String.mk (s.data.map unicodeToLower)

/-- The conversion `string(b)` of a byte: the string of the one code point numbered `b`. -/
def stringOfByte (b : UInt8) : String :=
  String.mk [Char.ofNat b.toNat]

/-- The function `isPrivateField`. `fieldName[0]` is the first byte of the UTF-8 form of the
name, and indexing an empty string panics. -/
def isPrivateField (fieldName : String) : Run Bool :=
  match fieldName.data with
  | [] => .panic "runtime error: index out of range [0] with length 0"
  | c :: _ =>
    match String.utf8EncodeChar c with
    | [] => .panic "runtime error: index out of range [0] with length 0"
    | b :: _ =>
      let init := stringOfByte b
      .done (decide (init = stringsToLower init))

/-! ## indirect (lines 76-98) -/

/-- Result of `indirect`: the resolved `reflect.Value` (`value`, `flagAddr`) and `store`,
which maps a content of the resolved location to the resulting content of the handle
that was passed in (the memory written by `Set` included). -/
structure Resolved where
  value : Val
  flagAddr : Bool
  store : Val → Val

/-- The `for` loop of `indirect` (lines 81-96), one unit of fuel per iteration. -/
def indirectLoop : Nat → Val → Bool → (Val → Val) → Run Resolved
  | 0, _, _, _ => .outOfFuel
  | fuel + 1, value, addr, store =>
    match value with
    | .iface n (some (.ptrTo pn cell)) =>
      -- lines 82-87: a non-nil interface whose element is a non-nil pointer
      indirectLoop fuel (.ptrTo pn cell) false (fun p => store (.iface n (some p)))
    | .nilPtr n elem =>
      -- lines 92-95: Set(New(Type().Elem())), then Elem()
      if addr then indirectLoop fuel (zeroValue elem) true (fun c => store (.ptrTo n c))
      else .panic "reflect: reflect.Value.Set using unaddressable value"
    | .ptrTo n cell =>
      -- line 95: Elem() of a non-nil pointer is addressable
      indirectLoop fuel cell true (fun c => store (.ptrTo n c))
    | v =>
      -- lines 89-91: not a pointer
      .done { value := v, flagAddr := addr, store := store }

/-- The function `indirect`. On the zero Value the kind is `Invalid`, so `value.Type()`
on line 78 is evaluated and panics. -/
def indirect (fuel : Nat) (value : Value) : Run Resolved :=
  match value.val with
  | none => .panic "reflect: call of reflect.Value.Type on zero Value"
  | some v =>
    if v.Kind ≠ Kind.Ptr ∧ v.typeName ≠ "" ∧ value.flagAddr = true then
      -- line 79: value = value.Addr()
      indirectLoop fuel (.ptrTo "" v) false
        (fun p => match p with
          | .ptrTo _ c => c
          | _ => v)
    else indirectLoop fuel v value.flagAddr id

/-! ## Check (lines 32-74) -/

/-- The loop of lines 46-50 over `value.Index(i).Interface()`. Returns the elements with
the memory updates made while checking them, and the error that stopped the loop. -/
def checkElems (Validate : Any → Run (Any × GoError)) : List Val → Run (List Val × GoError)
  | [] => .done ([], .nil)
  | e :: rest =>
    match Validate e.Interface with
    | .done (a, err) =>
      if err = GoError.nil then
        match checkElems Validate rest with
        | .done (rest', err') => .done (e.restore a :: rest', err')
        | .panic m => .panic m
        | .outOfFuel => .outOfFuel
      else .done (e.restore a :: rest, err)
    | .panic m => .panic m
    | .outOfFuel => .outOfFuel

/-- The loop of lines 54-63 over the fields of a struct. `Value.Interface` panics on a
field reflect marks as unexported (non-empty `PkgPath`). -/
def checkFields (Validate : Any → Run (Any × GoError)) :
    List (StructField × Val) → Run (List (StructField × Val) × GoError)
  | [] => .done ([], .nil)
  | (f, x) :: rest =>
    match isPrivateField f.Name with
    | .done true =>
      match checkFields Validate rest with
      | .done (rest', err') => .done ((f, x) :: rest', err')
      | .panic m => .panic m
      | .outOfFuel => .outOfFuel
    | .done false =>
      if f.PkgPath = "" then
        match Validate x.Interface with
        | .done (a, err) =>
          if err = GoError.nil then
            match checkFields Validate rest with
            | .done (rest', err') => .done ((f, x.restore a) :: rest', err')
            | .panic m => .panic m
            | .outOfFuel => .outOfFuel
          else .done ((f, x.restore a) :: rest, err)
        | .panic m => .panic m
        | .outOfFuel => .outOfFuel
      else .panic "reflect.Value.Interface: cannot return value obtained from unexported field or method"
    | .panic m => .panic m
    | .outOfFuel => .outOfFuel

/-- Lines 66-70: the type assertion to `validatable` on the resolved value and the call of
its `Validate`. -/
def selfCheck (M : Methods) (value : Val) : Run GoError :=
  match value.Interface with
  | none => .done .nil
  | some x =>
    match M.validate x with
    | none => .done .nil
    | some (.returns none) => .done .nil
    | some (.returns (some e)) => .done (.ptrError (some e))
    | some (.panics m) => .panic m

/-- Lines 45-70 on the resolved value: descent into elements or fields, then the value's
own `Validate`. Returns the resolved value with the memory updates of the descent. -/
def checkResolved (M : Methods) (Validate : Any → Run (Any × GoError)) (value : Val) :
    Run (Val × GoError) :=
  match value with
  | .slice n elems =>
    match checkElems Validate elems with
    | .done (elems', err) =>
      if err = GoError.nil then
        match selfCheck M (.slice n elems') with
        | .done err' => .done (.slice n elems', err')
        | .panic m => .panic m
        | .outOfFuel => .outOfFuel
      else .done (.slice n elems', err)
    | .panic m => .panic m
    | .outOfFuel => .outOfFuel
  | .array n elems =>
    match checkElems Validate elems with
    | .done (elems', err) =>
      if err = GoError.nil then
        match selfCheck M (.array n elems') with
        | .done err' => .done (.array n elems', err')
        | .panic m => .panic m
        | .outOfFuel => .outOfFuel
      else .done (.array n elems', err)
    | .panic m => .panic m
    | .outOfFuel => .outOfFuel
  | .struct n fields =>
    match checkFields Validate fields with
    | .done (fields', err) =>
      if err = GoError.nil then
        match selfCheck M (.struct n fields') with
        | .done err' => .done (.struct n fields', err')
        | .panic m => .panic m
        | .outOfFuel => .outOfFuel
      else .done (.struct n fields', err)
    | .panic m => .panic m
    | .outOfFuel => .outOfFuel
  | v =>
    match selfCheck M v with
    | .done err' => .done (v, err')
    | .panic m => .panic m
    | .outOfFuel => .outOfFuel

/-- The body of the loop over `values` (lines 36-70) for one argument `v`. The result is
the argument with the memory updates made, and the error to return (`nil`: go on). -/
def checkValue (M : Methods) (fuel : Nat) (Validate : Any → Run (Any × GoError)) (v : Any) :
    Run (Any × GoError) :=
  let value := ValueOf v
  if value.Kind = Kind.Ptr ∧ value.IsNil = true then
    -- lines 37-39: continue
    .done (v, .nil)
  else
    match indirect fuel (ValueOf v) with
    | .done r =>
      match checkResolved M Validate r.value with
      | .done (value', err) => .done (some (r.store value'), err)
      | .panic m => .panic m
      | .outOfFuel => .outOfFuel
    | .panic m => .panic m
    | .outOfFuel => .outOfFuel

/-- The loop `for _, v := range values` of line 35 with the `return nil` of line 73. -/
def checkLoop (body : Any → Run (Any × GoError)) : List Any → Run (List Any × GoError)
  | [] => .done ([], .nil)
  | v :: rest =>
    match body v with
    | .done (v', err) =>
      if err = GoError.nil then
        match checkLoop body rest with
        | .done (rest', err') => .done (v' :: rest', err')
        | .panic m => .panic m
        | .outOfFuel => .outOfFuel
      else .done (v' :: rest, err)
    | .panic m => .panic m
    | .outOfFuel => .outOfFuel

/-- Modelled from the spec: section 4.1 step 2 on the handle of an element or field, as the
undeclared `Validate` applies it. A null pointer is bound to a fresh zero value of the
pointed-to type; any other handle is left as it is. -/
def bindNull (x : Any) : Any :=
  match x with
  | some (.nilPtr n elem) => some (.ptrTo n (zeroValue elem))
  | x => x

/-- Modelled from the spec: the package-level function `Validate` that lines 47 and 60 call
is not declared in `validity.go`. Section 4.2 of the spec has each element and field
"recursively applying the full check (resolve, classify, descend, self-check)", and keeps
the skip of a null pointer to the top-level arguments: a null pointer met during descent
is bound in place to a fresh zero value, and resolution goes on from that instance
(section 4.1 step 2, property P4). So `Validate(x)` binds `x` if it is a null pointer and
runs the check of the `Check` being run on the result. -/
def Validate (check : List Any → Run (List Any × GoError)) (x : Any) : Run (Any × GoError) :=
  match check [bindNull x] with
  | .done (xs, err) => .done (xs.headD (bindNull x), err)
  | .panic m => .panic m
  | .outOfFuel => .outOfFuel

/-- The function `Check`. `fuel` bounds the nesting depth of the recursion through
`Validate` and the iterations of each `indirect` loop. The result is the argument list
with the memory updates made, and the returned `error`. -/
def Check (M : Methods) : Nat → List Any → Run (List Any × GoError)
  | 0, values => checkLoop (checkValue M 0 (fun _ => .outOfFuel)) values
  | fuel + 1, values => checkLoop (checkValue M (fuel + 1) (Validate (Check M fuel))) values

/-! ## Auxiliary definitions used by the statements -/

/-- The loop body of `Check` at a fuel level: `checkValue` with the callee that
lines 47 and 60 reach at that level. -/
def checkBody (M : Methods) : Nat → Any → Run (Any × GoError)
  | 0 => checkValue M 0 (fun _ => .outOfFuel)
  | fuel + 1 => checkValue M (fuel + 1) (Validate (Check M fuel))

/-- What `isPrivateField` computes from the first character of a name. -/
def privateOfChar (c : Char) : Run Bool :=
  match String.utf8EncodeChar c with
  | [] => .panic "runtime error: index out of range [0] with length 0"
  | b :: _ => .done (decide (stringOfByte b = stringsToLower (stringOfByte b)))

/-- The lowercase letters among the code points below 0x100 (`a`-`z`, `µ`, `ß`-`ö`,
`ø`-`ÿ`); the statements use it on that range only. -/
def isLowercaseLetter (c : Char) : Bool :=
  decide ((0x61 ≤ c.toNat ∧ c.toNat ≤ 0x7A) ∨ c.toNat = 0xB5
    ∨ (0xDF ≤ c.toNat ∧ c.toNat ≤ 0xF6) ∨ (0xF8 ≤ c.toNat ∧ c.toNat ≤ 0xFF))

/-- The visibility rule in the words of the spec (section 3): a field is public if and
only if the first character of its name is not a lowercase letter. -/
def specIsPublic (fieldName : String) : Option Bool :=
  match fieldName.data with
  | [] => none
  | c :: _ => some (!isLowercaseLetter c)

/-- A table with no `Validate` method at all. -/
def noMethods : Methods :=
  ⟨fun _ => none, fun _ => none, fun _ => false, fun _ => "main"⟩

/-- A table in which exactly the named types of `failing` have a value-receiver
`Validate`, which always fails with the message paired with the type name. -/
def alwaysFailing (failing : List (String × String)) : Methods :=
  ⟨fun n => (failing.lookup n).map (fun msg => fun _ => some ⟨msg⟩), fun _ => none,
    fun _ => false, fun _ => "main"⟩

/-- The errors `Check` can return: nil, or a non-nil `*Error`. -/
def FromValidate (err : GoError) : Prop :=
  err = .nil ∨ ∃ e, err = .ptrError (some e)

/-- A table in which exactly the named types of `failing` have a pointer-receiver
`Validate`, which always fails with the message paired with the type name. -/
def alwaysFailingPtr (failing : List (String × String)) : Methods :=
  ⟨fun _ => none, fun n => (failing.lookup n).map (fun msg => fun _ => some ⟨msg⟩),
    fun _ => false, fun _ => "main"⟩

/-- Lines 45-64 on the resolved value: the descent into elements or fields alone, without
the self-check of lines 66-70. -/
def descend (Validate : Any → Run (Any × GoError)) (value : Val) : Run (Val × GoError) :=
  match value with
  | .slice n elems =>
    match checkElems Validate elems with
    | .done (elems', err) => .done (.slice n elems', err)
    | .panic m => .panic m
    | .outOfFuel => .outOfFuel
  | .array n elems =>
    match checkElems Validate elems with
    | .done (elems', err) => .done (.array n elems', err)
    | .panic m => .panic m
    | .outOfFuel => .outOfFuel
  | .struct n fields =>
    match checkFields Validate fields with
    | .done (fields', err) => .done (.struct n fields', err)
    | .panic m => .panic m
    | .outOfFuel => .outOfFuel
  | v => .done (v, .nil)

/-- What the caller observes of a run: the returned error, a panic, or no answer; the
updated values are left out. -/
def outcome {α : Type} (r : Run (α × GoError)) : Run GoError :=
  match r with
  | .done (_, err) => .done err
  | .panic m => .panic m
  | .outOfFuel => .outOfFuel

/-- The type has at most `d` nested levels and no declaration in it refers to itself. -/
def GoType.boundedBy : Nat → GoType → Bool
  | 0, _ => false
  | d + 1, .ptr _ e => e.boundedBy d
  | d + 1, .array _ _ e => e.boundedBy d
  | d + 1, .struct _ fs => fs.all (fun p => p.2.boundedBy d)
  | _ + 1, .recur _ _ => false
  | _ + 1, .self _ => false
  | _ + 1, _ => true

/-- The value has at most `d` nested levels (pointer cells, elements, fields, boxed
values), the element types of its null pointers included, and no declaration in those
types refers to itself. -/
def Val.boundedBy : Nat → Val → Bool
  | 0, _ => false
  | d + 1, .nilPtr _ e => e.boundedBy d
  | d + 1, .ptrTo _ c => c.boundedBy d
  | d + 1, .slice _ es => es.all (fun e => e.boundedBy d)
  | d + 1, .array _ es => es.all (fun e => e.boundedBy d)
  | d + 1, .struct _ fs => fs.all (fun p => p.2.boundedBy d)
  | d + 1, .iface _ (some x) => x.boundedBy d
  | _ + 1, _ => true

/-- The frame of the traversal: `Binds v v'` says that `v'` is `v` after some null pointers
held in a slot (the cell of a pointer, an interface slot, an element or a field) have been
bound to fresh zero values of their element types (`bind`); the other rules carry such a
change up to the enclosing cell, interface slot, element or field, and nothing else may
differ. -/
inductive Binds : Val → Val → Prop
  | refl (v : Val) : Binds v v
  | trans {a b c : Val} : Binds a b → Binds b c → Binds a c
  | bind (m : String) (e : GoType) : Binds (.nilPtr m e) (.ptrTo m (zeroValue e))
  | cell {n : String} {c c' : Val} : Binds c c' → Binds (.ptrTo n c) (.ptrTo n c')
  | box {n : String} {x x' : Val} : Binds x x' → Binds (.iface n (some x)) (.iface n (some x'))
  | sliceElem {n : String} {pre : List Val} {e e' : Val} {post : List Val} :
      Binds e e' → Binds (.slice n (pre ++ e :: post)) (.slice n (pre ++ e' :: post))
  | arrayElem {n : String} {pre : List Val} {e e' : Val} {post : List Val} :
      Binds e e' → Binds (.array n (pre ++ e :: post)) (.array n (pre ++ e' :: post))
  | field {n : String} {pre : List (StructField × Val)} {f : StructField} {x x' : Val}
      {post : List (StructField × Val)} :
      Binds x x' → Binds (.struct n (pre ++ (f, x) :: post)) (.struct n (pre ++ (f, x') :: post))

/-- The relation `Binds` on the arguments of `Check`; an argument is not a slot, so that
one that is itself a null pointer stays as it is. -/
def BindsAny (a a' : Any) : Prop :=
  match a, a' with
  | none, none => True
  | some v, some v' => Binds v v' ∧ ∀ n e, v = .nilPtr n e → v' = v
  | _, _ => False

/-- The relation `Binds` on what an element or a field holds, which is a slot. -/
def BindsSlot (a a' : Any) : Prop :=
  match a, a' with
  | none, none => True
  | some v, some v' => Binds v v'
  | _, _ => False

/-- A null pointer slot is reachable by resolution: `ReachNull addr v` says that resolving
`v` (held in a slot when `addr` is true), or an element or public field the traversal
descends into, comes to a slot that holds a null pointer. Elements and fields are slots. -/
inductive ReachNull : Bool → Val → Prop
  | slot (n : String) (e : GoType) : ReachNull true (.nilPtr n e)
  | deref (b : Bool) (n : String) (c : Val) : ReachNull true c → ReachNull b (.ptrTo n c)
  | unbox (b : Bool) (n pn : String) (c : Val) :
      ReachNull true c → ReachNull b (.iface n (some (.ptrTo pn c)))
  | sliceElem (b : Bool) (n : String) (pre : List Val) (e : Val) (post : List Val) (w : Val) :
      e.Interface = some w → ReachNull true w → ReachNull b (.slice n (pre ++ e :: post))
  | arrayElem (b : Bool) (n : String) (pre : List Val) (e : Val) (post : List Val) (w : Val) :
      e.Interface = some w → ReachNull true w → ReachNull b (.array n (pre ++ e :: post))
  | field (b : Bool) (n : String) (pre : List (StructField × Val)) (f : StructField) (x : Val)
      (post : List (StructField × Val)) (w : Val) :
      isPrivateField f.Name = .done false → x.Interface = some w → ReachNull true w →
      ReachNull b (.struct n (pre ++ (f, x) :: post))

/-- The length `Len()` of a slice or array and the number `NumField()` of a struct; zero
for the other kinds. -/
def Val.len : Val → Nat
  | .slice _ es => es.length
  | .array _ es => es.length
  | .struct _ fs => fs.length
  | _ => 0

mutual
/-- No declaration in the type refers to itself: the type is written without `recur`. -/
def GoType.nonRecursive : GoType → Bool
  | .ptr _ e => e.nonRecursive
  | .array _ _ e => e.nonRecursive
  | .struct _ fs => nonRecursiveFieldTypes fs
  | .recur _ _ => false
  | .self _ => false
  | _ => true
/-- The same for the field types of a struct type. -/
def nonRecursiveFieldTypes : List (StructField × GoType) → Bool
  | [] => true
  | (_, t) :: rest => t.nonRecursive && nonRecursiveFieldTypes rest
end

mutual
/-- No type of the value refers to itself: the element types of its null pointers, at any
depth, are written without `recur`. -/
def Val.nonRecursive : Val → Bool
  | .nilPtr _ e => e.nonRecursive
  | .ptrTo _ c => c.nonRecursive
  | .slice _ es => nonRecursiveVals es
  | .array _ es => nonRecursiveVals es
  | .struct _ fs => nonRecursiveFields fs
  | .iface _ (some x) => x.nonRecursive
  | _ => true
/-- The same for the elements of a sequence. -/
def nonRecursiveVals : List Val → Bool
  | [] => true
  | e :: rest => e.nonRecursive && nonRecursiveVals rest
/-- The same for the fields of a record. -/
def nonRecursiveFields : List (StructField × Val) → Bool
  | [] => true
  | (_, x) :: rest => x.nonRecursive && nonRecursiveFields rest
end

/-- The struct has an embedded field, whose methods are promoted to it. -/
def Val.embeds : Val → Bool
  | .struct _ fs => fs.any (fun p => p.1.Anonymous)
  | _ => false

/-! ## Lemmas on the loops -/

theorem Check_eq_checkLoop (M : Methods) (fuel : Nat) (vs : List Any) :
    Check M fuel vs = checkLoop (checkBody M fuel) vs := by
  cases fuel <;> rfl

theorem checkLoop_cons_pass (body : Any → Run (Any × GoError)) (v v' : Any) (rest : List Any)
    (h : body v = .done (v', .nil)) :
    checkLoop body (v :: rest) =
      match checkLoop body rest with
      | .done (rest', err') => .done (v' :: rest', err')
      | .panic m => .panic m
      | .outOfFuel => .outOfFuel := by
  simp [checkLoop, h]

theorem checkLoop_cons_fail (body : Any → Run (Any × GoError)) (v v' : Any) (rest : List Any)
    (err : GoError) (h : body v = .done (v', err)) (herr : err ≠ .nil) :
    checkLoop body (v :: rest) = .done (v' :: rest, err) := by
  simp [checkLoop, h, herr]

theorem checkLoop_single (body : Any → Run (Any × GoError)) (v v' : Any) (err : GoError)
    (h : body v = .done (v', err)) : checkLoop body [v] = .done ([v'], err) := by
  by_cases he : err = GoError.nil <;> simp [checkLoop, h, he]

theorem checkLoop_single_inv (body : Any → Run (Any × GoError)) (v : Any) (out : List Any)
    (err : GoError) (h : checkLoop body [v] = .done (out, err)) :
    ∃ v', out = [v'] ∧ body v = .done (v', err) := by
  simp only [checkLoop] at h
  cases hb : body v with
  | done p =>
    obtain ⟨v', e⟩ := p
    rw [hb] at h
    by_cases he : e = GoError.nil
    · simp [he] at h
      exact ⟨v', h.1.symm, by rw [he, h.2]⟩
    · simp [he] at h
      exact ⟨v', h.1.symm, by rw [h.2]⟩
  | panic m => rw [hb] at h; simp at h
  | outOfFuel => rw [hb] at h; simp at h

theorem Validate_Check (M : Methods) (fuel : Nat) (x : Any) :
    Validate (Check M fuel) x = checkBody M fuel (bindNull x) := by
  rw [Validate, Check_eq_checkLoop]
  simp only [checkLoop]
  cases hb : checkBody M fuel (bindNull x) with
  | done p =>
    obtain ⟨v', e⟩ := p
    by_cases he : e = GoError.nil <;> simp [he]
  | panic m => simp
  | outOfFuel => simp

theorem bindNull_nilPtr (n : String) (elem : GoType) :
    bindNull (some (.nilPtr n elem)) = some (.ptrTo n (zeroValue elem)) := rfl

theorem bindNull_none : bindNull none = none := rfl

theorem bindNull_of_kind (v : Val) (h : v.Kind ≠ Kind.Ptr) : bindNull (some v) = some v := by
  cases v <;> simp_all [bindNull, Val.Kind]

theorem bindNull_ptrTo (n : String) (c : Val) : bindNull (some (.ptrTo n c)) = some (.ptrTo n c) :=
  rfl

theorem bindNull_of_notNil (v : Val) (h : v.IsNil = false) : bindNull (some v) = some v := by
  cases v <;> simp_all [bindNull, Val.IsNil]

theorem checkBody_of_Check (M : Methods) (fuel : Nat) (x a : Any) (err : GoError)
    (h : Check M fuel [x] = .done ([a], err)) : checkBody M fuel x = .done (a, err) := by
  rw [Check_eq_checkLoop] at h
  obtain ⟨v', hv, hb⟩ := checkLoop_single_inv _ _ _ _ h
  have : a = v' := by simpa using hv
  rw [this]; exact hb

theorem isPrivateField_cons (name : String) (c : Char) (rest : List Char)
    (h : name.data = c :: rest) : isPrivateField name = privateOfChar c := by
  simp only [isPrivateField, h, privateOfChar]

set_option maxRecDepth 100000 in
theorem privateOfChar_ascii_aux :
    ∀ n : Nat, n < 128 →
      privateOfChar (Char.ofNat n) = .done (decide (¬ (0x41 ≤ n ∧ n ≤ 0x5A))) := by
  decide

theorem privateOfChar_ascii (c : Char) (h : c.toNat < 128) :
    privateOfChar c = .done (decide (¬ (0x41 ≤ c.toNat ∧ c.toNat ≤ 0x5A))) := by
  have := privateOfChar_ascii_aux c.toNat h
  rwa [Char.ofNat_toNat] at this

theorem indirect_struct (fuel : Nat) (n : String) (fs : List (StructField × Val)) :
    ∃ r, indirect (fuel + 1) (ValueOf (some (.struct n fs))) = .done r ∧
      r.value = .struct n fs ∧ r.store = id := by
  refine ⟨⟨.struct n fs, false, id⟩, ?_, rfl, rfl⟩
  simp [indirect, ValueOf, indirectLoop]

theorem checkBody_struct (M : Methods) (fuel : Nat) (n : String) (fs : List (StructField × Val)) :
    checkBody M (fuel + 1) (some (.struct n fs)) =
      match checkResolved M (Validate (Check M fuel)) (.struct n fs) with
      | .done (value', err) => .done (some value', err)
      | .panic m => .panic m
      | .outOfFuel => .outOfFuel := by
  simp [checkBody, checkValue, ValueOf, Value.Kind, Val.Kind, indirect, indirectLoop]

theorem checkBody_ptr_struct (M : Methods) (fuel : Nat) (pn n : String)
    (fs : List (StructField × Val)) :
    checkBody M (fuel + 2) (some (.ptrTo pn (.struct n fs))) =
      match checkResolved M (Validate (Check M (fuel + 1))) (.struct n fs) with
      | .done (value', err) => .done (some (.ptrTo pn value'), err)
      | .panic m => .panic m
      | .outOfFuel => .outOfFuel := by
  simp [checkBody, checkValue, ValueOf, Value.Kind, Value.IsNil, Val.IsNil, Val.Kind, indirect,
    indirectLoop]

theorem checkFields_append_pass (V : Any → Run (Any × GoError))
    (pre pre' l : List (StructField × Val)) (h : checkFields V pre = .done (pre', .nil)) :
    checkFields V (pre ++ l) =
      match checkFields V l with
      | .done (l', err) => .done (pre' ++ l', err)
      | .panic m => .panic m
      | .outOfFuel => .outOfFuel := by
  induction pre generalizing pre' with
  | nil =>
    simp [checkFields] at h
    subst h
    cases hl : checkFields V l <;> simp [hl]
  | cons p pre ih =>
    obtain ⟨f, x⟩ := p
    simp only [List.cons_append, checkFields] at h ⊢
    cases hpf : isPrivateField f.Name with
    | done b =>
      rw [hpf] at h
      cases b with
      | true =>
        simp only at h ⊢
        cases hrest : checkFields V pre with
        | done q =>
          obtain ⟨rest', e⟩ := q
          rw [hrest] at h
          simp at h
          obtain ⟨h1, h2⟩ := h
          subst h1 h2
          rw [List.append_eq, ih rest' hrest]
          cases hl : checkFields V l <;> simp
        | panic m => rw [hrest] at h; simp at h
        | outOfFuel => rw [hrest] at h; simp at h
      | false =>
        simp only at h ⊢
        by_cases hp : f.PkgPath = ""
        · simp only [hp, if_true] at h ⊢
          cases hv : V x.Interface with
          | done q =>
            obtain ⟨a, e⟩ := q
            rw [hv] at h
            simp only at h ⊢
            by_cases he : e = GoError.nil
            · simp only [he, if_true] at h ⊢
              cases hrest : checkFields V pre with
              | done q =>
                obtain ⟨rest', e2⟩ := q
                rw [hrest] at h
                simp at h
                obtain ⟨h1, h2⟩ := h
                subst h1 h2
                rw [List.append_eq, ih rest' hrest]
                cases hl : checkFields V l <;> simp
              | panic m => rw [hrest] at h; simp at h
              | outOfFuel => rw [hrest] at h; simp at h
            · simp [he] at h
          | panic m => rw [hv] at h; simp at h
          | outOfFuel => rw [hv] at h; simp at h
        · simp [hp] at h
    | panic m => rw [hpf] at h; simp at h
    | outOfFuel => rw [hpf] at h; simp at h

theorem checkBody_nilPtr (M : Methods) (fuel : Nat) (n : String) (elem : GoType) :
    checkBody M fuel (some (.nilPtr n elem)) = .done (some (.nilPtr n elem), .nil) := by
  cases fuel <;> simp [checkBody, checkValue, ValueOf, Value.Kind, Value.IsNil, Val.IsNil, Val.Kind]

/-! ## C2: the loop over the arguments -/

theorem checkLoop_prefix_pass (body : Any → Run (Any × GoError)) (pre : List Any)
    (h : ∀ x ∈ pre, ∃ x', body x = .done (x', .nil)) :
    ∃ pre', pre'.length = pre.length ∧ ∀ l, checkLoop body (pre ++ l) =
      match checkLoop body l with
      | .done (l', err) => .done (pre' ++ l', err)
      | .panic m => .panic m
      | .outOfFuel => .outOfFuel := by
  induction pre with
  | nil =>
    refine ⟨[], rfl, fun l => ?_⟩
    cases hl : checkLoop body l <;> simp [hl]
  | cons x pre ih =>
    obtain ⟨x', hx⟩ := h x (List.mem_cons_self _ _)
    obtain ⟨pre', hlen, hpre⟩ := ih (fun y hy => h y (List.mem_cons_of_mem _ hy))
    refine ⟨x' :: pre', by simp [hlen], fun l => ?_⟩
    rw [List.cons_append, checkLoop_cons_pass body x x' _ hx, hpre l]
    cases hl : checkLoop body l <;> simp

/-- C2. First-failure short-circuit over the argument list: when `Check` of each value
before `v` returns no failure and `Check` of `v` returns the failure `err`, `Check` of the
whole list returns `err` whatever values follow `v` (they are handed back untouched); and
when `Check` of every value returns no failure, so does `Check` of the list. -/
theorem C2_first_failure_wins (M : Methods) (fuel : Nat) :
    (∀ (pre : List Any) (v : Any) (post : List Any) (v' : Any) (err : GoError),
      (∀ x ∈ pre, ∃ x', Check M fuel [x] = .done ([x'], .nil)) →
      Check M fuel [v] = .done ([v'], err) → err ≠ .nil →
      ∃ pre', pre'.length = pre.length ∧
        Check M fuel (pre ++ v :: post) = .done (pre' ++ v' :: post, err))
    ∧ (∀ vs : List Any, (∀ x ∈ vs, ∃ x', Check M fuel [x] = .done ([x'], .nil)) →
      ∃ vs', vs'.length = vs.length ∧ Check M fuel vs = .done (vs', .nil)) := by
  constructor
  · intro pre v post v' err hpre hv herr
    have hpre' : ∀ x ∈ pre, ∃ x', checkBody M fuel x = .done (x', .nil) := fun x hx => by
      obtain ⟨x', hx'⟩ := hpre x hx
      exact ⟨x', checkBody_of_Check M fuel x x' _ hx'⟩
    obtain ⟨pre', hlen, hrun⟩ := checkLoop_prefix_pass _ pre hpre'
    refine ⟨pre', hlen, ?_⟩
    rw [Check_eq_checkLoop, hrun,
      checkLoop_cons_fail _ v v' post err (checkBody_of_Check M fuel v v' err hv) herr]
  · intro vs hvs
    have hvs' : ∀ x ∈ vs, ∃ x', checkBody M fuel x = .done (x', .nil) := fun x hx => by
      obtain ⟨x', hx'⟩ := hvs x hx
      exact ⟨x', checkBody_of_Check M fuel x x' _ hx'⟩
    obtain ⟨vs', hlen, hrun⟩ := checkLoop_prefix_pass _ vs hvs'
    refine ⟨vs', hlen, ?_⟩
    have := hrun []
    simp only [List.append_nil, checkLoop] at this
    rw [Check_eq_checkLoop, this]

/-- C2 (witness): three arguments, the second and third of which fail with different
messages; the failure of the second is returned. -/
theorem C2_first_failure_wins_witness :
    ∃ pre', pre'.length = [some (Val.basic "A" .Int 1)].length ∧
      Check (alwaysFailing [("B", "m"), ("C", "other")]) 1
        ([some (Val.basic "A" .Int 1)] ++ some (Val.struct "B" []) :: [some (Val.struct "C" [])])
        = .done (pre' ++ some (Val.struct "B" []) :: [some (Val.struct "C" [])],
            .ptrError (some ⟨"m"⟩)) :=
  (C2_first_failure_wins (alwaysFailing [("B", "m"), ("C", "other")]) 1).1
    [some (Val.basic "A" .Int 1)] (some (Val.struct "B" [])) [some (Val.struct "C" [])]
    (some (Val.struct "B" [])) (.ptrError (some ⟨"m"⟩))
    (fun x hx => by
      rw [List.mem_singleton] at hx
      subst hx
      exact ⟨some (Val.basic "A" .Int 1), rfl⟩)
    rfl (by decide)

/-! ## C3 and C4: the loop over the fields -/

theorem checkFields_cons_fail (V : Any → Run (Any × GoError)) (f : StructField) (x : Val)
    (rest : List (StructField × Val)) (a : Any) (err : GoError)
    (hf : isPrivateField f.Name = .done false) (hp : f.PkgPath = "")
    (hv : V x.Interface = .done (a, err)) (herr : err ≠ .nil) :
    checkFields V ((f, x) :: rest) = .done ((f, x.restore a) :: rest, err) := by
  simp [checkFields, hf, hp, hv, herr]

theorem checkFields_cons_private (V : Any → Run (Any × GoError)) (f : StructField) (x : Val)
    (rest : List (StructField × Val)) (hf : isPrivateField f.Name = .done true) :
    checkFields V ((f, x) :: rest) =
      match checkFields V rest with
      | .done (rest', err') => .done ((f, x) :: rest', err')
      | .panic m => .panic m
      | .outOfFuel => .outOfFuel := by
  simp [checkFields, hf]

theorem Validate_of_Check (M : Methods) (fuel : Nat) (x a : Any) (err : GoError)
    (h : Check M fuel [x] = .done ([a], err)) (herr : err ≠ .nil) :
    Validate (Check M fuel) x = .done (a, err) := by
  have hb := checkBody_of_Check M fuel x a err h
  rw [Validate_Check]
  cases x with
  | none => exact hb
  | some v =>
    cases v with
    | nilPtr n e =>
      rw [checkBody_nilPtr] at hb
      simp only [Run.done.injEq, Prod.mk.injEq] at hb
      exact absurd hb.2.symm herr
    | _ => exact hb

/-- C3. Children before self: when the loop over the fields before the public field `f`
completes without failure and `Check` of the value held by `f` returns the failure `err`,
`Check` of the record returns `err`, whatever the record's own `Validate` would report;
the own `Validate` is reached only when no field has failed. -/
theorem C3_child_failure_before_self (M : Methods) (fuel : Nat) (name : String)
    (pre pre' post : List (StructField × Val)) (f : StructField) (s : Val) (a : Any)
    (err : GoError)
    (hf : isPrivateField f.Name = .done false) (hp : f.PkgPath = "")
    (hpre : checkFields (Validate (Check M fuel)) pre = .done (pre', .nil))
    (hs : Check M fuel [s.Interface] = .done ([a], err)) (herr : err ≠ .nil) :
    Check M (fuel + 1) [some (.struct name (pre ++ (f, s) :: post))]
      = .done ([some (.struct name (pre' ++ (f, s.restore a) :: post))], err) := by
  have hfields : checkFields (Validate (Check M fuel)) (pre ++ (f, s) :: post)
      = .done (pre' ++ (f, s.restore a) :: post, err) := by
    rw [checkFields_append_pass _ _ _ _ hpre,
      checkFields_cons_fail _ f s post a err hf hp (Validate_of_Check M fuel _ a err hs herr) herr]
  rw [Check_eq_checkLoop]
  apply checkLoop_single
  rw [checkBody_struct]
  simp [checkResolved, hfields, herr]

/-- C3 (witness): `R` always fails with "R-self", its public field `Child` holds an `S`,
which always fails with "S-self"; `Check` of the `R` returns "S-self". -/
theorem C3_child_failure_before_self_witness :
    Check (alwaysFailing [("R", "R-self"), ("S", "S-self")]) 2
        [some (.struct "R" ([] ++ (⟨"Child", "", false⟩, .struct "S" []) :: []))]
      = .done ([some (.struct "R"
          ([] ++ (⟨"Child", "", false⟩, (Val.struct "S" []).restore (some (.struct "S" []))) :: []))],
          .ptrError (some ⟨"S-self"⟩)) :=
  C3_child_failure_before_self (alwaysFailing [("R", "R-self"), ("S", "S-self")]) 1 "R"
    [] [] [] ⟨"Child", "", false⟩ (.struct "S" []) (some (.struct "S" []))
    (.ptrError (some ⟨"S-self"⟩)) (by decide) rfl rfl rfl (by decide)

theorem isPrivateField_ascii_lower (name : String) (c : Char) (rest : List Char)
    (h : name.data = c :: rest) (hc : 0x61 ≤ c.toNat ∧ c.toNat ≤ 0x7A) :
    isPrivateField name = .done true := by
  rw [isPrivateField_cons name c rest h, privateOfChar_ascii c (by omega)]
  simp only [Run.done.injEq, decide_eq_true_eq]
  omega

theorem isPrivateField_ascii_upper (name : String) (c : Char) (rest : List Char)
    (h : name.data = c :: rest) (hc : 0x41 ≤ c.toNat ∧ c.toNat ≤ 0x5A) :
    isPrivateField name = .done false := by
  rw [isPrivateField_cons name c rest h, privateOfChar_ascii c (by omega)]
  simp only [Run.done.injEq, decide_eq_false_iff_not, not_not]
  exact hc

/-- Field visibility for names that begin with an ASCII letter: with the other fields and
the record's own `Validate` passing, a failing value in a field named with a lowercase
first letter leaves `Check` of the record without failure, and the same value in an
exported field named with an uppercase first letter makes `Check` return its failure. -/
theorem field_visibility_ascii (M : Methods) (fuel : Nat) (name : String)
    (pre pre' post post' : List (StructField × Val)) (fLower fUpper : StructField) (x : Val)
    (a : Any) (err : GoError) (cl cu : Char) (restl restu : List Char)
    (hl : fLower.Name.data = cl :: restl) (hcl : 0x61 ≤ cl.toNat ∧ cl.toNat ≤ 0x7A)
    (hu : fUpper.Name.data = cu :: restu) (hcu : 0x41 ≤ cu.toNat ∧ cu.toNat ≤ 0x5A)
    (hexp : fUpper.PkgPath = "")
    (hpre : checkFields (Validate (Check M fuel)) pre = .done (pre', .nil))
    (hpost : checkFields (Validate (Check M fuel)) post = .done (post', .nil))
    (hx : Check M fuel [x.Interface] = .done ([a], err)) (herr : err ≠ .nil)
    (hself : selfCheck M (.struct name (pre' ++ (fLower, x) :: post')) = .done .nil) :
    Check M (fuel + 1) [some (.struct name (pre ++ (fLower, x) :: post))]
        = .done ([some (.struct name (pre' ++ (fLower, x) :: post'))], .nil)
    ∧ Check M (fuel + 1) [some (.struct name (pre ++ (fUpper, x) :: post))]
        = .done ([some (.struct name (pre' ++ (fUpper, x.restore a) :: post))], err) := by
  constructor
  · have hfields : checkFields (Validate (Check M fuel)) (pre ++ (fLower, x) :: post)
        = .done (pre' ++ (fLower, x) :: post', .nil) := by
      rw [checkFields_append_pass _ _ _ _ hpre,
        checkFields_cons_private _ fLower x post (isPrivateField_ascii_lower _ cl restl hl hcl),
        hpost]
    rw [Check_eq_checkLoop]
    apply checkLoop_single
    rw [checkBody_struct]
    simp [checkResolved, hfields, hself]
  · have hfields : checkFields (Validate (Check M fuel)) (pre ++ (fUpper, x) :: post)
        = .done (pre' ++ (fUpper, x.restore a) :: post, err) := by
      rw [checkFields_append_pass _ _ _ _ hpre,
        checkFields_cons_fail _ fUpper x post a err
          (isPrivateField_ascii_upper _ cu restu hu hcu) hexp
          (Validate_of_Check M fuel _ a err hx herr) herr]
    rw [Check_eq_checkLoop]
    apply checkLoop_single
    rw [checkBody_struct]
    simp [checkResolved, hfields, herr]

/-- C4 (the code at the failing input). The field name "éa" begins with a lowercase
letter, but its first byte 0xC3 read as a code point is the uppercase letter "Ã", so
`isPrivateField` answers false; `Check` of a record holding a value in that field, which
reflect marks as unexported, then panics in `Value.Interface` instead of returning no
failure. -/
theorem C4_non_ascii_lowercase_field_not_skipped :
    isPrivateField "éa" = .done false
    ∧ ∀ (M : Methods) (fuel : Nat) (name : String) (x : Val),
      Check M (fuel + 1) [some (.struct name [(⟨"éa", "main", false⟩, x)])]
        = .panic "reflect.Value.Interface: cannot return value obtained from unexported field or method" := by
  have h : isPrivateField "éa" = .done false := by decide
  refine ⟨h, fun M fuel name x => ?_⟩
  rw [Check_eq_checkLoop]
  simp [checkLoop, checkBody_struct, checkResolved, checkFields, h]

/-! ## C5: isPrivateField -/

/-- C5 (counterexample). The name "_x" begins with a character that is not a lowercase
letter, so the rule of the spec makes the field public; `isPrivateField` answers true. -/
theorem C5_underscore_is_private :
    isPrivateField "_x" = .done true ∧ specIsPublic "_x" = some true := by
  decide

/-- C5 (amended). For every name whose first character is an ASCII character,
`isPrivateField` returns true exactly when that character is not an uppercase letter
`A`-`Z`: lowercase letters and caseless characters such as `_` are private, the
uppercase letters are public. -/
theorem C5_isPrivateField_ascii (name : String) (c : Char) (rest : List Char)
    (h : name.data = c :: rest) (hc : c.toNat < 128) :
    isPrivateField name = .done (decide (¬ (0x41 ≤ c.toNat ∧ c.toNat ≤ 0x5A))) := by
  rw [isPrivateField_cons name c rest h]
  exact privateOfChar_ascii c hc

/-- C5 (witness): the name "Name". -/
theorem C5_isPrivateField_ascii_witness :
    isPrivateField "Name" = .done (decide (¬ (0x41 ≤ 'N'.toNat ∧ 'N'.toNat ≤ 0x5A))) :=
  C5_isPrivateField_ascii "Name" 'N' ['a', 'm', 'e'] rfl (by decide)

/-! ## C6: the loop over the elements -/

theorem checkElems_prefix_pass (V : Any → Run (Any × GoError)) (pre : List Val)
    (h : ∀ x ∈ pre, ∃ a, V x.Interface = .done (a, .nil)) :
    ∃ pre', pre'.length = pre.length ∧ ∀ l, checkElems V (pre ++ l) =
      match checkElems V l with
      | .done (l', err) => .done (pre' ++ l', err)
      | .panic m => .panic m
      | .outOfFuel => .outOfFuel := by
  induction pre with
  | nil =>
    refine ⟨[], rfl, fun l => ?_⟩
    cases hl : checkElems V l <;> simp [hl]
  | cons x pre ih =>
    obtain ⟨a, hx⟩ := h x (List.mem_cons_self _ _)
    obtain ⟨pre', hlen, hpre⟩ := ih (fun y hy => h y (List.mem_cons_of_mem _ hy))
    refine ⟨x.restore a :: pre', by simp [hlen], fun l => ?_⟩
    simp only [List.cons_append, checkElems, hx, if_true, List.append_eq]
    rw [hpre l]
    cases hl : checkElems V l <;> simp

theorem checkElems_cons_fail (V : Any → Run (Any × GoError)) (e : Val) (rest : List Val)
    (a : Any) (err : GoError) (hv : V e.Interface = .done (a, err)) (herr : err ≠ .nil) :
    checkElems V (e :: rest) = .done (e.restore a :: rest, err) := by
  simp [checkElems, hv, herr]

theorem checkBody_slice (M : Methods) (fuel : Nat) (n : String) (es : List Val) :
    checkBody M (fuel + 1) (some (.slice n es)) =
      match checkResolved M (Validate (Check M fuel)) (.slice n es) with
      | .done (value', err) => .done (some value', err)
      | .panic m => .panic m
      | .outOfFuel => .outOfFuel := by
  simp [checkBody, checkValue, ValueOf, Value.Kind, Val.Kind, indirect, indirectLoop]

theorem checkBody_array (M : Methods) (fuel : Nat) (n : String) (es : List Val) :
    checkBody M (fuel + 1) (some (.array n es)) =
      match checkResolved M (Validate (Check M fuel)) (.array n es) with
      | .done (value', err) => .done (some value', err)
      | .panic m => .panic m
      | .outOfFuel => .outOfFuel := by
  simp [checkBody, checkValue, ValueOf, Value.Kind, Val.Kind, indirect, indirectLoop]

/-- C6. Sequence order: when the check of every element before `e` (the call of line 47 on
it) returns no failure and the check of `e` returns the failure `err`, `Check` of the
slice, and of the array, with the elements `pre ++ e :: post` returns `err`, whatever the
elements after `e` are. -/
theorem C6_lowest_index_failure (M : Methods) (fuel : Nat) (n : String) (pre : List Val)
    (e : Val) (post : List Val) (a : Any) (err : GoError)
    (hpre : ∀ x ∈ pre, ∃ a', Validate (Check M fuel) x.Interface = .done (a', .nil))
    (he : Validate (Check M fuel) e.Interface = .done (a, err)) (herr : err ≠ .nil) :
    ∃ pre', pre'.length = pre.length ∧
      Check M (fuel + 1) [some (.slice n (pre ++ e :: post))]
        = .done ([some (.slice n (pre' ++ e.restore a :: post))], err) ∧
      Check M (fuel + 1) [some (.array n (pre ++ e :: post))]
        = .done ([some (.array n (pre' ++ e.restore a :: post))], err) := by
  obtain ⟨pre', hlen, hrun⟩ := checkElems_prefix_pass _ pre hpre
  have helems : checkElems (Validate (Check M fuel)) (pre ++ e :: post)
      = .done (pre' ++ e.restore a :: post, err) := by
    rw [hrun, checkElems_cons_fail _ e post a err he herr]
  refine ⟨pre', hlen, ?_, ?_⟩
  · rw [Check_eq_checkLoop]
    apply checkLoop_single
    rw [checkBody_slice]
    simp [checkResolved, helems, herr]
  · rw [Check_eq_checkLoop]
    apply checkLoop_single
    rw [checkBody_array]
    simp [checkResolved, helems, herr]

/-- C6 (witness): three elements, those at index 0 and 2 fail with distinct messages and
the failure of index 0 is returned; and three elements of which index 1 and 2 fail, where
the failure of index 1 is returned. -/
theorem C6_lowest_index_failure_witness :
    (∃ pre', pre'.length = ([] : List Val).length ∧
      Check (alwaysFailing [("A", "first"), ("B", "third")]) 2
          [some (.slice "" ([] ++ Val.struct "A" [] :: [Val.basic "int" .Int 7, Val.struct "B" []]))]
        = .done ([some (.slice "" (pre' ++ (Val.struct "A" []).restore (some (.struct "A" []))
            :: [Val.basic "int" .Int 7, Val.struct "B" []]))], .ptrError (some ⟨"first"⟩)) ∧
      Check (alwaysFailing [("A", "first"), ("B", "third")]) 2
          [some (.array "" ([] ++ Val.struct "A" [] :: [Val.basic "int" .Int 7, Val.struct "B" []]))]
        = .done ([some (.array "" (pre' ++ (Val.struct "A" []).restore (some (.struct "A" []))
            :: [Val.basic "int" .Int 7, Val.struct "B" []]))], .ptrError (some ⟨"first"⟩)))
    ∧ (∃ pre', pre'.length = [Val.basic "int" .Int 7].length ∧
      Check (alwaysFailing [("A", "second"), ("B", "third")]) 2
          [some (.slice "" ([Val.basic "int" .Int 7] ++ Val.struct "A" [] :: [Val.struct "B" []]))]
        = .done ([some (.slice "" (pre' ++ (Val.struct "A" []).restore (some (.struct "A" []))
            :: [Val.struct "B" []]))], .ptrError (some ⟨"second"⟩)) ∧
      Check (alwaysFailing [("A", "second"), ("B", "third")]) 2
          [some (.array "" ([Val.basic "int" .Int 7] ++ Val.struct "A" [] :: [Val.struct "B" []]))]
        = .done ([some (.array "" (pre' ++ (Val.struct "A" []).restore (some (.struct "A" []))
            :: [Val.struct "B" []]))], .ptrError (some ⟨"second"⟩))) :=
  ⟨C6_lowest_index_failure (alwaysFailing [("A", "first"), ("B", "third")]) 1 "" []
      (.struct "A" []) [.basic "int" .Int 7, .struct "B" []] (some (.struct "A" []))
      (.ptrError (some ⟨"first"⟩)) (fun x hx => absurd hx (List.not_mem_nil x)) rfl (by decide),
    C6_lowest_index_failure (alwaysFailing [("A", "second"), ("B", "third")]) 1 ""
      [.basic "int" .Int 7] (.struct "A" []) [.struct "B" []] (some (.struct "A" []))
      (.ptrError (some ⟨"second"⟩))
      (fun x hx => by
        rw [List.mem_singleton] at hx
        subst hx
        exact ⟨some (Val.basic "int" .Int 7), rfl⟩)
      rfl (by decide)⟩

/-! ## C7, C8, C9: nil arguments -/

/-- C7. A null pointer passed as an argument is skipped: `Check` of it alone returns no
failure and hands it back still null, whatever `Validate` methods exist, and `Check` of a
list that begins with it is `Check` of the remaining arguments. -/
theorem C7_top_level_nil_pointer_skipped (M : Methods) (fuel : Nat) (n : String)
    (elem : GoType) (rest : List Any) :
    Check M fuel [some (.nilPtr n elem)] = .done ([some (.nilPtr n elem)], .nil)
    ∧ Check M fuel (some (.nilPtr n elem) :: rest) =
      match Check M fuel rest with
      | .done (rest', err) => .done (some (.nilPtr n elem) :: rest', err)
      | .panic m => .panic m
      | .outOfFuel => .outOfFuel := by
  constructor
  · rw [Check_eq_checkLoop]
    exact checkLoop_single _ _ _ _ (checkBody_nilPtr M fuel n elem)
  · rw [Check_eq_checkLoop, Check_eq_checkLoop,
      checkLoop_cons_pass _ _ _ rest (checkBody_nilPtr M fuel n elem)]

theorem checkBody_none (M : Methods) (fuel : Nat) :
    checkBody M fuel none = .panic "reflect: call of reflect.Value.Type on zero Value" := by
  cases fuel <;> simp [checkBody, checkValue, ValueOf, Value.Kind, indirect]

/-- C8 (the code at the failing input). `Check` of the untyped nil panics at every fuel,
and so does `Check` of a record with a public field of interface type holding nil. -/
theorem C8_untyped_nil_panics (M : Methods) (fuel : Nat) :
    Check M fuel [none] = .panic "reflect: call of reflect.Value.Type on zero Value"
    ∧ ∀ (name iname : String),
      Check M (fuel + 1) [some (.struct name [(⟨"Err", "", false⟩, .iface iname none)])]
        = .panic "reflect: call of reflect.Value.Type on zero Value" := by
  constructor
  · rw [Check_eq_checkLoop]
    simp [checkLoop, checkBody_none]
  · intro name iname
    have h : isPrivateField "Err" = .done false := by decide
    rw [Check_eq_checkLoop]
    simp [checkLoop, checkBody_struct, checkResolved, checkFields, h, Val.Interface,
      Validate_Check, bindNull, checkBody_none]

/-- C9 (the code at the failing input). No `Validate` method exists at all, so nothing
reachable can report a failure; yet `Check` of the untyped nil, and `Check` of a slice of
interfaces holding one nil element, do not return no-failure: they panic. -/
theorem C9_valid_input_panics (fuel : Nat) :
    Check noMethods fuel [none] = .panic "reflect: call of reflect.Value.Type on zero Value"
    ∧ Check noMethods (fuel + 1) [some (.slice "" [.iface "" none])]
      = .panic "reflect: call of reflect.Value.Type on zero Value" := by
  constructor
  · rw [Check_eq_checkLoop]
    simp [checkLoop, checkBody_none]
  · rw [Check_eq_checkLoop]
    simp [checkLoop, checkBody_slice, checkResolved, checkElems, Val.Interface, Validate_Check,
      bindNull, checkBody_none]

/-! ## C10: every returned failure is a `*Error` -/

theorem selfCheck_fromValidate (M : Methods) (v : Val) (err : GoError)
    (h : selfCheck M v = .done err) : FromValidate err := by
  unfold selfCheck at h
  split at h
  · simp at h; exact Or.inl h.symm
  · split at h
    · simp at h; exact Or.inl h.symm
    · simp at h; exact Or.inl h.symm
    · simp at h; exact Or.inr ⟨_, h.symm⟩
    · simp at h

theorem checkElems_fromValidate (V : Any → Run (Any × GoError))
    (hV : ∀ x a err, V x = .done (a, err) → FromValidate err) (l l' : List Val)
    (err : GoError) (h : checkElems V l = .done (l', err)) : FromValidate err := by
  induction l generalizing l' err with
  | nil => simp [checkElems] at h; exact Or.inl h.2.symm
  | cons e rest ih =>
    simp only [checkElems] at h
    cases hv : V e.Interface with
    | done q =>
      obtain ⟨a, e0⟩ := q
      rw [hv] at h
      by_cases he : e0 = GoError.nil
      · simp only [he, if_true] at h
        cases hrest : checkElems V rest with
        | done q =>
          obtain ⟨rest', e1⟩ := q
          rw [hrest] at h
          simp at h
          rw [← h.2]
          exact ih rest' e1 hrest
        | panic m => rw [hrest] at h; simp at h
        | outOfFuel => rw [hrest] at h; simp at h
      · simp [he] at h
        rw [← h.2]
        exact hV _ _ _ hv
    | panic m => rw [hv] at h; simp at h
    | outOfFuel => rw [hv] at h; simp at h

theorem checkFields_fromValidate (V : Any → Run (Any × GoError))
    (hV : ∀ x a err, V x = .done (a, err) → FromValidate err)
    (l l' : List (StructField × Val)) (err : GoError)
    (h : checkFields V l = .done (l', err)) : FromValidate err := by
  induction l generalizing l' err with
  | nil => simp [checkFields] at h; exact Or.inl h.2.symm
  | cons p rest ih =>
    obtain ⟨f, x⟩ := p
    simp only [checkFields] at h
    cases hpf : isPrivateField f.Name with
    | done b =>
      rw [hpf] at h
      cases b with
      | true =>
        simp only at h
        cases hrest : checkFields V rest with
        | done q =>
          obtain ⟨rest', e1⟩ := q
          rw [hrest] at h
          simp at h
          rw [← h.2]
          exact ih rest' e1 hrest
        | panic m => rw [hrest] at h; simp at h
        | outOfFuel => rw [hrest] at h; simp at h
      | false =>
        simp only at h
        by_cases hp : f.PkgPath = ""
        · simp only [hp, if_true] at h
          cases hv : V x.Interface with
          | done q =>
            obtain ⟨a, e0⟩ := q
            rw [hv] at h
            by_cases he : e0 = GoError.nil
            · simp only [he, if_true] at h
              cases hrest : checkFields V rest with
              | done q =>
                obtain ⟨rest', e1⟩ := q
                rw [hrest] at h
                simp at h
                rw [← h.2]
                exact ih rest' e1 hrest
              | panic m => rw [hrest] at h; simp at h
              | outOfFuel => rw [hrest] at h; simp at h
            · simp [he] at h
              rw [← h.2]
              exact hV _ _ _ hv
          | panic m => rw [hv] at h; simp at h
          | outOfFuel => rw [hv] at h; simp at h
        · simp [hp] at h
    | panic m => rw [hpf] at h; simp at h
    | outOfFuel => rw [hpf] at h; simp at h

theorem checkResolved_fromValidate (M : Methods) (V : Any → Run (Any × GoError))
    (hV : ∀ x a err, V x = .done (a, err) → FromValidate err) (v v' : Val) (err : GoError)
    (h : checkResolved M V v = .done (v', err)) : FromValidate err := by
  unfold checkResolved at h
  split at h
  · cases hl : checkElems V _ with
    | done q =>
      obtain ⟨l', e0⟩ := q
      rw [hl] at h
      by_cases he : e0 = GoError.nil
      · simp only [he, if_true] at h
        cases hs : selfCheck M (.slice _ l') with
        | done e1 =>
          rw [hs] at h
          simp at h
          rw [← h.2]
          exact selfCheck_fromValidate M _ _ hs
        | panic m => rw [hs] at h; simp at h
        | outOfFuel => rw [hs] at h; simp at h
      · simp [he] at h
        rw [← h.2]
        exact checkElems_fromValidate V hV _ _ _ hl
    | panic m => rw [hl] at h; simp at h
    | outOfFuel => rw [hl] at h; simp at h
  · cases hl : checkElems V _ with
    | done q =>
      obtain ⟨l', e0⟩ := q
      rw [hl] at h
      by_cases he : e0 = GoError.nil
      · simp only [he, if_true] at h
        cases hs : selfCheck M (.array _ l') with
        | done e1 =>
          rw [hs] at h
          simp at h
          rw [← h.2]
          exact selfCheck_fromValidate M _ _ hs
        | panic m => rw [hs] at h; simp at h
        | outOfFuel => rw [hs] at h; simp at h
      · simp [he] at h
        rw [← h.2]
        exact checkElems_fromValidate V hV _ _ _ hl
    | panic m => rw [hl] at h; simp at h
    | outOfFuel => rw [hl] at h; simp at h
  · cases hl : checkFields V _ with
    | done q =>
      obtain ⟨l', e0⟩ := q
      rw [hl] at h
      by_cases he : e0 = GoError.nil
      · simp only [he, if_true] at h
        cases hs : selfCheck M (.struct _ l') with
        | done e1 =>
          rw [hs] at h
          simp at h
          rw [← h.2]
          exact selfCheck_fromValidate M _ _ hs
        | panic m => rw [hs] at h; simp at h
        | outOfFuel => rw [hs] at h; simp at h
      · simp [he] at h
        rw [← h.2]
        exact checkFields_fromValidate V hV _ _ _ hl
    | panic m => rw [hl] at h; simp at h
    | outOfFuel => rw [hl] at h; simp at h
  · cases hs : selfCheck M v with
    | done e1 =>
      rw [hs] at h
      simp at h
      rw [← h.2]
      exact selfCheck_fromValidate M _ _ hs
    | panic m => rw [hs] at h; simp at h
    | outOfFuel => rw [hs] at h; simp at h

theorem checkValue_fromValidate (M : Methods) (fuel : Nat) (V : Any → Run (Any × GoError))
    (hV : ∀ x a err, V x = .done (a, err) → FromValidate err) (v v' : Any) (err : GoError)
    (h : checkValue M fuel V v = .done (v', err)) : FromValidate err := by
  unfold checkValue at h
  simp only at h
  split at h
  · simp at h; exact Or.inl h.2.symm
  · cases hi : indirect fuel (ValueOf v) with
    | done r =>
      rw [hi] at h
      simp only at h
      cases hr : checkResolved M V r.value with
      | done q =>
        obtain ⟨w, e0⟩ := q
        rw [hr] at h
        simp at h
        rw [← h.2]
        exact checkResolved_fromValidate M V hV _ _ _ hr
      | panic m => rw [hr] at h; simp at h
      | outOfFuel => rw [hr] at h; simp at h
    | panic m => rw [hi] at h; simp at h
    | outOfFuel => rw [hi] at h; simp at h

theorem checkBody_fromValidate (M : Methods) (fuel : Nat) (v v' : Any) (err : GoError)
    (h : checkBody M fuel v = .done (v', err)) : FromValidate err := by
  induction fuel generalizing v v' err with
  | zero =>
    exact checkValue_fromValidate M 0 _ (fun x a e hx => by simp at hx) v v' err h
  | succ k ih =>
    refine checkValue_fromValidate M (k + 1) _ (fun x a e hx => ?_) v v' err h
    rw [Validate_Check] at hx
    exact ih _ a e hx

theorem checkLoop_fromValidate (body : Any → Run (Any × GoError))
    (hb : ∀ x a err, body x = .done (a, err) → FromValidate err) (l l' : List Any)
    (err : GoError) (h : checkLoop body l = .done (l', err)) : FromValidate err := by
  induction l generalizing l' err with
  | nil => simp [checkLoop] at h; exact Or.inl h.2.symm
  | cons v rest ih =>
    simp only [checkLoop] at h
    cases hv : body v with
    | done q =>
      obtain ⟨a, e0⟩ := q
      rw [hv] at h
      by_cases he : e0 = GoError.nil
      · simp only [he, if_true] at h
        cases hrest : checkLoop body rest with
        | done q =>
          obtain ⟨rest', e1⟩ := q
          rw [hrest] at h
          simp at h
          rw [← h.2]
          exact ih rest' e1 hrest
        | panic m => rw [hrest] at h; simp at h
        | outOfFuel => rw [hrest] at h; simp at h
      · simp [he] at h
        rw [← h.2]
        exact hb _ _ _ hv
    | panic m => rw [hv] at h; simp at h
    | outOfFuel => rw [hv] at h; simp at h

/-- C10. Every failure `Check` returns is a validation failure: a non-nil error returned
by `Check`, at any fuel and so at any nesting depth of the recursion, is a non-nil
`*Error`, for which `IsError` is true. -/
theorem C10_returned_failure_isError (M : Methods) (fuel : Nat) (vs out : List Any)
    (err : GoError) (h : Check M fuel vs = .done (out, err)) (hne : err ≠ .nil) :
    IsError err = true ∧ ∃ e, err = .ptrError (some e) := by
  rw [Check_eq_checkLoop] at h
  rcases checkLoop_fromValidate _ (checkBody_fromValidate M fuel) vs out err h with h0 | ⟨e, he⟩
  · exact absurd h0 hne
  · exact ⟨by rw [he]; rfl, e, he⟩

/-- C10 (witness): the failure of a nested field, returned through two levels. -/
theorem C10_returned_failure_isError_witness :
    IsError (.ptrError (some ⟨"bad"⟩)) = true
      ∧ ∃ e, GoError.ptrError (some ⟨"bad"⟩) = .ptrError (some e) :=
  C10_returned_failure_isError (alwaysFailing [("S", "bad")]) 3
    [some (.struct "R" [(⟨"Items", "", false⟩, .slice "" [.struct "S" []])])]
    [some (.struct "R" [(⟨"Items", "", false⟩, .slice "" [.struct "S" []])])]
    (.ptrError (some ⟨"bad"⟩)) rfl (by decide)

/-! ## C11, C17, C18: the failure kind and the empty call -/

/-- C11. Failure-kind predicate: `IsError(NewError(m))` is true for every message `m`, and
`IsError` is false for an error of any other concrete type and for the nil error. -/
theorem C11_isError_by_kind :
    (∀ m : String, IsError (.ptrError (NewError m)) = true)
    ∧ (∀ desc : String, IsError (.other desc) = false)
    ∧ IsError .nil = false :=
  ⟨fun _ => rfl, fun _ => rfl, rfl⟩

/-- C17. The failure carries its message unchanged: `NewError(m)` is non-nil and its
`Error()` is `m`. -/
theorem C17_newError_keeps_message (m : String) :
    NewError m ≠ none ∧ ∃ e, NewError m = some e ∧ e.Error = m :=
  ⟨by simp [NewError], ⟨m⟩, rfl, rfl⟩

/-- C18. `Check` with zero arguments returns no failure, at every fuel and for every table
of methods. -/
theorem C18_no_arguments (M : Methods) (fuel : Nat) : Check M fuel [] = .done ([], .nil) := by
  cases fuel <;> rfl

/-! ## C14: what `indirect` returns -/

theorem indirectLoop_resolved (fuel : Nat) (v : Val) (addr : Bool) (store : Val → Val)
    (r : Resolved) (h : indirectLoop fuel v addr store = .done r) :
    r.value.Kind ≠ Kind.Ptr ∧ ∀ n pn c, r.value ≠ .iface n (some (.ptrTo pn c)) := by
  induction fuel generalizing v addr store with
  | zero => simp [indirectLoop] at h
  | succ k ih =>
    unfold indirectLoop at h
    split at h
    · exact ih _ _ _ h
    · split at h
      · exact ih _ _ _ h
      · simp at h
    · exact ih _ _ _ h
    · rename_i h1 h2 h3
      simp only [Run.done.injEq] at h
      subst h
      refine ⟨?_, fun n pn c hv => h1 n pn c hv⟩
      cases v <;> simp_all [Val.Kind]
      rename_i nm k d
      cases k <;> simp [BasicKind.toKind]

/-- C14. Resolver postcondition: whenever `indirect` returns, the resolved value is not of
pointer kind, and it is not an interface slot wrapping a non-null pointer (an interface
slot it returns is nil or wraps something else). -/
theorem C14_indirect_postcondition (fuel : Nat) (value : Value) (r : Resolved)
    (h : indirect fuel value = .done r) :
    r.value.Kind ≠ Kind.Ptr ∧ ∀ n pn c, r.value ≠ .iface n (some (.ptrTo pn c)) := by
  unfold indirect at h
  split at h
  · simp at h
  · split at h
    · exact indirectLoop_resolved _ _ _ _ r h
    · exact indirectLoop_resolved _ _ _ _ r h

/-- C14 (witness): a pointer to an interface slot that wraps a pointer to an int. -/
theorem C14_indirect_postcondition_witness :
    (Val.basic "int" .Int 5).Kind ≠ Kind.Ptr
      ∧ ∀ n pn c, Val.basic "int" .Int 5 ≠ .iface n (some (.ptrTo pn c)) :=
  C14_indirect_postcondition 4
    (ValueOf (some (.ptrTo "" (.iface "" (some (.ptrTo "" (.basic "int" .Int 5)))))))
    ⟨.basic "int" .Int 5, true,
      fun c => .ptrTo "" (.iface "" (some (.ptrTo "" c)))⟩ rfl

/-! ## C15: values without structure -/

theorem checkResolved_opaque (M : Methods) (V : Any → Run (Any × GoError)) (v : Val)
    (hs : v.Kind ≠ Kind.Slice) (ha : v.Kind ≠ Kind.Array) (hst : v.Kind ≠ Kind.Struct) :
    checkResolved M V v =
      match selfCheck M v with
      | .done err => .done (v, err)
      | .panic m => .panic m
      | .outOfFuel => .outOfFuel := by
  cases v <;> simp_all [checkResolved, Val.Kind]

theorem indirect_plain (fuel : Nat) (v : Val) (hp : v.Kind ≠ Kind.Ptr)
    (hi : v.Kind ≠ Kind.Interface) :
    indirect (fuel + 1) (ValueOf (some v)) = .done ⟨v, false, id⟩ := by
  cases v <;> simp_all [indirect, ValueOf, indirectLoop, Val.Kind]

theorem checkBody_plain (M : Methods) (fuel : Nat) (v : Val) (hp : v.Kind ≠ Kind.Ptr)
    (hi : v.Kind ≠ Kind.Interface) :
    checkBody M (fuel + 1) (some v) =
      match checkResolved M (Validate (Check M fuel)) v with
      | .done (value', err) => .done (some value', err)
      | .panic m => .panic m
      | .outOfFuel => .outOfFuel := by
  simp only [checkBody, checkValue, indirect_plain fuel v hp hi]
  simp [ValueOf, Value.Kind, hp]

theorem pickMethod_declaredOn (M : Methods) (T : String) (v : Val) :
    pickMethod [declaredOn M T v false] =
      match M.valueRecv T with
      | some g => some (.returns (g v))
      | none => none := by
  unfold declaredOn
  cases M.valueRecv T with
  | some g => rfl
  | none =>
    cases M.ptrRecv T with
    | some f => rfl
    | none => rfl

theorem pickMethod_hidden (l : List Found) (deeper : List (List Found)) :
    pickMethod ((Found.hidden :: l) :: deeper) = none := by
  cases l <;> rfl

theorem pickMethod_all_hidden (l : List Found) (h : ∀ x ∈ l, x = Found.hidden) :
    pickMethod [l] = none := by
  cases l with
  | nil => rfl
  | cons x rest =>
    rw [h x (List.mem_cons_self _ _)]
    exact pickMethod_hidden rest []

theorem fieldsNamed_hidden {α : Type} (fs : List (StructField × α)) :
    ∀ x ∈ fieldsNamed fs, x = Found.hidden := by
  intro x hx
  simp only [fieldsNamed, List.mem_filterMap] at hx
  obtain ⟨p, _, hp⟩ := hx
  split at hp
  · simpa using hp.symm
  · simp at hp

theorem embedded_of_no_embed (M : Methods) (ind : Bool) (fs : List (StructField × Val))
    (h : fs.any (fun p => p.1.Anonymous) = false) : embedded M ind fs = [] := by
  induction fs with
  | nil => simp [embedded]
  | cons p rest ih =>
    obtain ⟨f, x⟩ := p
    simp only [List.any_cons, Bool.or_eq_false_iff] at h
    simp only [embedded, h.1]
    exact ih h.2

theorem validate_plain (M : Methods) (v : Val) (hp : v.Kind ≠ Kind.Ptr)
    (hi : v.Kind ≠ Kind.Interface) (hst : v.Kind ≠ Kind.Struct) :
    M.validate v =
      match M.valueRecv v.typeName with
      | some g => some (.returns (g v))
      | none => none := by
  cases v with
  | basic n k d => exact pickMethod_declaredOn M n _
  | map n es => exact pickMethod_declaredOn M n _
  | slice n es => exact pickMethod_declaredOn M n _
  | array n es => exact pickMethod_declaredOn M n _
  | struct n fs => simp [Val.Kind] at hst
  | nilPtr n e => simp [Val.Kind] at hp
  | ptrTo n c => simp [Val.Kind] at hp
  | iface n d => simp [Val.Kind] at hi

theorem validate_no_method (M : Methods) (v : Val) (hp : v.Kind ≠ Kind.Ptr)
    (hi : v.Kind ≠ Kind.Interface) (hv : M.valueRecv v.typeName = none)
    (he : v.embeds = false) : M.validate v = none := by
  by_cases hst : v.Kind = Kind.Struct
  · cases v with
    | struct n fs =>
      simp only [Val.embeds] at he
      simp only [Val.typeName] at hv
      simp only [Methods.validate, embedded_of_no_embed M false fs he]
      apply pickMethod_all_hidden
      intro x hx
      rw [List.mem_append] at hx
      cases hx with
      | inl h =>
        simp only [declaredOn, hv] at h
        cases hq : M.ptrRecv n with
        | none => rw [hq] at h; simp at h
        | some f => rw [hq] at h; simpa using h
      | inr h => exact fieldsNamed_hidden fs x h
    | basic n k d => cases k <;> simp [Val.Kind, BasicKind.toKind] at hst
    | _ => simp [Val.Kind] at hst
  · rw [validate_plain M v hp hi hst]
    simp only [hv]

theorem validate_of_ptrRecv_only (M : Methods) (v : Val) (f : Val → Option Error)
    (hp : v.Kind ≠ Kind.Ptr) (hi : v.Kind ≠ Kind.Interface)
    (hv : M.valueRecv v.typeName = none) (hf : M.ptrRecv v.typeName = some f) :
    M.validate v = none := by
  by_cases hst : v.Kind = Kind.Struct
  · cases v with
    | struct n fs =>
      simp only [Val.typeName] at hv hf
      simp only [Methods.validate, declaredOn, hv, hf]
      exact pickMethod_hidden _ _
    | basic n k d => cases k <;> simp [Val.Kind, BasicKind.toKind] at hst
    | _ => simp [Val.Kind] at hst
  · rw [validate_plain M v hp hi hst]
    simp only [hv]

theorem interface_plain (v : Val) (hi : v.Kind ≠ Kind.Interface) : v.Interface = some v := by
  cases v <;> simp_all [Val.Interface, Val.Kind]

theorem selfCheck_plain (M : Methods) (v : Val) (hp : v.Kind ≠ Kind.Ptr)
    (hi : v.Kind ≠ Kind.Interface) (hst : v.Kind ≠ Kind.Struct) :
    selfCheck M v = .done
      (match M.valueRecv v.typeName with
        | some g =>
          match g v with
          | some e => .ptrError (some e)
          | none => .nil
        | none => .nil) := by
  unfold selfCheck
  rw [interface_plain v hi]
  simp only [validate_plain M v hp hi hst]
  cases hM : M.valueRecv v.typeName with
  | none => simp
  | some g =>
    cases hg : g v <;> simp [hg]

/-- C15. No structural descent for scalar or opaque values: on a resolved value that is
neither a slice, an array nor a struct the callee of lines 47 and 60 is not consulted, the
result being that of the self-check alone; and for a value that is in addition neither a
pointer nor an interface slot (a number, a string, a map, a function), `Check` returns the
outcome of the value's own `Validate` when its type has one and no failure otherwise,
whatever the value contains. -/
theorem C15_scalar_no_descent (M : Methods) (fuel : Nat) :
    (∀ (V : Any → Run (Any × GoError)) (w : Val),
      w.Kind ≠ Kind.Slice → w.Kind ≠ Kind.Array → w.Kind ≠ Kind.Struct →
      checkResolved M V w =
        match selfCheck M w with
        | .done err => .done (w, err)
        | .panic m => .panic m
        | .outOfFuel => .outOfFuel)
    ∧ (∀ v : Val, v.Kind ≠ Kind.Ptr → v.Kind ≠ Kind.Interface →
      v.Kind ≠ Kind.Slice → v.Kind ≠ Kind.Array → v.Kind ≠ Kind.Struct →
      Check M (fuel + 1) [some v] = .done ([some v],
        match M.valueRecv v.typeName with
        | some g =>
          match g v with
          | some e => .ptrError (some e)
          | none => .nil
        | none => .nil)) := by
  refine ⟨fun V w hs ha hst => checkResolved_opaque M V w hs ha hst, ?_⟩
  intro v hp hi hs ha hst
  rw [Check_eq_checkLoop]
  apply checkLoop_single
  rw [checkBody_plain M fuel v hp hi, checkResolved_opaque M _ v hs ha hst,
    selfCheck_plain M v hp hi hst]

/-- C15 (witness): a map whose key and value both have a failing `Validate`, of a map type
without `Validate`: no failure. -/
theorem C15_scalar_no_descent_witness :
    Check (alwaysFailing [("K", "bad key"), ("T", "bad value")]) 1
        [some (.map "" [(.struct "K" [], .struct "T" [])])]
      = .done ([some (.map "" [(.struct "K" [], .struct "T" [])])],
        match (alwaysFailing [("K", "bad key"), ("T", "bad value")]).valueRecv
            (Val.map "" [(.struct "K" [], .struct "T" [])]).typeName with
        | some g =>
          match g (.map "" [(.struct "K" [], .struct "T" [])]) with
          | some e => .ptrError (some e)
          | none => .nil
        | none => .nil) :=
  (C15_scalar_no_descent (alwaysFailing [("K", "bad key"), ("T", "bad value")]) 0).2
    (.map "" [(.struct "K" [], .struct "T" [])])
    (by decide) (by decide) (by decide) (by decide) (by decide)

/-! ## C13: a pointer to a null pointer slot -/

theorem checkResolved_eq_descend (M : Methods) (V : Any → Run (Any × GoError)) (v : Val) :
    checkResolved M V v =
      match descend V v with
      | .done (v', err) =>
        if err = GoError.nil then
          match selfCheck M v' with
          | .done err' => .done (v', err')
          | .panic m => .panic m
          | .outOfFuel => .outOfFuel
        else .done (v', err)
      | .panic m => .panic m
      | .outOfFuel => .outOfFuel := by
  cases v <;> simp only [checkResolved, descend, if_true]
  · cases checkElems V _ with
    | done q => rfl
    | panic m => rfl
    | outOfFuel => rfl
  · cases checkElems V _ with
    | done q => rfl
    | panic m => rfl
    | outOfFuel => rfl
  · cases checkFields V _ with
    | done q => rfl
    | panic m => rfl
    | outOfFuel => rfl

theorem indirectLoop_zeroIn_nonptr : ∀ (env : List (String × GoType)) (elem : GoType),
    elem.Kind ≠ Kind.Ptr → ∀ (fuel : Nat) (addr : Bool) (store : Val → Val),
    indirectLoop (fuel + 1) (zeroValueIn env elem) addr store
      = .done ⟨zeroValueIn env elem, addr, store⟩
  | _, .basic _ _, _, _, _, _ => rfl
  | _, .map _, _, _, _, _ => rfl
  | _, .slice _, _, _, _, _ => rfl
  | _, .array _ _ _, _, _, _, _ => rfl
  | _, .struct _ _, _, _, _, _ => rfl
  | _, .iface _, _, _, _, _ => rfl
  | _, .self _, _, _, _, _ => rfl
  | _, .ptr _ _, hk, _, _, _ => absurd rfl hk
  | env, .recur n b, hk, fuel, addr, store => by
    simp only [zeroValueIn]
    exact indirectLoop_zeroIn_nonptr _ b hk fuel addr store

theorem indirectLoop_zero_nonptr (fuel : Nat) (elem : GoType) (addr : Bool)
    (store : Val → Val) (hk : elem.Kind ≠ Kind.Ptr) :
    indirectLoop (fuel + 1) (zeroValue elem) addr store
      = .done ⟨zeroValue elem, addr, store⟩ := by
  cases elem with
  | recur n b =>
    simp only [zeroValue]
    exact indirectLoop_zeroIn_nonptr _ b hk fuel addr store
  | ptr n e => exact absurd rfl hk
  | _ => rfl

theorem indirectLoop_ptrTo (fuel : Nat) (n : String) (cell : Val) (addr : Bool)
    (store : Val → Val) :
    indirectLoop (fuel + 1) (.ptrTo n cell) addr store
      = indirectLoop fuel cell true (fun c => store (.ptrTo n c)) := rfl

theorem indirectLoop_nilPtr (fuel : Nat) (n : String) (elem : GoType) (store : Val → Val) :
    indirectLoop (fuel + 1) (.nilPtr n elem) true store
      = indirectLoop fuel (zeroValue elem) true (fun c => store (.ptrTo n c)) := rfl

theorem indirect_ptr (fuel : Nat) (v : Val) (addr : Bool) (hk : v.Kind = Kind.Ptr) :
    indirect fuel ⟨some v, addr⟩ = indirectLoop fuel v addr id := by
  simp [indirect, hk]

theorem indirect_null_slot (fuel : Nat) (pn n : String) (elem : GoType) (addr : Bool)
    (hk : elem.Kind ≠ Kind.Ptr) :
    indirect (fuel + 3) ⟨some (.ptrTo pn (.nilPtr n elem)), addr⟩
      = .done ⟨zeroValue elem, true, fun w => .ptrTo pn (.ptrTo n w)⟩ := by
  rw [indirect_ptr (fuel + 3) (.ptrTo pn (.nilPtr n elem)) addr rfl, indirectLoop_ptrTo, indirectLoop_nilPtr,
    indirectLoop_zero_nonptr fuel elem true _ hk]
  rfl

/-- C13 (counterexample). The slot holds a null pointer to `T = *U`: `indirect` binds the
slot to a fresh cell of type `T`, binds that cell in turn and returns the zero value of
`U`, not the zero value of `T`; the fresh `T` is no longer zero-valued. -/
theorem C13_pointer_element_resolved_further :
    ∃ r, indirect 4 ⟨some (.ptrTo "" (.nilPtr "" (.ptr "" (.struct "U" [])))), false⟩ = .done r
      ∧ r.value = .struct "U" []
      ∧ r.value ≠ zeroValue (.ptr "" (.struct "U" []))
      ∧ r.store r.value = .ptrTo "" (.ptrTo "" (.ptrTo "" (.struct "U" []))) :=
  ⟨⟨.struct "U" [], true, fun w => .ptrTo "" (.ptrTo "" (.ptrTo "" w))⟩, rfl, rfl,
    by simp [zeroValue], rfl⟩

/-- C13 (amended). For a non-null pointer `pp` to a slot holding a null pointer to `T`,
where `T` is not itself a pointer type: `indirect(pp)` returns the zero value of `T`, as an
addressable value, with the slot bound to the cell holding it; `Check(pp)` is the check of
that zero value, so when the descent into it finds no failure and its own `Validate`
fails with `e`, `Check(pp)` returns `e`. -/
theorem C13_null_slot_defaulted (M : Methods) (fuel : Nat) (pn n : String) (elem : GoType)
    (hk : elem.Kind ≠ Kind.Ptr) :
    (∀ addr, ∃ r, indirect (fuel + 3) ⟨some (.ptrTo pn (.nilPtr n elem)), addr⟩ = .done r
      ∧ r.value = zeroValue elem ∧ r.flagAddr = true
      ∧ ∀ w, r.store w = .ptrTo pn (.ptrTo n w))
    ∧ Check M (fuel + 3) [some (.ptrTo pn (.nilPtr n elem))] =
      (match checkResolved M (Validate (Check M (fuel + 2))) (zeroValue elem) with
      | .done (z', err) => .done ([some (.ptrTo pn (.ptrTo n z'))], err)
      | .panic m => .panic m
      | .outOfFuel => .outOfFuel)
    ∧ (∀ z' e, descend (Validate (Check M (fuel + 2))) (zeroValue elem) = .done (z', .nil) →
      selfCheck M z' = .done (.ptrError (some e)) →
      Check M (fuel + 3) [some (.ptrTo pn (.nilPtr n elem))]
        = .done ([some (.ptrTo pn (.ptrTo n z'))], .ptrError (some e))) := by
  have hcheck : Check M (fuel + 3) [some (.ptrTo pn (.nilPtr n elem))] =
      (match checkResolved M (Validate (Check M (fuel + 2))) (zeroValue elem) with
      | .done (z', err) => .done ([some (.ptrTo pn (.ptrTo n z'))], err)
      | .panic m => .panic m
      | .outOfFuel => .outOfFuel) := by
    rw [Check_eq_checkLoop]
    have hb : checkBody M (fuel + 3) (some (.ptrTo pn (.nilPtr n elem))) =
        (match checkResolved M (Validate (Check M (fuel + 2))) (zeroValue elem) with
        | .done (z', err) => .done (some (.ptrTo pn (.ptrTo n z')), err)
        | .panic m => .panic m
        | .outOfFuel => .outOfFuel) := by
      simp only [checkBody, checkValue, ValueOf, indirect_null_slot fuel pn n elem false hk]
      simp [Value.Kind, Value.IsNil, Val.IsNil, Val.Kind]
    cases hr : checkResolved M (Validate (Check M (fuel + 2))) (zeroValue elem) with
    | done q =>
      obtain ⟨z', err⟩ := q
      rw [hr] at hb
      exact checkLoop_single _ _ _ _ hb
    | panic m =>
      rw [hr] at hb
      simp [checkLoop, hb]
    | outOfFuel =>
      rw [hr] at hb
      simp [checkLoop, hb]
  refine ⟨fun addr => ⟨_, indirect_null_slot fuel pn n elem addr hk, rfl, rfl, fun _ => rfl⟩,
    hcheck, ?_⟩
  intro z' e hd hs
  rw [hcheck, checkResolved_eq_descend, hd]
  simp [hs]

/-- C13 (witness): a `**T` whose slot is null, `T` a struct whose zero value fails. -/
theorem C13_null_slot_defaulted_witness :
    Check (alwaysFailing [("T", "zero T")]) 3 [some (.ptrTo "" (.nilPtr "" (.struct "T" [])))]
      = .done ([some (.ptrTo "" (.ptrTo "" (.struct "T" [])))],
          .ptrError (some ⟨"zero T"⟩)) :=
  (C13_null_slot_defaulted (alwaysFailing [("T", "zero T")]) 0 "" "" (.struct "T" [])
    (by decide)).2.2 (.struct "T" []) ⟨"zero T"⟩ rfl rfl

/-! ## More fuel does not change a finished run -/

theorem indirectLoop_mono (fuel : Nat) (v : Val) (addr : Bool) (store : Val → Val)
    (res : Run Resolved) (h : indirectLoop fuel v addr store = res) (hne : res ≠ .outOfFuel) :
    indirectLoop (fuel + 1) v addr store = res := by
  induction fuel generalizing v addr store with
  | zero => simp [indirectLoop] at h; exact absurd h.symm hne
  | succ k ih =>
    unfold indirectLoop at h ⊢
    split at h
    · exact ih _ _ _ h
    · split at h
      · rename_i hc
        rw [if_pos hc]
        exact ih _ _ _ h
      · simp_all
    · exact ih _ _ _ h
    · exact h

theorem indirect_mono (fuel : Nat) (value : Value) (res : Run Resolved)
    (h : indirect fuel value = res) (hne : res ≠ .outOfFuel) :
    indirect (fuel + 1) value = res := by
  unfold indirect at h ⊢
  split at h
  · exact h
  · split at h
    · rename_i hc
      rw [if_pos hc]
      exact indirectLoop_mono _ _ _ _ _ h hne
    · rename_i hc
      rw [if_neg hc]
      exact indirectLoop_mono _ _ _ _ _ h hne

theorem checkElems_mono (V V' : Any → Run (Any × GoError))
    (hV : ∀ x res, V x = res → res ≠ .outOfFuel → V' x = res) (l : List Val)
    (res : Run (List Val × GoError)) (h : checkElems V l = res) (hne : res ≠ .outOfFuel) :
    checkElems V' l = res := by
  induction l generalizing res with
  | nil => simpa [checkElems] using h
  | cons e rest ih =>
    simp only [checkElems] at h ⊢
    cases hv : V e.Interface with
    | done q =>
      obtain ⟨a, e0⟩ := q
      rw [hV _ _ hv (by simp)]
      rw [hv] at h
      by_cases he : e0 = GoError.nil
      · simp only [he, if_true] at h ⊢
        cases hrest : checkElems V rest with
        | done q2 =>
          rw [ih _ hrest (by simp)]
          rw [hrest] at h
          exact h
        | panic m =>
          rw [ih _ hrest (by simp)]
          rw [hrest] at h
          exact h
        | outOfFuel =>
          rw [hrest] at h
          exact absurd h.symm hne
      · simp only [he, if_false] at h ⊢
        exact h
    | panic m =>
      rw [hV _ _ hv (by simp)]
      rw [hv] at h
      exact h
    | outOfFuel =>
      rw [hv] at h
      exact absurd h.symm hne

theorem checkFields_mono (V V' : Any → Run (Any × GoError))
    (hV : ∀ x res, V x = res → res ≠ .outOfFuel → V' x = res) (l : List (StructField × Val))
    (res : Run (List (StructField × Val) × GoError)) (h : checkFields V l = res)
    (hne : res ≠ .outOfFuel) : checkFields V' l = res := by
  induction l generalizing res with
  | nil => simpa [checkFields] using h
  | cons p rest ih =>
    obtain ⟨f, x⟩ := p
    simp only [checkFields] at h ⊢
    cases hpf : isPrivateField f.Name with
    | done b =>
      rw [hpf] at h
      cases b with
      | true =>
        simp only at h ⊢
        cases hrest : checkFields V rest with
        | done q2 =>
          rw [ih _ hrest (by simp)]
          rw [hrest] at h
          exact h
        | panic m =>
          rw [ih _ hrest (by simp)]
          rw [hrest] at h
          exact h
        | outOfFuel =>
          rw [hrest] at h
          exact absurd h.symm hne
      | false =>
        simp only at h ⊢
        by_cases hp : f.PkgPath = ""
        · simp only [hp, if_true] at h ⊢
          cases hv : V x.Interface with
          | done q =>
            obtain ⟨a, e0⟩ := q
            rw [hV _ _ hv (by simp)]
            rw [hv] at h
            by_cases he : e0 = GoError.nil
            · simp only [he, if_true] at h ⊢
              cases hrest : checkFields V rest with
              | done q2 =>
                rw [ih _ hrest (by simp)]
                rw [hrest] at h
                exact h
              | panic m =>
                rw [ih _ hrest (by simp)]
                rw [hrest] at h
                exact h
              | outOfFuel =>
                rw [hrest] at h
                exact absurd h.symm hne
            · simp only [he, if_false] at h ⊢
              exact h
          | panic m =>
            rw [hV _ _ hv (by simp)]
            rw [hv] at h
            exact h
          | outOfFuel =>
            rw [hv] at h
            exact absurd h.symm hne
        · simp only [hp, if_false] at h ⊢
          exact h
    | panic m =>
      rw [hpf] at h
      exact h
    | outOfFuel =>
      rw [hpf] at h
      exact h

theorem descend_mono (V V' : Any → Run (Any × GoError))
    (hV : ∀ x res, V x = res → res ≠ .outOfFuel → V' x = res) (v : Val)
    (res : Run (Val × GoError)) (h : descend V v = res) (hne : res ≠ .outOfFuel) :
    descend V' v = res := by
  cases v <;> simp only [descend] at h ⊢ <;> try exact h
  · cases hl : checkElems V _ with
    | done q => rw [checkElems_mono V V' hV _ _ hl (by simp)]; rw [hl] at h; exact h
    | panic m => rw [checkElems_mono V V' hV _ _ hl (by simp)]; rw [hl] at h; exact h
    | outOfFuel => rw [hl] at h; exact absurd h.symm hne
  · cases hl : checkElems V _ with
    | done q => rw [checkElems_mono V V' hV _ _ hl (by simp)]; rw [hl] at h; exact h
    | panic m => rw [checkElems_mono V V' hV _ _ hl (by simp)]; rw [hl] at h; exact h
    | outOfFuel => rw [hl] at h; exact absurd h.symm hne
  · cases hl : checkFields V _ with
    | done q => rw [checkFields_mono V V' hV _ _ hl (by simp)]; rw [hl] at h; exact h
    | panic m => rw [checkFields_mono V V' hV _ _ hl (by simp)]; rw [hl] at h; exact h
    | outOfFuel => rw [hl] at h; exact absurd h.symm hne

theorem checkResolved_mono (M : Methods) (V V' : Any → Run (Any × GoError))
    (hV : ∀ x res, V x = res → res ≠ .outOfFuel → V' x = res) (v : Val)
    (res : Run (Val × GoError)) (h : checkResolved M V v = res) (hne : res ≠ .outOfFuel) :
    checkResolved M V' v = res := by
  rw [checkResolved_eq_descend] at h ⊢
  cases hd : descend V v with
  | done q => rw [descend_mono V V' hV _ _ hd (by simp)]; rw [hd] at h; exact h
  | panic m => rw [descend_mono V V' hV _ _ hd (by simp)]; rw [hd] at h; exact h
  | outOfFuel => rw [hd] at h; exact absurd h.symm hne

theorem checkValue_mono (M : Methods) (fuel : Nat) (V V' : Any → Run (Any × GoError))
    (hV : ∀ x res, V x = res → res ≠ .outOfFuel → V' x = res) (v : Any)
    (res : Run (Any × GoError)) (h : checkValue M fuel V v = res) (hne : res ≠ .outOfFuel) :
    checkValue M (fuel + 1) V' v = res := by
  unfold checkValue at h ⊢
  simp only at h ⊢
  split at h
  · rename_i hc
    rw [if_pos hc]
    exact h
  · rename_i hc
    rw [if_neg hc]
    cases hi : indirect fuel (ValueOf v) with
    | done r =>
      rw [indirect_mono _ _ _ hi (by simp)]
      rw [hi] at h
      simp only at h ⊢
      cases hr : checkResolved M V r.value with
      | done q =>
        rw [checkResolved_mono M V V' hV _ _ hr (by simp)]; rw [hr] at h; exact h
      | panic m =>
        rw [checkResolved_mono M V V' hV _ _ hr (by simp)]; rw [hr] at h; exact h
      | outOfFuel => rw [hr] at h; exact absurd h.symm hne
    | panic m =>
      rw [indirect_mono _ _ _ hi (by simp)]
      rw [hi] at h
      exact h
    | outOfFuel => rw [hi] at h; exact absurd h.symm hne

theorem checkBody_mono (M : Methods) (fuel : Nat) (v : Any) (res : Run (Any × GoError))
    (h : checkBody M fuel v = res) (hne : res ≠ .outOfFuel) :
    checkBody M (fuel + 1) v = res := by
  induction fuel generalizing v res with
  | zero =>
    exact checkValue_mono M 0 _ _ (fun x r hx hr => absurd hx.symm hr) v res h hne
  | succ k ih =>
    refine checkValue_mono M (k + 1) _ _ (fun x r hx hr => ?_) v res h hne
    rw [Validate_Check] at hx ⊢
    exact ih _ r hx hr

theorem checkLoop_mono (body body' : Any → Run (Any × GoError))
    (hb : ∀ x res, body x = res → res ≠ .outOfFuel → body' x = res) (l : List Any)
    (res : Run (List Any × GoError)) (h : checkLoop body l = res) (hne : res ≠ .outOfFuel) :
    checkLoop body' l = res := by
  induction l generalizing res with
  | nil => simpa [checkLoop] using h
  | cons e rest ih =>
    simp only [checkLoop] at h ⊢
    cases hv : body e with
    | done q =>
      obtain ⟨a, e0⟩ := q
      rw [hb _ _ hv (by simp)]
      rw [hv] at h
      by_cases he : e0 = GoError.nil
      · simp only [he, if_true] at h ⊢
        cases hrest : checkLoop body rest with
        | done q2 =>
          rw [ih _ hrest (by simp)]
          rw [hrest] at h
          exact h
        | panic m =>
          rw [ih _ hrest (by simp)]
          rw [hrest] at h
          exact h
        | outOfFuel =>
          rw [hrest] at h
          exact absurd h.symm hne
      · simp only [he, if_false] at h ⊢
        exact h
    | panic m =>
      rw [hb _ _ hv (by simp)]
      rw [hv] at h
      exact h
    | outOfFuel =>
      rw [hv] at h
      exact absurd h.symm hne

theorem Check_mono (M : Methods) (fuel : Nat) (vs : List Any)
    (res : Run (List Any × GoError)) (h : Check M fuel vs = res) (hne : res ≠ .outOfFuel) :
    Check M (fuel + 1) vs = res := by
  rw [Check_eq_checkLoop] at h ⊢
  exact checkLoop_mono _ _ (fun x r hx hr => checkBody_mono M fuel x r hx hr) vs res h hne

theorem Check_mono_le (M : Methods) (fuel fuel' : Nat) (hle : fuel ≤ fuel') (vs : List Any)
    (res : Run (List Any × GoError)) (h : Check M fuel vs = res) (hne : res ≠ .outOfFuel) :
    Check M fuel' vs = res := by
  induction hle with
  | refl => exact h
  | step _ ih => exact Check_mono M _ vs res ih hne

/-! ## C19: a pointer to a value -/

theorem indirectLoop_store (fuel : Nat) (v : Val) (addr : Bool) :
    (∃ (value : Val) (flag : Bool) (g : Val → Val), ∀ store : Val → Val,
        indirectLoop fuel v addr store = .done ⟨value, flag, fun w => store (g w)⟩)
    ∨ (∃ m, ∀ store : Val → Val, indirectLoop fuel v addr store = .panic m)
    ∨ (∀ store : Val → Val, indirectLoop fuel v addr store = .outOfFuel) := by
  induction fuel generalizing v addr with
  | zero => exact Or.inr (Or.inr fun _ => rfl)
  | succ k ih =>
    have hptr : ∀ (c : Val) (a : Bool) (wrap : Val → Val),
        (∃ (value : Val) (flag : Bool) (g : Val → Val), ∀ store : Val → Val,
          indirectLoop k c a (fun p => store (wrap p)) = .done ⟨value, flag, fun w => store (g w)⟩)
        ∨ (∃ m, ∀ store : Val → Val, indirectLoop k c a (fun p => store (wrap p)) = .panic m)
        ∨ (∀ store : Val → Val, indirectLoop k c a (fun p => store (wrap p)) = .outOfFuel) := by
      intro c a wrap
      rcases ih c a with ⟨value, flag, g, hg⟩ | ⟨m, hm⟩ | ho
      · exact Or.inl ⟨value, flag, fun w => wrap (g w), fun store => hg _⟩
      · exact Or.inr (Or.inl ⟨m, fun store => hm _⟩)
      · exact Or.inr (Or.inr fun store => ho _)
    have hbase : ∀ w : Val, (∀ store : Val → Val,
        indirectLoop (k + 1) w addr store = .done ⟨w, addr, store⟩) →
        (∃ (value : Val) (flag : Bool) (g : Val → Val), ∀ store : Val → Val,
          indirectLoop (k + 1) w addr store = .done ⟨value, flag, fun x => store (g x)⟩) :=
      fun w hw => ⟨w, addr, id, fun store => hw store⟩
    cases v with
    | basic n kd d => exact Or.inl (hbase _ fun _ => rfl)
    | map n es => exact Or.inl (hbase _ fun _ => rfl)
    | nilPtr n elem =>
      cases addr with
      | true => exact hptr (zeroValue elem) true (fun c => .ptrTo n c)
      | false => exact Or.inr (Or.inl ⟨_, fun _ => rfl⟩)
    | ptrTo n c => exact hptr c true (fun c => .ptrTo n c)
    | slice n es => exact Or.inl (hbase _ fun _ => rfl)
    | array n es => exact Or.inl (hbase _ fun _ => rfl)
    | struct n fs => exact Or.inl (hbase _ fun _ => rfl)
    | iface n d =>
      cases d with
      | none => exact Or.inl (hbase _ fun _ => rfl)
      | some x =>
        cases x with
        | ptrTo pn c => exact hptr (.ptrTo pn c) false (fun p => .iface n (some p))
        | basic _ _ _ => exact Or.inl (hbase _ fun _ => rfl)
        | map _ _ => exact Or.inl (hbase _ fun _ => rfl)
        | nilPtr _ _ => exact Or.inl (hbase _ fun _ => rfl)
        | slice _ _ => exact Or.inl (hbase _ fun _ => rfl)
        | array _ _ => exact Or.inl (hbase _ fun _ => rfl)
        | struct _ _ => exact Or.inl (hbase _ fun _ => rfl)
        | iface _ _ => exact Or.inl (hbase _ fun _ => rfl)

theorem indirectLoop_shape (fuel : Nat) (v : Val) (hv : ∀ n e, v ≠ .nilPtr n e) :
    (∃ (value : Val) (g : Val → Val), ∀ (addr : Bool) (store : Val → Val), ∃ flag,
        indirectLoop fuel v addr store = .done ⟨value, flag, fun w => store (g w)⟩)
    ∨ (∃ m, ∀ (addr : Bool) (store : Val → Val), indirectLoop fuel v addr store = .panic m)
    ∨ (∀ (addr : Bool) (store : Val → Val), indirectLoop fuel v addr store = .outOfFuel) := by
  cases fuel with
  | zero => exact Or.inr (Or.inr fun _ _ => rfl)
  | succ k =>
    have hptr : ∀ (c : Val) (a : Bool) (wrap : Val → Val),
        (∃ (value : Val) (g : Val → Val), ∀ (_ : Bool) (store : Val → Val), ∃ flag,
          indirectLoop k c a (fun p => store (wrap p)) = .done ⟨value, flag, fun w => store (g w)⟩)
        ∨ (∃ m, ∀ (_ : Bool) (store : Val → Val),
          indirectLoop k c a (fun p => store (wrap p)) = .panic m)
        ∨ (∀ (_ : Bool) (store : Val → Val),
          indirectLoop k c a (fun p => store (wrap p)) = .outOfFuel) := by
      intro c a wrap
      rcases indirectLoop_store k c a with ⟨value, flag, g, hg⟩ | ⟨m, hm⟩ | ho
      · exact Or.inl ⟨value, fun w => wrap (g w), fun _ store => ⟨flag, hg _⟩⟩
      · exact Or.inr (Or.inl ⟨m, fun _ store => hm _⟩)
      · exact Or.inr (Or.inr fun _ store => ho _)
    have hbase : ∀ w : Val, (∀ (addr : Bool) (store : Val → Val),
        indirectLoop (k + 1) w addr store = .done ⟨w, addr, store⟩) →
        (∃ (value : Val) (g : Val → Val), ∀ (addr : Bool) (store : Val → Val), ∃ flag,
          indirectLoop (k + 1) w addr store = .done ⟨value, flag, fun x => store (g x)⟩) :=
      fun w hw => ⟨w, id, fun addr store => ⟨addr, hw addr store⟩⟩
    cases v with
    | basic n kd d => exact Or.inl (hbase _ fun _ _ => rfl)
    | map n es => exact Or.inl (hbase _ fun _ _ => rfl)
    | nilPtr n elem => exact absurd rfl (hv n elem)
    | ptrTo n c => exact hptr c true (fun c => .ptrTo n c)
    | slice n es => exact Or.inl (hbase _ fun _ _ => rfl)
    | array n es => exact Or.inl (hbase _ fun _ _ => rfl)
    | struct n fs => exact Or.inl (hbase _ fun _ _ => rfl)
    | iface n d =>
      cases d with
      | none => exact Or.inl (hbase _ fun _ _ => rfl)
      | some x =>
        cases x with
        | ptrTo pn c => exact hptr (.ptrTo pn c) false (fun p => .iface n (some p))
        | basic _ _ _ => exact Or.inl (hbase _ fun _ _ => rfl)
        | map _ _ => exact Or.inl (hbase _ fun _ _ => rfl)
        | nilPtr _ _ => exact Or.inl (hbase _ fun _ _ => rfl)
        | slice _ _ => exact Or.inl (hbase _ fun _ _ => rfl)
        | array _ _ => exact Or.inl (hbase _ fun _ _ => rfl)
        | struct _ _ => exact Or.inl (hbase _ fun _ _ => rfl)
        | iface _ _ => exact Or.inl (hbase _ fun _ _ => rfl)

theorem outcome_Check_single (M : Methods) (fuel : Nat) (v : Any) :
    outcome (Check M fuel [v]) = outcome (checkBody M fuel v) := by
  rw [Check_eq_checkLoop]
  simp only [checkLoop]
  cases hb : checkBody M fuel v with
  | done q =>
    obtain ⟨a, e⟩ := q
    by_cases he : e = GoError.nil <;> simp [he, outcome]
  | panic m => rfl
  | outOfFuel => rfl

/-- The part of the loop body that follows `indirect` (lines 42-70). -/
theorem checkBody_ptrTo (M : Methods) (fuel : Nat) (pn : String) (x : Val) :
    checkBody M (fuel + 1) (some (.ptrTo pn x)) =
      match indirectLoop fuel x true (fun c => .ptrTo pn c) with
      | .done r =>
        match checkResolved M (Validate (Check M fuel)) r.value with
        | .done (value', err) => .done (some (r.store value'), err)
        | .panic m => .panic m
        | .outOfFuel => .outOfFuel
      | .panic m => .panic m
      | .outOfFuel => .outOfFuel := by
  simp only [checkBody, checkValue, ValueOf, Value.Kind, Value.IsNil, Val.IsNil, Val.Kind]
  rw [indirect_ptr (fuel + 1) (.ptrTo pn x) false rfl, indirectLoop_ptrTo]
  simp

theorem checkBody_nonNil (M : Methods) (fuel : Nat) (x : Val) (hx : ∀ n e, x ≠ .nilPtr n e) :
    checkBody M (fuel + 1) (some x) =
      match indirectLoop (fuel + 1) x false id with
      | .done r =>
        match checkResolved M (Validate (Check M fuel)) r.value with
        | .done (value', err) => .done (some (r.store value'), err)
        | .panic m => .panic m
        | .outOfFuel => .outOfFuel
      | .panic m => .panic m
      | .outOfFuel => .outOfFuel := by
  have hnil : ¬ ((ValueOf (some x)).Kind = Kind.Ptr ∧ (ValueOf (some x)).IsNil = true) := by
    cases x <;> simp_all [ValueOf, Value.Kind, Value.IsNil, Val.IsNil, Val.Kind]
  have hind : indirect (fuel + 1) (ValueOf (some x)) = indirectLoop (fuel + 1) x false id := by
    simp [indirect, ValueOf]
  simp only [checkBody, checkValue, if_neg hnil, hind]

theorem outcome_afterIndirect (M : Methods) (V : Any → Run (Any × GoError)) (value : Val)
    (flag : Bool) (store : Val → Val) :
    outcome (match (Run.done ⟨value, flag, store⟩ : Run Resolved) with
      | .done r =>
        match checkResolved M V r.value with
        | .done (value', err) => (.done (some (r.store value'), err) : Run (Any × GoError))
        | .panic m => .panic m
        | .outOfFuel => .outOfFuel
      | .panic m => .panic m
      | .outOfFuel => .outOfFuel) = outcome (checkResolved M V value) := by
  simp only
  cases hr : checkResolved M V value with
  | done q => rfl
  | panic m => rfl
  | outOfFuel => rfl

theorem Validate_Check_mono (M : Methods) (fuel : Nat) (x : Any) (res : Run (Any × GoError))
    (h : Validate (Check M fuel) x = res) (hne : res ≠ .outOfFuel) :
    Validate (Check M (fuel + 1)) x = res := by
  rw [Validate_Check] at h ⊢
  exact checkBody_mono M fuel _ res h hne

theorem outcome_ne_outOfFuel {α : Type} (r : Run (α × GoError))
    (h : outcome r ≠ .outOfFuel) : r ≠ .outOfFuel := by
  intro hr
  rw [hr] at h
  exact h rfl

theorem pointer_outcome_up (M : Methods) (fuel : Nat) (pn : String) (x : Val)
    (hx : ∀ n e, x ≠ .nilPtr n e)
    (h : outcome (checkBody M fuel (some x)) ≠ .outOfFuel) :
    outcome (checkBody M (fuel + 1) (some (.ptrTo pn x))) = outcome (checkBody M fuel (some x)) := by
  cases fuel with
  | zero =>
    exfalso
    apply h
    have hnil : ¬ ((ValueOf (some x)).Kind = Kind.Ptr ∧ (ValueOf (some x)).IsNil = true) := by
      cases x <;> simp_all [ValueOf, Value.Kind, Value.IsNil, Val.IsNil, Val.Kind]
    have hind : indirect 0 (ValueOf (some x)) = .outOfFuel := by
      simp [indirect, ValueOf, indirectLoop]
    simp only [checkBody, checkValue, if_neg hnil, hind]
    rfl
  | succ k =>
    rw [checkBody_ptrTo, checkBody_nonNil M k x hx] at *
    rcases indirectLoop_shape (k + 1) x hx with ⟨value, g, hg⟩ | ⟨m, hm⟩ | ho
    · obtain ⟨f1, h1⟩ := hg true (fun c => .ptrTo pn c)
      obtain ⟨f2, h2⟩ := hg false id
      rw [h2, outcome_afterIndirect] at h
      rw [h1, h2, outcome_afterIndirect, outcome_afterIndirect]
      rw [checkResolved_mono M _ _ (fun y r hy hr => Validate_Check_mono M k y r hy hr) value _
        rfl (outcome_ne_outOfFuel _ h)]
    · rw [hm true, hm false]
    · rw [ho false] at h
      exact absurd rfl h

theorem pointer_outcome_down (M : Methods) (fuel : Nat) (pn : String) (x : Val)
    (hx : ∀ n e, x ≠ .nilPtr n e)
    (h : outcome (checkBody M (fuel + 1) (some (.ptrTo pn x))) ≠ .outOfFuel) :
    outcome (checkBody M (fuel + 1) (some x))
      = outcome (checkBody M (fuel + 1) (some (.ptrTo pn x))) := by
  rw [checkBody_ptrTo, checkBody_nonNil M fuel x hx] at *
  rcases indirectLoop_shape fuel x hx with ⟨value, g, hg⟩ | ⟨m, hm⟩ | ho
  · obtain ⟨f1, h1⟩ := hg true (fun c => .ptrTo pn c)
    obtain ⟨f2, h2⟩ := hg false id
    rw [h1, indirectLoop_mono fuel x false id _ h2 (by simp), outcome_afterIndirect,
      outcome_afterIndirect]
  · rw [hm true, indirectLoop_mono fuel x false id _ (hm false id) (by simp)]
  · rw [ho true] at h
    exact absurd rfl h

/-- C19 (counterexample). `x` is a variable of interface type holding a record `R` whose
public field holds an `S` that fails; `x` is not a null pointer. `Check(x)` descends into
the record and returns the failure of `S`; `Check(&x)` resolves to the interface slot,
which is not descended into, and returns no failure. -/
theorem C19_pointer_to_interface_differs :
    outcome (Check (alwaysFailing [("S", "S-self")]) 3
        [(Val.iface "" (some (.struct "R" [(⟨"Child", "", false⟩, .struct "S" [])]))).Interface])
      = .done (.ptrError (some ⟨"S-self"⟩))
    ∧ outcome (Check (alwaysFailing [("S", "S-self")]) 3
        [some (.ptrTo "" (.iface "" (some (.struct "R" [(⟨"Child", "", false⟩, .struct "S" [])]))))])
      = .done .nil :=
  ⟨rfl, rfl⟩

/-- C19 (amended). Pointer transparency for a value `x` that is neither a null pointer nor
of interface type: whenever `Check(x)` finishes, `Check(&x)` finishes with the same
outcome (the same failure, no failure, or the same panic) given one more unit of fuel for
the extra iteration of `indirect`, and whenever `Check(&x)` finishes, `Check(x)` finishes
with the same outcome. -/
theorem C19_pointer_transparency (M : Methods) (fuel : Nat) (pn : String) (x : Val)
    (hx : ∀ n e, x ≠ .nilPtr n e) (hi : x.Kind ≠ Kind.Interface) :
    (outcome (Check M fuel [x.Interface]) ≠ .outOfFuel →
      outcome (Check M (fuel + 1) [some (.ptrTo pn x)]) = outcome (Check M fuel [x.Interface]))
    ∧ (outcome (Check M (fuel + 1) [some (.ptrTo pn x)]) ≠ .outOfFuel →
      outcome (Check M (fuel + 1) [x.Interface])
        = outcome (Check M (fuel + 1) [some (.ptrTo pn x)])) := by
  rw [interface_plain x hi]
  simp only [outcome_Check_single]
  exact ⟨pointer_outcome_up M fuel pn x hx, pointer_outcome_down M fuel pn x hx⟩

/-- C19 (witness): a record `S` that fails, and a pointer to it. -/
theorem C19_pointer_transparency_witness :
    outcome (Check (alwaysFailing [("S", "S-self")]) 2 [some (.ptrTo "" (.struct "S" []))])
        = outcome (Check (alwaysFailing [("S", "S-self")]) 1 [(Val.struct "S" []).Interface])
    ∧ outcome (Check (alwaysFailing [("S", "S-self")]) 2 [(Val.struct "S" []).Interface])
        = outcome (Check (alwaysFailing [("S", "S-self")]) 2 [some (.ptrTo "" (.struct "S" []))]) :=
  ⟨(C19_pointer_transparency (alwaysFailing [("S", "S-self")]) 1 "" (.struct "S" [])
      (fun _ _ h => Val.noConfusion h) (by decide)).1 (by decide),
    (C19_pointer_transparency (alwaysFailing [("S", "S-self")]) 1 "" (.struct "S" [])
      (fun _ _ h => Val.noConfusion h) (by decide)).2 (by decide)⟩

/-! ## C20: a `Validate` declared on the pointer type only -/

theorem descend_shape (V : Any → Run (Any × GoError)) (t t' : Val) (err : GoError)
    (h : descend V t = .done (t', err)) : t'.Kind = t.Kind ∧ t'.typeName = t.typeName := by
  cases t <;> simp only [descend] at h
  case slice n es =>
    cases hl : checkElems V es with
    | done q => rw [hl] at h; simp at h; rw [← h.1]; exact ⟨rfl, rfl⟩
    | panic m => rw [hl] at h; simp at h
    | outOfFuel => rw [hl] at h; simp at h
  case array n es =>
    cases hl : checkElems V es with
    | done q => rw [hl] at h; simp at h; rw [← h.1]; exact ⟨rfl, rfl⟩
    | panic m => rw [hl] at h; simp at h
    | outOfFuel => rw [hl] at h; simp at h
  case struct n fs =>
    cases hl : checkFields V fs with
    | done q => rw [hl] at h; simp at h; rw [← h.1]; exact ⟨rfl, rfl⟩
    | panic m => rw [hl] at h; simp at h
    | outOfFuel => rw [hl] at h; simp at h
  all_goals (simp at h; rw [← h.1]; exact ⟨rfl, rfl⟩)

theorem indirectLoop_plain (fuel : Nat) (v : Val) (addr : Bool) (store : Val → Val)
    (hp : v.Kind ≠ Kind.Ptr) (hi : v.Kind ≠ Kind.Interface) :
    indirectLoop (fuel + 1) v addr store = .done ⟨v, addr, store⟩ := by
  cases v <;> simp_all [indirectLoop, Val.Kind]

theorem restore_plain (v : Val) (a : Val) (hi : v.Kind ≠ Kind.Interface) :
    v.restore (some a) = a := by
  cases v <;> simp_all [Val.restore, Val.Kind]

theorem selfCheck_no_method (M : Methods) (v : Val) (hp : v.Kind ≠ Kind.Ptr)
    (hi : v.Kind ≠ Kind.Interface) (hv : M.valueRecv v.typeName = none)
    (he : v.embeds = false) : selfCheck M v = .done .nil := by
  unfold selfCheck
  rw [interface_plain v hi]
  simp only [validate_no_method M v hp hi hv he]

theorem selfCheck_ptrRecv_only (M : Methods) (v : Val) (recv : Val → Option Error)
    (hp : v.Kind ≠ Kind.Ptr) (hi : v.Kind ≠ Kind.Interface)
    (hv : M.valueRecv v.typeName = none) (hr : M.ptrRecv v.typeName = some recv) :
    selfCheck M v = .done .nil := by
  unfold selfCheck
  rw [interface_plain v hi]
  simp only [validate_of_ptrRecv_only M v recv hp hi hv hr]

theorem checkResolved_ptrRecv_only (M : Methods) (V : Any → Run (Any × GoError)) (t t' : Val)
    (recv : Val → Option Error)
    (hp : t.Kind ≠ Kind.Ptr) (hi : t.Kind ≠ Kind.Interface)
    (hv : M.valueRecv t.typeName = none) (hr : M.ptrRecv t.typeName = some recv)
    (hd : descend V t = .done (t', .nil)) :
    checkResolved M V t = .done (t', .nil) := by
  obtain ⟨hk, hn⟩ := descend_shape V t t' _ hd
  rw [checkResolved_eq_descend, hd]
  simp only [if_true]
  rw [selfCheck_ptrRecv_only M t' recv (by rw [hk]; exact hp) (by rw [hk]; exact hi)
    (by rw [hn]; exact hv) (by rw [hn]; exact hr)]

theorem checkBody_value_ptrRecv_only (M : Methods) (fuel : Nat) (t t' : Val)
    (recv : Val → Option Error)
    (hp : t.Kind ≠ Kind.Ptr) (hi : t.Kind ≠ Kind.Interface)
    (hv : M.valueRecv t.typeName = none) (hr : M.ptrRecv t.typeName = some recv)
    (hd : descend (Validate (Check M fuel)) t = .done (t', .nil)) :
    checkBody M (fuel + 1) (some t) = .done (some t', .nil) := by
  rw [checkBody_plain M fuel t hp hi, checkResolved_ptrRecv_only M _ t t' recv hp hi hv hr hd]

theorem checkBody_pointer_ptrRecv_only (M : Methods) (fuel : Nat) (pn : String) (t t' : Val)
    (recv : Val → Option Error)
    (hp : t.Kind ≠ Kind.Ptr) (hi : t.Kind ≠ Kind.Interface)
    (hv : M.valueRecv t.typeName = none) (hr : M.ptrRecv t.typeName = some recv)
    (hd : descend (Validate (Check M fuel)) t = .done (t', .nil)) :
    checkBody M (fuel + 2) (some (.ptrTo pn t)) = .done (some (.ptrTo pn t'), .nil) := by
  have hd' : descend (Validate (Check M (fuel + 1))) t = .done (t', .nil) :=
    descend_mono _ _ (fun y r hy hr => Validate_Check_mono M fuel y r hy hr) t _ hd (by simp)
  rw [checkBody_ptrTo, indirectLoop_plain fuel t true _ hp hi]
  simp only
  rw [checkResolved_ptrRecv_only M _ t t' recv hp hi hv hr hd']

theorem checkFields_cons_pass (V : Any → Run (Any × GoError)) (f : StructField) (x : Val)
    (rest : List (StructField × Val)) (a : Any)
    (hf : isPrivateField f.Name = .done false) (hp : f.PkgPath = "")
    (hv : V x.Interface = .done (a, .nil)) :
    checkFields V ((f, x) :: rest) =
      match checkFields V rest with
      | .done (rest', err') => .done ((f, x.restore a) :: rest', err')
      | .panic m => .panic m
      | .outOfFuel => .outOfFuel := by
  simp [checkFields, hf, hp, hv]

theorem checkElems_cons_pass (V : Any → Run (Any × GoError)) (x : Val) (rest : List Val)
    (a : Any) (hv : V x.Interface = .done (a, .nil)) :
    checkElems V (x :: rest) =
      match checkElems V rest with
      | .done (rest', err') => .done (x.restore a :: rest', err')
      | .panic m => .panic m
      | .outOfFuel => .outOfFuel := by
  simp [checkElems, hv]

theorem checkElems_append_pass (V : Any → Run (Any × GoError)) (pre pre' l : List Val)
    (h : checkElems V pre = .done (pre', .nil)) :
    checkElems V (pre ++ l) =
      match checkElems V l with
      | .done (l', err) => .done (pre' ++ l', err)
      | .panic m => .panic m
      | .outOfFuel => .outOfFuel := by
  induction pre generalizing pre' with
  | nil =>
    simp [checkElems] at h
    subst h
    cases hl : checkElems V l <;> simp [hl]
  | cons e pre ih =>
    simp only [List.cons_append, checkElems] at h ⊢
    cases hv : V e.Interface with
    | done q =>
      obtain ⟨a, e0⟩ := q
      rw [hv] at h
      simp only at h ⊢
      by_cases he : e0 = GoError.nil
      · simp only [he, if_true] at h ⊢
        cases hrest : checkElems V pre with
        | done q =>
          obtain ⟨rest', e2⟩ := q
          rw [hrest] at h
          simp at h
          obtain ⟨h1, h2⟩ := h
          subst h1 h2
          rw [List.append_eq, ih rest' hrest]
          cases hl : checkElems V l <;> simp
        | panic m => rw [hrest] at h; simp at h
        | outOfFuel => rw [hrest] at h; simp at h
      · simp [he] at h
    | panic m => rw [hv] at h; simp at h
    | outOfFuel => rw [hv] at h; simp at h

theorem checkFields_fst (V : Any → Run (Any × GoError)) (l l' : List (StructField × Val))
    (err : GoError) (h : checkFields V l = .done (l', err)) :
    l'.map Prod.fst = l.map Prod.fst := by
  induction l generalizing l' err with
  | nil => simp [checkFields] at h; rw [← h.1]
  | cons p rest ih =>
    obtain ⟨f, x⟩ := p
    simp only [checkFields] at h
    cases hpf : isPrivateField f.Name with
    | done b =>
      rw [hpf] at h
      cases b with
      | true =>
        simp only at h
        cases hrest : checkFields V rest with
        | done q2 =>
          obtain ⟨rest', e1⟩ := q2
          rw [hrest] at h
          simp at h
          rw [← h.1]
          simp [ih rest' e1 hrest]
        | panic m => rw [hrest] at h; simp at h
        | outOfFuel => rw [hrest] at h; simp at h
      | false =>
        simp only at h
        by_cases hp : f.PkgPath = ""
        · simp only [hp, if_true] at h
          cases hv : V x.Interface with
          | done q =>
            obtain ⟨a, e0⟩ := q
            rw [hv] at h
            by_cases hn : e0 = GoError.nil
            · simp only [hn, if_true] at h
              cases hrest : checkFields V rest with
              | done q2 =>
                obtain ⟨rest', e1⟩ := q2
                rw [hrest] at h
                simp at h
                rw [← h.1]
                simp [ih rest' e1 hrest]
              | panic m => rw [hrest] at h; simp at h
              | outOfFuel => rw [hrest] at h; simp at h
            · simp [hn] at h
              rw [← h.1]
              simp
          | panic m => rw [hv] at h; simp at h
          | outOfFuel => rw [hv] at h; simp at h
        · simp [hp] at h
    | panic m => rw [hpf] at h; simp at h
    | outOfFuel => rw [hpf] at h; simp at h

theorem any_anonymous_fst (l : List (StructField × Val)) :
    l.any (fun p => p.1.Anonymous) = (l.map Prod.fst).any (fun f => f.Anonymous) := by
  induction l with
  | nil => rfl
  | cons p rest ih => simp only [List.any_cons, List.map_cons, ih]

theorem embeds_of_fst (n : String) (l l' : List (StructField × Val))
    (h : l'.map Prod.fst = l.map Prod.fst) :
    (Val.struct n l').embeds = (Val.struct n l).embeds := by
  simp only [Val.embeds]
  rw [any_anonymous_fst l', any_anonymous_fst l, h]

theorem Check_struct_of_fields (M : Methods) (fuel : Nat) (rn : String)
    (fs fs' : List (StructField × Val))
    (h : checkFields (Validate (Check M fuel)) fs = .done (fs', .nil)) :
    Check M (fuel + 1) [some (.struct rn fs)] =
      match selfCheck M (.struct rn fs') with
      | .done err => .done ([some (.struct rn fs')], err)
      | .panic m => .panic m
      | .outOfFuel => .outOfFuel := by
  rw [Check_eq_checkLoop]
  simp only [checkLoop]
  rw [checkBody_struct]
  simp only [checkResolved, h, if_true]
  cases hs : selfCheck M (.struct rn fs') with
  | done err => by_cases he : err = GoError.nil <;> simp [he]
  | panic m => rfl
  | outOfFuel => rfl

theorem Check_slice_of_elems (M : Methods) (fuel : Nat) (sn : String) (es es' : List Val)
    (h : checkElems (Validate (Check M fuel)) es = .done (es', .nil)) :
    (Check M (fuel + 1) [some (.slice sn es)] =
      match selfCheck M (.slice sn es') with
      | .done err => .done ([some (.slice sn es')], err)
      | .panic m => .panic m
      | .outOfFuel => .outOfFuel)
    ∧ (Check M (fuel + 1) [some (.array sn es)] =
      match selfCheck M (.array sn es') with
      | .done err => .done ([some (.array sn es')], err)
      | .panic m => .panic m
      | .outOfFuel => .outOfFuel) := by
  constructor
  · rw [Check_eq_checkLoop]
    simp only [checkLoop]
    rw [checkBody_slice]
    simp only [checkResolved, h, if_true]
    cases hs : selfCheck M (.slice sn es') with
    | done err => by_cases he : err = GoError.nil <;> simp [he]
    | panic m => rfl
    | outOfFuel => rfl
  · rw [Check_eq_checkLoop]
    simp only [checkLoop]
    rw [checkBody_array]
    simp only [checkResolved, h, if_true]
    cases hs : selfCheck M (.array sn es') with
    | done err => by_cases he : err = GoError.nil <;> simp [he]
    | panic m => rfl
    | outOfFuel => rfl

theorem checkFields_around (V : Any → Run (Any × GoError))
    (pre pre' post post' : List (StructField × Val)) (f : StructField) (x x' : Val)
    (hf : isPrivateField f.Name = .done false) (hpk : f.PkgPath = "")
    (hpre : checkFields V pre = .done (pre', .nil))
    (hpost : checkFields V post = .done (post', .nil))
    (hx : V x.Interface = .done (some x', .nil)) (hxi : x.Kind ≠ Kind.Interface) :
    checkFields V (pre ++ (f, x) :: post) = .done (pre' ++ (f, x') :: post', .nil) := by
  rw [checkFields_append_pass V pre pre' _ hpre, checkFields_cons_pass V f x post _ hf hpk hx,
    hpost, restore_plain x x' hxi]

theorem checkElems_around (V : Any → Run (Any × GoError))
    (pre pre' post post' : List Val) (x x' : Val)
    (hpre : checkElems V pre = .done (pre', .nil))
    (hpost : checkElems V post = .done (post', .nil))
    (hx : V x.Interface = .done (some x', .nil)) (hxi : x.Kind ≠ Kind.Interface) :
    checkElems V (pre ++ x :: post) = .done (pre' ++ x' :: post', .nil) := by
  rw [checkElems_append_pass V pre pre' _ hpre, checkElems_cons_pass V x post _ hx,
    hpost, restore_plain x x' hxi]

theorem Validate_of_checkBody (M : Methods) (fuel : Nat) (x : Val) (res : Run (Any × GoError))
    (hn : x.IsNil = false) (hi : x.Kind ≠ Kind.Interface)
    (h : checkBody M fuel (some x) = res) :
    Validate (Check M fuel) x.Interface = res := by
  rw [interface_plain x hi, Validate_Check, bindNull_of_notNil x hn]
  exact h

theorem isNil_of_kind (v : Val) (hp : v.Kind ≠ Kind.Ptr) (hi : v.Kind ≠ Kind.Interface) :
    v.IsNil = false := by
  cases v <;> simp_all [Val.IsNil, Val.Kind]

/-- C20 (counterexample). `PT` has only `func (p *PT) Validate() *Error`, which always
fails, and the record type `R` declares no `Validate` of its own but embeds `*PT`
(`type R struct { *PT }`). The method is promoted into the method set of `R`, so that the
self-check of the record invokes it: `Check` of the record holding a non-null `*PT`, and of
a pointer to that record, returns the failure of that `Validate`. -/
theorem C20_embedded_pointer_receiver_invoked :
    (alwaysFailingPtr [("PT", "invalid")]).valueRecv "PT" = none
    ∧ (alwaysFailingPtr [("PT", "invalid")]).valueRecv "R" = none
    ∧ (alwaysFailingPtr [("PT", "invalid")]).ptrRecv "R" = none
    ∧ Check (alwaysFailingPtr [("PT", "invalid")]) 3
        [some (.struct "R" [(⟨"PT", "", true⟩, .ptrTo "" (.struct "PT" []))])]
      = .done ([some (.struct "R" [(⟨"PT", "", true⟩, .ptrTo "" (.struct "PT" []))])],
          .ptrError (some ⟨"invalid"⟩))
    ∧ Check (alwaysFailingPtr [("PT", "invalid")]) 4
        [some (.ptrTo "" (.struct "R" [(⟨"PT", "", true⟩, .ptrTo "" (.struct "PT" []))]))]
      = .done ([some (.ptrTo "" (.struct "R" [(⟨"PT", "", true⟩, .ptrTo "" (.struct "PT" []))]))],
          .ptrError (some ⟨"invalid"⟩)) :=
  ⟨rfl, rfl, rfl, rfl, rfl⟩

/-- C20 (amended). The self-check sees the dereferenced value only. Let the type of `t`
have a `Validate` on the pointer receiver only (`recv`, failing or not), let `t` be neither
a pointer nor an interface slot, and let the descent into `t` find no failure. Then
`Check` of `t` and of a non-null pointer to `t` return no failure; a public field or an
element holding `t` or a pointer to `t` contributes no failure, so that `Check` of a
record whose other fields pass returns the outcome of the record's own self-check; and
that outcome is no failure when the record type declares no `Validate` and embeds no
field, as it is for a slice or an array whose type declares no `Validate`. -/
theorem C20_pointer_receiver_only_by_promotion (M : Methods) (fuel : Nat) (t t' : Val)
    (recv : Val → Option Error)
    (hp : t.Kind ≠ Kind.Ptr) (hi : t.Kind ≠ Kind.Interface)
    (hv : M.valueRecv t.typeName = none) (hr : M.ptrRecv t.typeName = some recv)
    (hd : descend (Validate (Check M fuel)) t = .done (t', .nil)) :
    Check M (fuel + 1) [some t] = .done ([some t'], .nil)
    ∧ (∀ pn, Check M (fuel + 2) [some (.ptrTo pn t)] = .done ([some (.ptrTo pn t')], .nil))
    ∧ (∀ (rn : String) (pre pre' post post' : List (StructField × Val)) (f : StructField),
        isPrivateField f.Name = .done false → f.PkgPath = "" →
        checkFields (Validate (Check M (fuel + 1))) pre = .done (pre', .nil) →
        checkFields (Validate (Check M (fuel + 1))) post = .done (post', .nil) →
        (Check M (fuel + 2) [some (.struct rn (pre ++ (f, t) :: post))]
          = match selfCheck M (.struct rn (pre' ++ (f, t') :: post')) with
            | .done err => .done ([some (.struct rn (pre' ++ (f, t') :: post'))], err)
            | .panic m => .panic m
            | .outOfFuel => .outOfFuel)
        ∧ (∀ pn, Check M (fuel + 3) [some (.struct rn (pre ++ (f, .ptrTo pn t) :: post))]
          = match selfCheck M (.struct rn (pre' ++ (f, .ptrTo pn t') :: post')) with
            | .done err => .done ([some (.struct rn (pre' ++ (f, .ptrTo pn t') :: post'))], err)
            | .panic m => .panic m
            | .outOfFuel => .outOfFuel)
        ∧ (M.valueRecv rn = none → (Val.struct rn (pre ++ (f, t) :: post)).embeds = false →
            Check M (fuel + 2) [some (.struct rn (pre ++ (f, t) :: post))]
              = .done ([some (.struct rn (pre' ++ (f, t') :: post'))], .nil)
            ∧ ∀ pn, Check M (fuel + 3) [some (.struct rn (pre ++ (f, .ptrTo pn t) :: post))]
              = .done ([some (.struct rn (pre' ++ (f, .ptrTo pn t') :: post'))], .nil)))
    ∧ (∀ (sn : String) (pre pre' post post' : List Val),
        M.valueRecv sn = none →
        checkElems (Validate (Check M (fuel + 1))) pre = .done (pre', .nil) →
        checkElems (Validate (Check M (fuel + 1))) post = .done (post', .nil) →
        Check M (fuel + 2) [some (.slice sn (pre ++ t :: post))]
            = .done ([some (.slice sn (pre' ++ t' :: post'))], .nil)
        ∧ Check M (fuel + 2) [some (.array sn (pre ++ t :: post))]
            = .done ([some (.array sn (pre' ++ t' :: post'))], .nil)
        ∧ ∀ pn, Check M (fuel + 3) [some (.slice sn (pre ++ .ptrTo pn t :: post))]
            = .done ([some (.slice sn (pre' ++ .ptrTo pn t' :: post'))], .nil)
          ∧ Check M (fuel + 3) [some (.array sn (pre ++ .ptrTo pn t :: post))]
            = .done ([some (.array sn (pre' ++ .ptrTo pn t' :: post'))], .nil)) := by
  have h1 := checkBody_value_ptrRecv_only M fuel t t' recv hp hi hv hr hd
  have h2 := fun pn => checkBody_pointer_ptrRecv_only M fuel pn t t' recv hp hi hv hr hd
  have hV1 : Validate (Check M (fuel + 1)) t.Interface = .done (some t', .nil) :=
    Validate_of_checkBody M _ t _ (isNil_of_kind t hp hi) hi h1
  have hV2 : ∀ pn, Validate (Check M (fuel + 2)) (Val.ptrTo pn t).Interface
      = .done (some (.ptrTo pn t'), .nil) :=
    fun pn => Validate_of_checkBody M _ (.ptrTo pn t) _ rfl (by simp [Val.Kind]) (h2 pn)
  have hmono : ∀ x res, Validate (Check M (fuel + 1)) x = res → res ≠ .outOfFuel →
      Validate (Check M (fuel + 2)) x = res :=
    fun x res hx hne => Validate_Check_mono M (fuel + 1) x res hx hne
  refine ⟨?_, fun pn => ?_, ?_, ?_⟩
  · rw [Check_eq_checkLoop]
    exact checkLoop_single _ _ _ _ h1
  · rw [Check_eq_checkLoop]
    exact checkLoop_single _ _ _ _ (h2 pn)
  · intro rn pre pre' post post' f hf hpk hpre hpost
    have hfs := checkFields_around _ pre pre' post post' f t t' hf hpk hpre hpost hV1 hi
    have hpre2 := checkFields_mono _ _ hmono pre _ hpre (by simp)
    have hpost2 := checkFields_mono _ _ hmono post _ hpost (by simp)
    have hfs2 := fun pn => checkFields_around _ pre pre' post post' f (.ptrTo pn t)
      (.ptrTo pn t') hf hpk hpre2 hpost2 (hV2 pn) (by simp [Val.Kind])
    refine ⟨Check_struct_of_fields M (fuel + 1) rn _ _ hfs,
      fun pn => Check_struct_of_fields M (fuel + 2) rn _ _ (hfs2 pn), fun hrn hemb => ?_⟩
    have hemb1 : (Val.struct rn (pre' ++ (f, t') :: post')).embeds = false := by
      rw [embeds_of_fst rn _ _ (checkFields_fst _ _ _ _ hfs)]
      exact hemb
    have hemb2 : ∀ pn, (Val.struct rn (pre' ++ (f, .ptrTo pn t') :: post')).embeds = false := by
      intro pn
      rw [embeds_of_fst rn (pre ++ (f, t) :: post) _ (by simp [checkFields_fst _ _ _ _ hpre,
        checkFields_fst _ _ _ _ hpost])]
      exact hemb
    refine ⟨?_, fun pn => ?_⟩
    · rw [Check_struct_of_fields M (fuel + 1) rn _ _ hfs,
        selfCheck_no_method M (.struct rn (pre' ++ (f, t') :: post')) (by simp [Val.Kind])
          (by simp [Val.Kind]) hrn hemb1]
    · rw [Check_struct_of_fields M (fuel + 2) rn _ _ (hfs2 pn),
        selfCheck_no_method M (.struct rn (pre' ++ (f, .ptrTo pn t') :: post'))
          (by simp [Val.Kind]) (by simp [Val.Kind]) hrn (hemb2 pn)]
  · intro sn pre pre' post post' hsn hpre hpost
    have hes := checkElems_around _ pre pre' post post' t t' hpre hpost hV1 hi
    have hpre2 := checkElems_mono _ _ hmono pre _ hpre (by simp)
    have hpost2 := checkElems_mono _ _ hmono post _ hpost (by simp)
    have hes2 := fun pn => checkElems_around _ pre pre' post post' (.ptrTo pn t)
      (.ptrTo pn t') hpre2 hpost2 (hV2 pn) (by simp [Val.Kind])
    refine ⟨?_, ?_, fun pn => ⟨?_, ?_⟩⟩
    · rw [(Check_slice_of_elems M (fuel + 1) sn _ _ hes).1,
        selfCheck_no_method M (.slice sn (pre' ++ t' :: post')) (by simp [Val.Kind])
          (by simp [Val.Kind]) hsn rfl]
    · rw [(Check_slice_of_elems M (fuel + 1) sn _ _ hes).2,
        selfCheck_no_method M (.array sn (pre' ++ t' :: post')) (by simp [Val.Kind])
          (by simp [Val.Kind]) hsn rfl]
    · rw [(Check_slice_of_elems M (fuel + 2) sn _ _ (hes2 pn)).1,
        selfCheck_no_method M (.slice sn (pre' ++ .ptrTo pn t' :: post')) (by simp [Val.Kind])
          (by simp [Val.Kind]) hsn rfl]
    · rw [(Check_slice_of_elems M (fuel + 2) sn _ _ (hes2 pn)).2,
        selfCheck_no_method M (.array sn (pre' ++ .ptrTo pn t' :: post')) (by simp [Val.Kind])
          (by simp [Val.Kind]) hsn rfl]

/-- C20 (witness): `T` has only `func (t *T) Validate() *Error`, which always fails. -/
theorem C20_pointer_receiver_only_by_promotion_witness :
    Check (alwaysFailingPtr [("T", "invalid")]) 1 [some (.struct "T" [])]
        = .done ([some (.struct "T" [])], .nil)
    ∧ Check (alwaysFailingPtr [("T", "invalid")]) 2 [some (.ptrTo "" (.struct "T" []))]
        = .done ([some (.ptrTo "" (.struct "T" []))], .nil)
    ∧ Check (alwaysFailingPtr [("T", "invalid")]) 3
          [some (.struct "R" ([(⟨"Id", "", false⟩, .basic "int" .Int 1)]
            ++ (⟨"Item", "", false⟩, .ptrTo "" (.struct "T" []))
              :: [(⟨"Name", "", false⟩, .basic "string" .String 2)]))]
        = .done ([some (.struct "R" ([(⟨"Id", "", false⟩, .basic "int" .Int 1)]
            ++ (⟨"Item", "", false⟩, .ptrTo "" (.struct "T" []))
              :: [(⟨"Name", "", false⟩, .basic "string" .String 2)]))], .nil)
    ∧ Check (alwaysFailingPtr [("T", "invalid")]) 2
          [some (.slice "" ([.struct "T" []] ++ .struct "T" [] :: []))]
        = .done ([some (.slice "" ([.struct "T" []] ++ .struct "T" [] :: []))], .nil) :=
  have h := C20_pointer_receiver_only_by_promotion (alwaysFailingPtr [("T", "invalid")]) 0
    (.struct "T" []) (.struct "T" []) (fun _ => some ⟨"invalid"⟩) (by decide) (by decide) rfl rfl
    rfl
  ⟨h.1, h.2.1 "",
    ((h.2.2.1 "R" [(⟨"Id", "", false⟩, .basic "int" .Int 1)]
      [(⟨"Id", "", false⟩, .basic "int" .Int 1)]
      [(⟨"Name", "", false⟩, .basic "string" .String 2)]
      [(⟨"Name", "", false⟩, .basic "string" .String 2)] ⟨"Item", "", false⟩ (by decide) rfl rfl
      rfl).2.2 rfl rfl).2 "",
    (h.2.2.2 "" [.struct "T" []] [.struct "T" []] [] [] rfl rfl rfl).1⟩

/-! ## C1: a null pointer held by a field -/

theorem Validate_nilPtr (M : Methods) (fuel : Nat) (n : String) (elem : GoType)
    (hk : elem.Kind ≠ Kind.Ptr) :
    Validate (Check M (fuel + 2)) (some (.nilPtr n elem)) =
      match checkResolved M (Validate (Check M (fuel + 1))) (zeroValue elem) with
      | .done (z', err) => .done (some (.ptrTo n z'), err)
      | .panic m => .panic m
      | .outOfFuel => .outOfFuel := by
  rw [Validate_Check, bindNull_nilPtr, checkBody_ptrTo,
    indirectLoop_zero_nonptr fuel elem true _ hk]

/-- C1 (counterexample). The public field `F` of the record `R` has the type `**PT` and
holds a null pointer, so the pointed-to type `T` is `*PT`; `PT` has a `Validate` on the
pointer receiver which always fails, so the zero value of `T` (a null `*PT`) fails its own
`Validate` with "invalid". `Check` of the record, and of a pointer to it, binds the field
to a fresh `T`, binds that one in turn to a fresh zero `PT` and checks the `PT`: the field
does not point at a zero-valued `T`, the zero value of `T` is not what is checked, and
`Check` returns no failure. -/
theorem C1_pointer_typed_field_resolved_further :
    (alwaysFailingPtr [("PT", "invalid")]).validate (zeroValue (.ptr "" (.struct "PT" [])))
        = some (.returns (some ⟨"invalid"⟩))
    ∧ Check (alwaysFailingPtr [("PT", "invalid")]) 4
        [some (.struct "R" [(⟨"F", "", false⟩, .nilPtr "" (.ptr "" (.struct "PT" [])))])]
      = .done ([some (.struct "R" [(⟨"F", "", false⟩,
          .ptrTo "" (.ptrTo "" (.struct "PT" [])))])], .nil)
    ∧ Check (alwaysFailingPtr [("PT", "invalid")]) 5
        [some (.ptrTo "" (.struct "R" [(⟨"F", "", false⟩,
          .nilPtr "" (.ptr "" (.struct "PT" [])))]))]
      = .done ([some (.ptrTo "" (.struct "R" [(⟨"F", "", false⟩,
          .ptrTo "" (.ptrTo "" (.struct "PT" [])))]))], .nil)
    ∧ Val.ptrTo "" (.ptrTo "" (.struct "PT" []))
        ≠ .ptrTo "" (zeroValue (.ptr "" (.struct "PT" []))) :=
  ⟨rfl, rfl, rfl, by simp [zeroValue]⟩

/-- C1 (amended). A public field holding a null pointer to `T`, where `T` is not itself a
pointer type, is bound in place to a pointer to a fresh zero value of `T`, and the call of
line 60 on the field is the full check of that zero value (first conjunct). So when the
loop over the fields before it completes without failure, the descent into the zero value
finds no failure and its own `Validate` fails with `e`, `Check` of the record, and of a
pointer to the record, returns `e` with the field pointing at that value. -/
theorem C1_null_pointer_field_defaulted (M : Methods) (fuel : Nat) (n : String)
    (elem : GoType) (hk : elem.Kind ≠ Kind.Ptr) :
    Validate (Check M (fuel + 2)) (Val.nilPtr n elem).Interface =
      (match checkResolved M (Validate (Check M (fuel + 1))) (zeroValue elem) with
      | .done (z', err) => .done (some (.ptrTo n z'), err)
      | .panic m => .panic m
      | .outOfFuel => .outOfFuel)
    ∧ ∀ (name : String) (pre pre' post : List (StructField × Val)) (f : StructField)
        (z' : Val) (e : Error),
      isPrivateField f.Name = .done false → f.PkgPath = "" →
      checkFields (Validate (Check M (fuel + 2))) pre = .done (pre', .nil) →
      descend (Validate (Check M (fuel + 1))) (zeroValue elem) = .done (z', .nil) →
      selfCheck M z' = .done (.ptrError (some e)) →
      Check M (fuel + 3) [some (.struct name (pre ++ (f, .nilPtr n elem) :: post))]
          = .done ([some (.struct name (pre' ++ (f, .ptrTo n z') :: post))],
              .ptrError (some e))
      ∧ ∀ pn, Check M (fuel + 4)
            [some (.ptrTo pn (.struct name (pre ++ (f, .nilPtr n elem) :: post)))]
          = .done ([some (.ptrTo pn (.struct name (pre' ++ (f, .ptrTo n z') :: post)))],
              .ptrError (some e)) := by
  refine ⟨Validate_nilPtr M fuel n elem hk, ?_⟩
  intro name pre pre' post f z' e hf hp hpre hd hs
  have hV : Validate (Check M (fuel + 2)) (Val.nilPtr n elem).Interface
      = .done (some (.ptrTo n z'), .ptrError (some e)) := by
    have := Validate_nilPtr M fuel n elem hk
    rw [checkResolved_eq_descend, hd] at this
    simp only [if_true, hs] at this
    exact this
  have hfields : checkFields (Validate (Check M (fuel + 2))) (pre ++ (f, .nilPtr n elem) :: post)
      = .done (pre' ++ (f, .ptrTo n z') :: post, .ptrError (some e)) := by
    rw [checkFields_append_pass _ _ _ _ hpre,
      checkFields_cons_fail _ f (.nilPtr n elem) post _ _ hf hp hV (by simp)]
    rfl
  have hmono : ∀ x res, Validate (Check M (fuel + 2)) x = res → res ≠ .outOfFuel →
      Validate (Check M (fuel + 3)) x = res :=
    fun x res hx hne => Validate_Check_mono M (fuel + 2) x res hx hne
  have hfields2 := checkFields_mono _ _ hmono _ _ hfields (by simp)
  constructor
  · rw [Check_eq_checkLoop]
    apply checkLoop_single
    rw [checkBody_struct]
    simp [checkResolved, hfields]
  · intro pn
    rw [Check_eq_checkLoop]
    apply checkLoop_single
    rw [checkBody_ptr_struct]
    simp [checkResolved, hfields2]

/-- C1 (witness): the record with the single public field `F`, a null `*T`, under a table
where the zero value of `T` fails with "zero T" and `R` has no `Validate`. -/
theorem C1_null_pointer_field_defaulted_witness :
    Check (alwaysFailing [("T", "zero T")]) 3
        [some (.struct "R" ([] ++ (⟨"F", "", false⟩, .nilPtr "" (.struct "T" [])) :: []))]
      = .done ([some (.struct "R" ([] ++ (⟨"F", "", false⟩, .ptrTo "" (.struct "T" [])) :: []))],
          .ptrError (some ⟨"zero T"⟩))
    ∧ ∀ pn, Check (alwaysFailing [("T", "zero T")]) 4
        [some (.ptrTo pn (.struct "R"
          ([] ++ (⟨"F", "", false⟩, .nilPtr "" (.struct "T" [])) :: [])))]
      = .done ([some (.ptrTo pn (.struct "R"
          ([] ++ (⟨"F", "", false⟩, .ptrTo "" (.struct "T" [])) :: [])))],
          .ptrError (some ⟨"zero T"⟩)) :=
  (C1_null_pointer_field_defaulted (alwaysFailing [("T", "zero T")]) 0 "" (.struct "T" [])
    (by decide)).2 "R" [] [] [] ⟨"F", "", false⟩ (.struct "T" []) ⟨"zero T"⟩ (by decide) rfl rfl
    rfl rfl

/-! ## C12: termination -/

theorem goType_boundedBy_succ (d : Nat) (t : GoType) (h : t.boundedBy d = true) :
    t.boundedBy (d + 1) = true := by
  induction d generalizing t with
  | zero => simp [GoType.boundedBy] at h
  | succ k ih =>
    cases t with
    | basic n kd => rfl
    | map n => rfl
    | slice n => rfl
    | iface n => rfl
    | ptr n e =>
      simp only [GoType.boundedBy] at h ⊢
      exact ih e h
    | array n len e =>
      simp only [GoType.boundedBy] at h ⊢
      exact ih e h
    | struct n fs =>
      simp only [GoType.boundedBy] at h ⊢
      rw [List.all_eq_true] at h ⊢
      exact fun p hp => ih p.2 (h p hp)
    | recur n b => simp [GoType.boundedBy] at h
    | self n => simp [GoType.boundedBy] at h

theorem val_boundedBy_succ (d : Nat) (v : Val) (h : v.boundedBy d = true) :
    v.boundedBy (d + 1) = true := by
  induction d generalizing v with
  | zero => simp [Val.boundedBy] at h
  | succ k ih =>
    cases v with
    | basic n kd dt => rfl
    | map n es => rfl
    | nilPtr n e =>
      simp only [Val.boundedBy] at h ⊢
      exact goType_boundedBy_succ _ e h
    | ptrTo n c =>
      simp only [Val.boundedBy] at h ⊢
      exact ih c h
    | slice n es =>
      simp only [Val.boundedBy] at h ⊢
      rw [List.all_eq_true] at h ⊢
      exact fun e he => ih e (h e he)
    | array n es =>
      simp only [Val.boundedBy] at h ⊢
      rw [List.all_eq_true] at h ⊢
      exact fun e he => ih e (h e he)
    | struct n fs =>
      simp only [Val.boundedBy] at h ⊢
      rw [List.all_eq_true] at h ⊢
      exact fun p hp => ih p.2 (h p hp)
    | iface n dyn =>
      cases dyn with
      | none => rfl
      | some x =>
        simp only [Val.boundedBy] at h ⊢
        exact ih x h

theorem zeroFields_bounded (d : Nat)
    (ih : ∀ t : GoType, t.boundedBy d = true → (zeroValue t).boundedBy d = true)
    (fs : List (StructField × GoType)) (h : fs.all (fun p => p.2.boundedBy d) = true) :
    (zeroFields fs).all (fun p => p.2.boundedBy d) = true := by
  induction fs with
  | nil => simp [zeroFields]
  | cons p rest ihl =>
    obtain ⟨f, t⟩ := p
    simp only [List.all_cons, Bool.and_eq_true] at h
    simp only [zeroFields, List.all_cons, Bool.and_eq_true]
    exact ⟨ih t h.1, ihl h.2⟩

theorem zeroValue_bounded (d : Nat) (t : GoType) (h : t.boundedBy d = true) :
    (zeroValue t).boundedBy d = true := by
  induction d generalizing t with
  | zero => simp [GoType.boundedBy] at h
  | succ k ih =>
    cases t with
    | basic n kd => rfl
    | map n => rfl
    | slice n => simp [zeroValue, Val.boundedBy]
    | iface n => rfl
    | ptr n e =>
      simp only [GoType.boundedBy] at h
      simp only [zeroValue, Val.boundedBy]
      exact h
    | array n len e =>
      simp only [GoType.boundedBy] at h
      simp only [zeroValue, Val.boundedBy]
      rw [List.all_eq_true]
      intro x hx
      rw [List.eq_of_mem_replicate hx]
      exact ih e h
    | struct n fs =>
      simp only [GoType.boundedBy] at h
      simp only [zeroValue, Val.boundedBy]
      exact zeroFields_bounded k ih fs h
    | recur n b => simp [GoType.boundedBy] at h
    | self n => simp [GoType.boundedBy] at h

theorem indirectLoop_terminates (fuel d : Nat) (v : Val) (addr : Bool) (store : Val → Val)
    (hb : v.boundedBy d = true) (hle : d ≤ fuel) :
    indirectLoop fuel v addr store ≠ .outOfFuel
      ∧ ∀ r, indirectLoop fuel v addr store = .done r → r.value.boundedBy d = true := by
  induction fuel generalizing d v addr store with
  | zero =>
    have : d = 0 := by omega
    subst this
    simp [Val.boundedBy] at hb
  | succ k ih =>
    cases d with
    | zero => simp [Val.boundedBy] at hb
    | succ d' =>
      have hd : d' ≤ k := by omega
      have hbase : ∀ w : Val, w.boundedBy (d' + 1) = true →
          indirectLoop (k + 1) w addr store = .done ⟨w, addr, store⟩ →
          indirectLoop (k + 1) w addr store ≠ .outOfFuel
            ∧ ∀ r, indirectLoop (k + 1) w addr store = .done r →
              r.value.boundedBy (d' + 1) = true := by
        intro w hw he
        rw [he]
        refine ⟨by simp, fun r hr => ?_⟩
        simp only [Run.done.injEq] at hr
        rw [← hr]
        exact hw
      have hstep : ∀ (c : Val) (a : Bool) (s : Val → Val), c.boundedBy d' = true →
          indirectLoop k c a s ≠ .outOfFuel
            ∧ ∀ r, indirectLoop k c a s = .done r → r.value.boundedBy (d' + 1) = true :=
        fun c a s hc => ⟨(ih d' c a s hc hd).1,
          fun r hr => val_boundedBy_succ _ _ ((ih d' c a s hc hd).2 r hr)⟩
      cases v with
      | basic n kd dt => exact hbase _ hb rfl
      | map n es => exact hbase _ hb rfl
      | slice n es => exact hbase _ hb rfl
      | array n es => exact hbase _ hb rfl
      | struct n fs => exact hbase _ hb rfl
      | nilPtr n e =>
        simp only [Val.boundedBy] at hb
        cases addr with
        | true => exact hstep (zeroValue e) true _ (zeroValue_bounded d' e hb)
        | false => exact ⟨by simp [indirectLoop], fun r hr => by simp [indirectLoop] at hr⟩
      | ptrTo n c =>
        simp only [Val.boundedBy] at hb
        exact hstep c true _ hb
      | iface n dyn =>
        cases dyn with
        | none => exact hbase _ hb rfl
        | some x =>
          cases x with
          | ptrTo pn c =>
            simp only [Val.boundedBy] at hb
            exact hstep (.ptrTo pn c) false _ hb
          | basic _ _ _ => exact hbase _ hb rfl
          | map _ _ => exact hbase _ hb rfl
          | nilPtr _ _ => exact hbase _ hb rfl
          | slice _ _ => exact hbase _ hb rfl
          | array _ _ => exact hbase _ hb rfl
          | struct _ _ => exact hbase _ hb rfl
          | iface _ _ => exact hbase _ hb rfl

theorem selfCheck_ne_outOfFuel (M : Methods) (v : Val) : selfCheck M v ≠ .outOfFuel := by
  unfold selfCheck
  split
  · simp
  · split <;> simp

theorem isPrivateField_ne_outOfFuel (name : String) : isPrivateField name ≠ .outOfFuel := by
  unfold isPrivateField
  split
  · simp
  · split <;> simp

theorem checkElems_ne_outOfFuel (V : Any → Run (Any × GoError)) (l : List Val)
    (h : ∀ e ∈ l, V e.Interface ≠ .outOfFuel) : checkElems V l ≠ .outOfFuel := by
  induction l with
  | nil => simp [checkElems]
  | cons e rest ih =>
    have he := h e (List.mem_cons_self _ _)
    have hrest := ih (fun y hy => h y (List.mem_cons_of_mem _ hy))
    simp only [checkElems]
    cases hv : V e.Interface with
    | done q =>
      obtain ⟨a, e0⟩ := q
      by_cases hn : e0 = GoError.nil
      · simp only [hn, if_true]
        cases hr : checkElems V rest with
        | done q2 => simp
        | panic m => simp
        | outOfFuel => exact absurd hr hrest
      · simp [hn]
    | panic m => simp
    | outOfFuel => exact absurd hv he

theorem checkFields_ne_outOfFuel (V : Any → Run (Any × GoError))
    (l : List (StructField × Val)) (h : ∀ p ∈ l, V p.2.Interface ≠ .outOfFuel) :
    checkFields V l ≠ .outOfFuel := by
  induction l with
  | nil => simp [checkFields]
  | cons p rest ih =>
    obtain ⟨f, x⟩ := p
    have he := h (f, x) (List.mem_cons_self _ _)
    have hrest := ih (fun y hy => h y (List.mem_cons_of_mem _ hy))
    simp only [checkFields]
    cases hpf : isPrivateField f.Name with
    | done b =>
      cases b with
      | true =>
        simp only
        cases hr : checkFields V rest with
        | done q2 => simp
        | panic m => simp
        | outOfFuel => exact absurd hr hrest
      | false =>
        simp only
        by_cases hp : f.PkgPath = ""
        · simp only [hp, if_true]
          cases hv : V x.Interface with
          | done q =>
            obtain ⟨a, e0⟩ := q
            by_cases hn : e0 = GoError.nil
            · simp only [hn, if_true]
              cases hr : checkFields V rest with
              | done q2 => simp
              | panic m => simp
              | outOfFuel => exact absurd hr hrest
            · simp [hn]
          | panic m => simp
          | outOfFuel => exact absurd hv he
        · simp [hp]
    | panic m => simp
    | outOfFuel => exact absurd hpf (isPrivateField_ne_outOfFuel _)

theorem interface_bounded (d : Nat) (e w : Val) (he : e.boundedBy d = true)
    (hw : e.Interface = some w) : w.boundedBy d = true := by
  cases e with
  | iface n dyn =>
    simp only [Val.Interface] at hw
    subst hw
    cases d with
    | zero => simp [Val.boundedBy] at he
    | succ d' =>
      simp only [Val.boundedBy] at he
      exact val_boundedBy_succ _ _ he
  | basic _ _ _ => simp only [Val.Interface, Option.some.injEq] at hw; rw [← hw]; exact he
  | map _ _ => simp only [Val.Interface, Option.some.injEq] at hw; rw [← hw]; exact he
  | nilPtr _ _ => simp only [Val.Interface, Option.some.injEq] at hw; rw [← hw]; exact he
  | ptrTo _ _ => simp only [Val.Interface, Option.some.injEq] at hw; rw [← hw]; exact he
  | slice _ _ => simp only [Val.Interface, Option.some.injEq] at hw; rw [← hw]; exact he
  | array _ _ => simp only [Val.Interface, Option.some.injEq] at hw; rw [← hw]; exact he
  | struct _ _ => simp only [Val.Interface, Option.some.injEq] at hw; rw [← hw]; exact he

theorem descend_ne_outOfFuel (V : Any → Run (Any × GoError)) (d : Nat) (v : Val)
    (hV : ∀ x : Any, (∀ w, x = some w → w.boundedBy d = true) → V x ≠ .outOfFuel)
    (hb : v.boundedBy (d + 1) = true) : descend V v ≠ .outOfFuel := by
  cases v with
  | slice n es =>
    simp only [Val.boundedBy, List.all_eq_true] at hb
    have := checkElems_ne_outOfFuel V es
      (fun e he => hV _ (fun w hw => interface_bounded d e w (hb e he) hw))
    simp only [descend]
    cases hl : checkElems V es with
    | done q => simp
    | panic m => simp
    | outOfFuel => exact absurd hl this
  | array n es =>
    simp only [Val.boundedBy, List.all_eq_true] at hb
    have := checkElems_ne_outOfFuel V es
      (fun e he => hV _ (fun w hw => interface_bounded d e w (hb e he) hw))
    simp only [descend]
    cases hl : checkElems V es with
    | done q => simp
    | panic m => simp
    | outOfFuel => exact absurd hl this
  | struct n fs =>
    simp only [Val.boundedBy, List.all_eq_true] at hb
    have := checkFields_ne_outOfFuel V fs
      (fun p hp => hV _ (fun w hw => interface_bounded d p.2 w (hb p hp) hw))
    simp only [descend]
    cases hl : checkFields V fs with
    | done q => simp
    | panic m => simp
    | outOfFuel => exact absurd hl this
  | basic _ _ _ => simp [descend]
  | map _ _ => simp [descend]
  | nilPtr _ _ => simp [descend]
  | ptrTo _ _ => simp [descend]
  | iface _ _ => simp [descend]

theorem checkResolved_ne_outOfFuel (M : Methods) (V : Any → Run (Any × GoError)) (d : Nat)
    (v : Val)
    (hV : ∀ x : Any, (∀ w, x = some w → w.boundedBy d = true) → V x ≠ .outOfFuel)
    (hb : v.boundedBy (d + 1) = true) : checkResolved M V v ≠ .outOfFuel := by
  rw [checkResolved_eq_descend]
  cases hd : descend V v with
  | done q =>
    obtain ⟨v', e0⟩ := q
    by_cases hn : e0 = GoError.nil
    · simp only [hn, if_true]
      cases hs : selfCheck M v' with
      | done e1 => simp
      | panic m => simp
      | outOfFuel => exact absurd hs (selfCheck_ne_outOfFuel M v')
    · simp [hn]
  | panic m => simp
  | outOfFuel => exact absurd hd (descend_ne_outOfFuel V d v hV hb)

theorem checkValue_ne_outOfFuel (M : Methods) (fuel d : Nat) (V : Any → Run (Any × GoError))
    (x : Any)
    (hV : ∀ d', d' + 1 ≤ fuel → ∀ y : Any, (∀ w, y = some w → w.boundedBy d' = true) →
      V y ≠ .outOfFuel)
    (hle : d ≤ fuel) (hx : ∀ w, x = some w → w.boundedBy d = true) :
    checkValue M fuel V x ≠ .outOfFuel := by
  unfold checkValue
  simp only
  split
  · simp
  · cases x with
    | none => simp [indirect, ValueOf]
    | some v =>
      have hb := hx v rfl
      have hind : indirect fuel (ValueOf (some v)) = indirectLoop fuel v false id := by
        simp [indirect, ValueOf]
      rw [hind]
      obtain ⟨hne, hres⟩ := indirectLoop_terminates fuel d v false id hb hle
      cases hi : indirectLoop fuel v false id with
      | done r =>
        simp only
        have hrb := hres r hi
        cases d with
        | zero => simp [Val.boundedBy] at hb
        | succ d' =>
          have := checkResolved_ne_outOfFuel M V d' r.value (hV d' hle) hrb
          cases hr : checkResolved M V r.value with
          | done q => simp
          | panic m => simp
          | outOfFuel => exact absurd hr this
      | panic m => simp
      | outOfFuel => exact absurd hi hne

theorem bindNull_bounded (d : Nat) (y : Any) (hy : ∀ w, y = some w → w.boundedBy d = true) :
    ∀ w, bindNull y = some w → w.boundedBy d = true := by
  intro w hw
  cases y with
  | none => simp [bindNull] at hw
  | some v =>
    have hv := hy v rfl
    cases v with
    | nilPtr n e =>
      simp only [bindNull, Option.some.injEq] at hw
      rw [← hw]
      cases d with
      | zero => simp [Val.boundedBy] at hv
      | succ d' =>
        simp only [Val.boundedBy] at hv ⊢
        exact zeroValue_bounded d' e hv
    | _ =>
      simp only [bindNull, Option.some.injEq] at hw
      rw [← hw]
      exact hv

theorem checkBody_terminates (M : Methods) (fuel d : Nat) (x : Any) (hle : d ≤ fuel)
    (hx : ∀ w, x = some w → w.boundedBy d = true) : checkBody M fuel x ≠ .outOfFuel := by
  induction fuel generalizing d x with
  | zero =>
    exact checkValue_ne_outOfFuel M 0 d _ x (fun d' hd' => by omega) hle hx
  | succ k ih =>
    refine checkValue_ne_outOfFuel M (k + 1) d _ x (fun d' hd' y hy => ?_) hle hx
    rw [Validate_Check]
    exact ih d' _ (by omega) (bindNull_bounded d' y hy)

theorem checkLoop_ne_outOfFuel (body : Any → Run (Any × GoError)) (l : List Any)
    (h : ∀ x ∈ l, body x ≠ .outOfFuel) : checkLoop body l ≠ .outOfFuel := by
  induction l with
  | nil => simp [checkLoop]
  | cons e rest ih =>
    have he := h e (List.mem_cons_self _ _)
    have hrest := ih (fun y hy => h y (List.mem_cons_of_mem _ hy))
    simp only [checkLoop]
    cases hv : body e with
    | done q =>
      obtain ⟨a, e0⟩ := q
      by_cases hn : e0 = GoError.nil
      · simp only [hn, if_true]
        cases hr : checkLoop body rest with
        | done q2 => simp
        | panic m => simp
        | outOfFuel => exact absurd hr hrest
      · simp [hn]
    | panic m => simp
    | outOfFuel => exact absurd hv he

theorem zeroValue_selfPtr (n : String) :
    zeroValue (.recur n (.ptr n (.self n))) = .nilPtr n (.recur n (.ptr n (.self n))) := by
  simp [zeroValue, zeroValueIn, GoType.subst, List.lookup]

theorem indirectLoop_selfPtr (fuel : Nat) (n : String) (store : Val → Val) :
    indirectLoop fuel (.nilPtr n (.recur n (.ptr n (.self n)))) true store = .outOfFuel := by
  induction fuel generalizing store with
  | zero => rfl
  | succ k ih =>
    rw [indirectLoop_nilPtr, zeroValue_selfPtr]
    exact ih _

theorem Check_selfPtr_outOfFuel (M : Methods) (fuel : Nat) (pn n : String) :
    Check M fuel [some (.ptrTo pn (.nilPtr n (.recur n (.ptr n (.self n)))))] = .outOfFuel := by
  have hb : checkBody M fuel (some (.ptrTo pn (.nilPtr n (.recur n (.ptr n (.self n))))))
      = .outOfFuel := by
    cases fuel with
    | zero => rfl
    | succ k => rw [checkBody_ptrTo, indirectLoop_selfPtr]
  rw [Check_eq_checkLoop]
  simp [checkLoop, hb]

theorem zeroValue_twoStep (n : String) :
    zeroValue (.recur n (.ptr n (.ptr "" (.self n))))
      = .nilPtr n (.ptr "" (.recur n (.ptr n (.ptr "" (.self n))))) := by
  simp [zeroValue, zeroValueIn, GoType.subst, List.lookup]

theorem indirectLoop_twoStep (fuel : Nat) (n : String) :
    (∀ store : Val → Val,
      indirectLoop fuel (.nilPtr n (.ptr "" (.recur n (.ptr n (.ptr "" (.self n)))))) true store
        = .outOfFuel)
    ∧ (∀ store : Val → Val,
      indirectLoop fuel (.nilPtr "" (.recur n (.ptr n (.ptr "" (.self n))))) true store
        = .outOfFuel) := by
  induction fuel with
  | zero => exact ⟨fun _ => rfl, fun _ => rfl⟩
  | succ k ih =>
    refine ⟨fun store => ?_, fun store => ?_⟩
    · rw [indirectLoop_nilPtr]
      exact ih.2 _
    · rw [indirectLoop_nilPtr, zeroValue_twoStep]
      exact ih.1 _

theorem Check_twoStep_outOfFuel (M : Methods) (fuel : Nat) (pn n : String) :
    Check M fuel [some (.ptrTo pn (.nilPtr n (.ptr "" (.recur n (.ptr n (.ptr "" (.self n)))))))]
      = .outOfFuel := by
  have hb : checkBody M fuel
      (some (.ptrTo pn (.nilPtr n (.ptr "" (.recur n (.ptr n (.ptr "" (.self n))))))))
      = .outOfFuel := by
    cases fuel with
    | zero => rfl
    | succ k => rw [checkBody_ptrTo, (indirectLoop_twoStep k n).1]
  rw [Check_eq_checkLoop]
  simp [checkLoop, hb]

theorem zeroValue_node :
    zeroValue (.recur "Node" (.struct "Node" [(⟨"Next", "", false⟩, .ptr "" (.self "Node"))]))
      = .struct "Node" [(⟨"Next", "", false⟩, .nilPtr ""
          (.recur "Node" (.struct "Node" [(⟨"Next", "", false⟩, .ptr "" (.self "Node"))])))] :=
  rfl

theorem checkBody_node_outOfFuel (M : Methods) (fuel : Nat) :
    checkBody M fuel (some (.struct "Node" [(⟨"Next", "", false⟩, .nilPtr ""
        (.recur "Node" (.struct "Node" [(⟨"Next", "", false⟩, .ptr "" (.self "Node"))])))]))
      = .outOfFuel
    ∧ checkBody M fuel (some (.ptrTo "" (.struct "Node" [(⟨"Next", "", false⟩, .nilPtr ""
        (.recur "Node" (.struct "Node" [(⟨"Next", "", false⟩, .ptr "" (.self "Node"))])))])))
      = .outOfFuel := by
  have hf : isPrivateField "Next" = .done false := by decide
  induction fuel with
  | zero => exact ⟨rfl, rfl⟩
  | succ k ih =>
    have hV : Validate (Check M k) (some (.nilPtr ""
        (.recur "Node" (.struct "Node" [(⟨"Next", "", false⟩, .ptr "" (.self "Node"))]))))
        = .outOfFuel := by
      rw [Validate_Check, bindNull_nilPtr, zeroValue_node]
      exact ih.2
    have hres : checkResolved M (Validate (Check M k))
        (.struct "Node" [(⟨"Next", "", false⟩, .nilPtr ""
          (.recur "Node" (.struct "Node" [(⟨"Next", "", false⟩, .ptr "" (.self "Node"))])))])
        = .outOfFuel := by
      simp [checkResolved, checkFields, hf, Val.Interface, hV]
    constructor
    · rw [checkBody_struct, hres]
    · rw [checkBody_ptrTo]
      cases k with
      | zero => rfl
      | succ j =>
        have hl : indirectLoop (j + 1) (.struct "Node" [(⟨"Next", "", false⟩, .nilPtr ""
            (.recur "Node" (.struct "Node" [(⟨"Next", "", false⟩, .ptr "" (.self "Node"))])))])
            true (fun c => .ptrTo "" c)
            = .done ⟨.struct "Node" [(⟨"Next", "", false⟩, .nilPtr ""
              (.recur "Node" (.struct "Node" [(⟨"Next", "", false⟩, .ptr "" (.self "Node"))])))],
              true, fun c => .ptrTo "" c⟩ := rfl
        rw [hl]
        simp only
        rw [hres]

/-- With `type Node struct { Next *Node }` the record `Node{}` is checked for ever as well:
the call of line 60 on the null field `Next` binds it to a fresh `Node`, whose field `Next`
is null again. So a type that refers to itself through a struct field has to be left out of
a termination statement just as one that does so through pointers alone. -/
theorem Check_node_outOfFuel (M : Methods) (fuel : Nat) :
    Check M fuel [some (.struct "Node" [(⟨"Next", "", false⟩, .nilPtr ""
        (.recur "Node" (.struct "Node" [(⟨"Next", "", false⟩, .ptr "" (.self "Node"))])))])]
      = .outOfFuel := by
  rw [Check_eq_checkLoop]
  simp [checkLoop, (checkBody_node_outOfFuel M fuel).1]

/-- C12 (counterexample). With `type P *P`, the argument `&p` for a null `p` of type `P` is
a finite acyclic value, yet there is no fuel at which `Check` of it finishes: each
iteration of the loop of `indirect` binds the null slot to a fresh null `P` and goes on
with that one. The same holds with `type P **P`, where the loop binds a null `P` to a
fresh null `*P` and that one to a fresh null `P`, for ever. -/
theorem C12_self_pointer_type_diverges :
    (¬ ∃ fuel : Nat,
      Check noMethods fuel
        [some (.ptrTo "" (.nilPtr "P" (.recur "P" (.ptr "P" (.self "P")))))] ≠ .outOfFuel)
    ∧ (¬ ∃ fuel : Nat,
      Check noMethods fuel
        [some (.ptrTo "" (.nilPtr "P" (.ptr "" (.recur "P" (.ptr "P" (.ptr "" (.self "P")))))))]
          ≠ .outOfFuel) :=
  ⟨fun ⟨fuel, h⟩ => h (Check_selfPtr_outOfFuel noMethods fuel "" "P"),
    fun ⟨fuel, h⟩ => h (Check_twoStep_outOfFuel noMethods fuel "" "P")⟩

/-- With at most `d` nested levels in every argument and no type that refers to itself,
`Check` finishes (it returns or panics) at every fuel from `d` on. -/
theorem Check_finishes_of_bounded (M : Methods) (d : Nat) (vs : List Any)
    (h : ∀ v, some v ∈ vs → v.boundedBy d = true) :
    ∀ fuel, d ≤ fuel → Check M fuel vs ≠ .outOfFuel := by
  intro fuel hle
  rw [Check_eq_checkLoop]
  refine checkLoop_ne_outOfFuel _ vs (fun x hx => ?_)
  refine checkBody_terminates M fuel d x hle (fun w hw => ?_)
  subst hw
  exact h w hx

/-! ## C16: the frame of the traversal -/

theorem BindsAny_refl (a : Any) : BindsAny a a := by
  cases a with
  | none => trivial
  | some v => exact ⟨Binds.refl v, fun _ _ _ => rfl⟩

theorem bindsSlot_of_bindNull (x a : Any) (h : BindsAny (bindNull x) a) : BindsSlot x a := by
  cases x with
  | none =>
    cases a with
    | none => trivial
    | some w => exact absurd h (by simp [BindsAny, bindNull])
  | some v =>
    cases a with
    | none => cases v <;> exact absurd h (by simp [BindsAny, bindNull])
    | some w =>
      cases v with
      | nilPtr n e =>
        have h1 : Binds (.ptrTo n (zeroValue e)) w := h.1
        exact Binds.trans (Binds.bind n e) h1
      | _ => exact h.1

theorem restore_binds (e : Val) (a : Any) (h : BindsSlot e.Interface a) :
    Binds e (e.restore a) := by
  cases e with
  | iface n dyn =>
    cases dyn with
    | none =>
      cases a with
      | none => exact Binds.refl _
      | some x => exact absurd h (by simp [BindsSlot, Val.Interface])
    | some y =>
      cases a with
      | none => exact absurd h (by simp [BindsSlot, Val.Interface])
      | some x => exact Binds.box h
  | basic _ _ _ =>
    cases a with
    | none => exact absurd h (by simp [BindsSlot, Val.Interface])
    | some x => exact h
  | map _ _ =>
    cases a with
    | none => exact absurd h (by simp [BindsSlot, Val.Interface])
    | some x => exact h
  | nilPtr _ _ =>
    cases a with
    | none => exact absurd h (by simp [BindsSlot, Val.Interface])
    | some x => exact h
  | ptrTo _ _ =>
    cases a with
    | none => exact absurd h (by simp [BindsSlot, Val.Interface])
    | some x => exact h
  | slice _ _ =>
    cases a with
    | none => exact absurd h (by simp [BindsSlot, Val.Interface])
    | some x => exact h
  | array _ _ =>
    cases a with
    | none => exact absurd h (by simp [BindsSlot, Val.Interface])
    | some x => exact h
  | struct _ _ =>
    cases a with
    | none => exact absurd h (by simp [BindsSlot, Val.Interface])
    | some x => exact h

theorem indirectLoop_binds (fuel : Nat) (v : Val) (addr : Bool) (store : Val → Val)
    (r : Resolved) (h : indirectLoop fuel v addr store = .done r) :
    ∃ g : Val → Val, (∀ w, r.store w = store (g w)) ∧ ∀ w, Binds r.value w →
      (∀ n, Binds (.ptrTo n v) (.ptrTo n (g w))) ∧ ((∀ m e, v ≠ .nilPtr m e) → Binds v (g w)) := by
  induction fuel generalizing v addr store with
  | zero => simp [indirectLoop] at h
  | succ k ih =>
    have hbase : indirectLoop (k + 1) v addr store = .done ⟨v, addr, store⟩ →
        ∃ g : Val → Val, (∀ w, r.store w = store (g w)) ∧ ∀ w, Binds r.value w →
          (∀ n, Binds (.ptrTo n v) (.ptrTo n (g w)))
            ∧ ((∀ m e, v ≠ .nilPtr m e) → Binds v (g w)) := by
      intro he
      rw [he] at h
      simp only [Run.done.injEq] at h
      subst h
      exact ⟨id, fun _ => rfl, fun w hw => ⟨fun n => Binds.cell hw, fun _ => hw⟩⟩
    cases v with
    | basic n kd dt => exact hbase rfl
    | map n es => exact hbase rfl
    | slice n es => exact hbase rfl
    | array n es => exact hbase rfl
    | struct n fs => exact hbase rfl
    | nilPtr m e =>
      cases addr with
      | false => simp [indirectLoop] at h
      | true =>
        rw [indirectLoop_nilPtr] at h
        obtain ⟨g2, hs, hg⟩ := ih _ _ _ h
        refine ⟨fun w => .ptrTo m (g2 w), fun w => hs w, fun w hw => ⟨fun n => ?_, fun hne => ?_⟩⟩
        · exact Binds.trans (Binds.cell (Binds.bind m e)) (Binds.cell ((hg w hw).1 m))
        · exact absurd rfl (hne m e)
    | ptrTo n0 c =>
      rw [indirectLoop_ptrTo] at h
      obtain ⟨g2, hs, hg⟩ := ih _ _ _ h
      exact ⟨fun w => .ptrTo n0 (g2 w), fun w => hs w,
        fun w hw => ⟨fun n => Binds.cell ((hg w hw).1 n0), fun _ => (hg w hw).1 n0⟩⟩
    | iface n0 dyn =>
      cases dyn with
      | none => exact hbase rfl
      | some x =>
        cases x with
        | ptrTo pn c =>
          have h' : indirectLoop k (.ptrTo pn c) false (fun p => store (.iface n0 (some p)))
              = .done r := h
          obtain ⟨g2, hs, hg⟩ := ih _ _ _ h'
          have hb : ∀ w, Binds r.value w → Binds (.ptrTo pn c) (g2 w) :=
            fun w hw => (hg w hw).2 (fun _ _ hc => Val.noConfusion hc)
          exact ⟨fun w => .iface n0 (some (g2 w)), fun w => hs w,
            fun w hw => ⟨fun n => Binds.cell (Binds.box (hb w hw)), fun _ => Binds.box (hb w hw)⟩⟩
        | basic _ _ _ => exact hbase rfl
        | map _ _ => exact hbase rfl
        | nilPtr _ _ => exact hbase rfl
        | slice _ _ => exact hbase rfl
        | array _ _ => exact hbase rfl
        | struct _ _ => exact hbase rfl
        | iface _ _ => exact hbase rfl

theorem checkElems_binds (V : Any → Run (Any × GoError))
    (hV : ∀ x a err, V x = .done (a, err) → BindsSlot x a) (l l' : List Val) (err : GoError)
    (h : checkElems V l = .done (l', err)) :
    ∀ (n : String) (pre : List Val), Binds (.slice n (pre ++ l)) (.slice n (pre ++ l'))
      ∧ Binds (.array n (pre ++ l)) (.array n (pre ++ l')) := by
  induction l generalizing l' err with
  | nil =>
    simp [checkElems] at h
    rw [← h.1]
    exact fun n pre => ⟨Binds.refl _, Binds.refl _⟩
  | cons e rest ih =>
    simp only [checkElems] at h
    cases hv : V e.Interface with
    | done q =>
      obtain ⟨a, e0⟩ := q
      rw [hv] at h
      have he : Binds e (e.restore a) := restore_binds e a (hV _ _ _ hv)
      by_cases hn : e0 = GoError.nil
      · simp only [hn, if_true] at h
        cases hrest : checkElems V rest with
        | done q2 =>
          obtain ⟨rest', e1⟩ := q2
          rw [hrest] at h
          simp at h
          rw [← h.1]
          intro n pre
          have h2 := ih rest' e1 hrest n (pre ++ [e.restore a])
          simp only [List.append_assoc, List.singleton_append] at h2
          exact ⟨Binds.trans (Binds.sliceElem he) h2.1, Binds.trans (Binds.arrayElem he) h2.2⟩
        | panic m => rw [hrest] at h; simp at h
        | outOfFuel => rw [hrest] at h; simp at h
      · simp [hn] at h
        rw [← h.1]
        exact fun n pre => ⟨Binds.sliceElem he, Binds.arrayElem he⟩
    | panic m => rw [hv] at h; simp at h
    | outOfFuel => rw [hv] at h; simp at h

theorem checkFields_binds (V : Any → Run (Any × GoError))
    (hV : ∀ x a err, V x = .done (a, err) → BindsSlot x a)
    (l l' : List (StructField × Val)) (err : GoError)
    (h : checkFields V l = .done (l', err)) :
    ∀ (n : String) (pre : List (StructField × Val)),
      Binds (.struct n (pre ++ l)) (.struct n (pre ++ l')) := by
  induction l generalizing l' err with
  | nil =>
    simp [checkFields] at h
    rw [← h.1]
    exact fun n pre => Binds.refl _
  | cons p rest ih =>
    obtain ⟨f, x⟩ := p
    simp only [checkFields] at h
    cases hpf : isPrivateField f.Name with
    | done b =>
      rw [hpf] at h
      cases b with
      | true =>
        simp only at h
        cases hrest : checkFields V rest with
        | done q2 =>
          obtain ⟨rest', e1⟩ := q2
          rw [hrest] at h
          simp at h
          rw [← h.1]
          intro n pre
          have h2 := ih rest' e1 hrest n (pre ++ [(f, x)])
          simp only [List.append_assoc, List.singleton_append] at h2
          exact h2
        | panic m => rw [hrest] at h; simp at h
        | outOfFuel => rw [hrest] at h; simp at h
      | false =>
        simp only at h
        by_cases hp : f.PkgPath = ""
        · simp only [hp, if_true] at h
          cases hv : V x.Interface with
          | done q =>
            obtain ⟨a, e0⟩ := q
            rw [hv] at h
            have he : Binds x (x.restore a) := restore_binds x a (hV _ _ _ hv)
            by_cases hn : e0 = GoError.nil
            · simp only [hn, if_true] at h
              cases hrest : checkFields V rest with
              | done q2 =>
                obtain ⟨rest', e1⟩ := q2
                rw [hrest] at h
                simp at h
                rw [← h.1]
                intro n pre
                have h2 := ih rest' e1 hrest n (pre ++ [(f, x.restore a)])
                simp only [List.append_assoc, List.singleton_append] at h2
                exact Binds.trans (Binds.field he) h2
              | panic m => rw [hrest] at h; simp at h
              | outOfFuel => rw [hrest] at h; simp at h
            · simp [hn] at h
              rw [← h.1]
              exact fun n pre => Binds.field he
          | panic m => rw [hv] at h; simp at h
          | outOfFuel => rw [hv] at h; simp at h
        · simp [hp] at h
    | panic m => rw [hpf] at h; simp at h
    | outOfFuel => rw [hpf] at h; simp at h

theorem descend_binds (V : Any → Run (Any × GoError))
    (hV : ∀ x a err, V x = .done (a, err) → BindsSlot x a) (v v' : Val) (err : GoError)
    (h : descend V v = .done (v', err)) : Binds v v' := by
  cases v with
  | slice n es =>
    simp only [descend] at h
    cases hl : checkElems V es with
    | done q =>
      obtain ⟨es', e0⟩ := q
      rw [hl] at h
      simp at h
      rw [← h.1]
      exact (checkElems_binds V hV es es' e0 hl n []).1
    | panic m => rw [hl] at h; simp at h
    | outOfFuel => rw [hl] at h; simp at h
  | array n es =>
    simp only [descend] at h
    cases hl : checkElems V es with
    | done q =>
      obtain ⟨es', e0⟩ := q
      rw [hl] at h
      simp at h
      rw [← h.1]
      exact (checkElems_binds V hV es es' e0 hl n []).2
    | panic m => rw [hl] at h; simp at h
    | outOfFuel => rw [hl] at h; simp at h
  | struct n fs =>
    simp only [descend] at h
    cases hl : checkFields V fs with
    | done q =>
      obtain ⟨fs', e0⟩ := q
      rw [hl] at h
      simp at h
      rw [← h.1]
      exact checkFields_binds V hV fs fs' e0 hl n []
    | panic m => rw [hl] at h; simp at h
    | outOfFuel => rw [hl] at h; simp at h
  | basic _ _ _ => simp [descend] at h; rw [← h.1]; exact Binds.refl _
  | map _ _ => simp [descend] at h; rw [← h.1]; exact Binds.refl _
  | nilPtr _ _ => simp [descend] at h; rw [← h.1]; exact Binds.refl _
  | ptrTo _ _ => simp [descend] at h; rw [← h.1]; exact Binds.refl _
  | iface _ _ => simp [descend] at h; rw [← h.1]; exact Binds.refl _

theorem checkResolved_descend_inv (M : Methods) (V : Any → Run (Any × GoError)) (v v' : Val)
    (err : GoError) (h : checkResolved M V v = .done (v', err)) :
    ∃ e0, descend V v = .done (v', e0) := by
  rw [checkResolved_eq_descend] at h
  cases hd : descend V v with
  | done q =>
    obtain ⟨w, e0⟩ := q
    rw [hd] at h
    by_cases hn : e0 = GoError.nil
    · simp only [hn, if_true] at h
      cases hs : selfCheck M w with
      | done e1 =>
        rw [hs] at h
        simp at h
        exact ⟨e0, by rw [h.1]⟩
      | panic m => rw [hs] at h; simp at h
      | outOfFuel => rw [hs] at h; simp at h
    · simp [hn] at h
      exact ⟨e0, by rw [h.1]⟩
  | panic m => rw [hd] at h; simp at h
  | outOfFuel => rw [hd] at h; simp at h

theorem checkValue_binds (M : Methods) (fuel : Nat) (V : Any → Run (Any × GoError))
    (hV : ∀ x a err, V x = .done (a, err) → BindsSlot x a) (v v' : Any) (err : GoError)
    (h : checkValue M fuel V v = .done (v', err)) : BindsAny v v' := by
  unfold checkValue at h
  simp only at h
  split at h
  · simp at h
    rw [← h.1]
    exact BindsAny_refl v
  · rename_i hguard
    cases v with
    | none => simp [indirect, ValueOf] at h
    | some x =>
      have hx : ∀ m e, x ≠ .nilPtr m e := by
        intro m e hc
        apply hguard
        subst hc
        simp [ValueOf, Value.Kind, Value.IsNil, Val.Kind, Val.IsNil]
      have hind : indirect fuel (ValueOf (some x)) = indirectLoop fuel x false id := by
        simp [indirect, ValueOf]
      rw [hind] at h
      cases hi : indirectLoop fuel x false id with
      | done r =>
        rw [hi] at h
        simp only at h
        cases hr : checkResolved M V r.value with
        | done q =>
          obtain ⟨w, e0⟩ := q
          rw [hr] at h
          simp at h
          rw [← h.1]
          obtain ⟨e1, hd⟩ := checkResolved_descend_inv M V _ _ _ hr
          obtain ⟨g, hs, hg⟩ := indirectLoop_binds fuel x false id r hi
          have := (hg w (descend_binds V hV _ _ _ hd)).2 hx
          rw [hs w]
          exact ⟨this, fun n e hc => absurd hc (hx n e)⟩
        | panic m => rw [hr] at h; simp at h
        | outOfFuel => rw [hr] at h; simp at h
      | panic m => rw [hi] at h; simp at h
      | outOfFuel => rw [hi] at h; simp at h

theorem checkBody_binds (M : Methods) (fuel : Nat) (v v' : Any) (err : GoError)
    (h : checkBody M fuel v = .done (v', err)) : BindsAny v v' := by
  induction fuel generalizing v v' err with
  | zero => exact checkValue_binds M 0 _ (fun x a e hx => by simp at hx) v v' err h
  | succ k ih =>
    refine checkValue_binds M (k + 1) _ (fun x a e hx => ?_) v v' err h
    rw [Validate_Check] at hx
    exact bindsSlot_of_bindNull x a (ih _ a e hx)

theorem checkLoop_binds (body : Any → Run (Any × GoError))
    (hb : ∀ x a err, body x = .done (a, err) → BindsAny x a) (l l' : List Any) (err : GoError)
    (h : checkLoop body l = .done (l', err)) : List.Forall₂ BindsAny l l' := by
  induction l generalizing l' err with
  | nil =>
    simp [checkLoop] at h
    obtain ⟨h1, _⟩ := h
    subst h1
    exact List.Forall₂.nil
  | cons v rest ih =>
    simp only [checkLoop] at h
    cases hv : body v with
    | done q =>
      obtain ⟨a, e0⟩ := q
      rw [hv] at h
      by_cases hn : e0 = GoError.nil
      · simp only [hn, if_true] at h
        cases hrest : checkLoop body rest with
        | done q2 =>
          obtain ⟨rest', e1⟩ := q2
          rw [hrest] at h
          simp at h
          rw [← h.1]
          exact List.Forall₂.cons (hb _ _ _ hv) (ih rest' e1 hrest)
        | panic m => rw [hrest] at h; simp at h
        | outOfFuel => rw [hrest] at h; simp at h
      · simp [hn] at h
        rw [← h.1]
        refine List.Forall₂.cons (hb _ _ _ hv) ?_
        exact List.forall₂_same.mpr (fun x _ => BindsAny_refl x)
    | panic m => rw [hv] at h; simp at h
    | outOfFuel => rw [hv] at h; simp at h

theorem reachNull_of_nonNil (b b' : Bool) (v : Val) (h : ReachNull b v)
    (hv : ∀ n e, v ≠ .nilPtr n e) : ReachNull b' v := by
  cases h with
  | slot n e => exact absurd rfl (hv n e)
  | deref _ n c hc => exact ReachNull.deref b' n c hc
  | unbox _ n pn c hc => exact ReachNull.unbox b' n pn c hc
  | sliceElem _ n pre e post w hw hr => exact ReachNull.sliceElem b' n pre e post w hw hr
  | arrayElem _ n pre e post w hw hr => exact ReachNull.arrayElem b' n pre e post w hw hr
  | field _ n pre f x post w hf hw hr => exact ReachNull.field b' n pre f x post w hf hw hr

theorem restore_interface (e : Val) : e.restore e.Interface = e := by
  cases e with
  | iface n dyn => cases dyn <;> rfl
  | basic _ _ _ => rfl
  | map _ _ => rfl
  | nilPtr _ _ => rfl
  | ptrTo _ _ => rfl
  | slice _ _ => rfl
  | array _ _ => rfl
  | struct _ _ => rfl

theorem indirectLoop_unchanged (fuel : Nat) (v : Val) (addr : Bool) (store : Val → Val)
    (r : Resolved) (h : indirectLoop fuel v addr store = .done r) (hn : ¬ ReachNull addr v) :
    ∃ g : Val → Val, (∀ w, r.store w = store (g w)) ∧ g r.value = v
      ∧ ∀ b, ¬ ReachNull b r.value := by
  induction fuel generalizing v addr store with
  | zero => simp [indirectLoop] at h
  | succ k ih =>
    have hbase : (∀ n e, v ≠ .nilPtr n e) →
        indirectLoop (k + 1) v addr store = .done ⟨v, addr, store⟩ →
        ∃ g : Val → Val, (∀ w, r.store w = store (g w)) ∧ g r.value = v
          ∧ ∀ b, ¬ ReachNull b r.value := by
      intro hv he
      rw [he] at h
      simp only [Run.done.injEq] at h
      subst h
      exact ⟨id, fun _ => rfl, rfl, fun b hb => hn (reachNull_of_nonNil b addr v hb hv)⟩
    cases v with
    | basic n kd dt => exact hbase (fun _ _ hc => Val.noConfusion hc) rfl
    | map n es => exact hbase (fun _ _ hc => Val.noConfusion hc) rfl
    | slice n es => exact hbase (fun _ _ hc => Val.noConfusion hc) rfl
    | array n es => exact hbase (fun _ _ hc => Val.noConfusion hc) rfl
    | struct n fs => exact hbase (fun _ _ hc => Val.noConfusion hc) rfl
    | nilPtr m e =>
      cases addr with
      | false => simp [indirectLoop] at h
      | true => exact absurd (ReachNull.slot m e) hn
    | ptrTo n0 c =>
      rw [indirectLoop_ptrTo] at h
      obtain ⟨g2, hs, hg, hr⟩ := ih _ _ _ h (fun hc => hn (ReachNull.deref addr n0 c hc))
      exact ⟨fun w => .ptrTo n0 (g2 w), fun w => hs w, by simp only [hg], hr⟩
    | iface n0 dyn =>
      cases dyn with
      | none => exact hbase (fun _ _ hc => Val.noConfusion hc) rfl
      | some x =>
        cases x with
        | ptrTo pn c =>
          have h' : indirectLoop k (.ptrTo pn c) false (fun p => store (.iface n0 (some p)))
              = .done r := h
          have hn' : ¬ ReachNull false (.ptrTo pn c) := by
            intro hc
            cases hc with
            | deref _ _ _ hc' => exact hn (ReachNull.unbox addr n0 pn c hc')
          obtain ⟨g2, hs, hg, hr⟩ := ih _ _ _ h' hn'
          exact ⟨fun w => .iface n0 (some (g2 w)), fun w => hs w, by simp only [hg], hr⟩
        | basic _ _ _ => exact hbase (fun _ _ hc => Val.noConfusion hc) rfl
        | map _ _ => exact hbase (fun _ _ hc => Val.noConfusion hc) rfl
        | nilPtr _ _ => exact hbase (fun _ _ hc => Val.noConfusion hc) rfl
        | slice _ _ => exact hbase (fun _ _ hc => Val.noConfusion hc) rfl
        | array _ _ => exact hbase (fun _ _ hc => Val.noConfusion hc) rfl
        | struct _ _ => exact hbase (fun _ _ hc => Val.noConfusion hc) rfl
        | iface _ _ => exact hbase (fun _ _ hc => Val.noConfusion hc) rfl

theorem checkElems_unchanged (V : Any → Run (Any × GoError))
    (hV : ∀ x a err, V x = .done (a, err) → (∀ w, x = some w → ¬ ReachNull true w) → a = x)
    (l l' : List Val) (err : GoError)
    (hl : ∀ e ∈ l, ∀ w, e.Interface = some w → ¬ ReachNull true w)
    (h : checkElems V l = .done (l', err)) : l' = l := by
  induction l generalizing l' err with
  | nil => simp [checkElems] at h; exact h.1
  | cons e rest ih =>
    simp only [checkElems] at h
    cases hv : V e.Interface with
    | done q =>
      obtain ⟨a, e0⟩ := q
      rw [hv] at h
      have ha : a = e.Interface := hV _ _ _ hv (hl e (List.mem_cons_self _ _))
      have he : e.restore a = e := by rw [ha]; exact restore_interface e
      by_cases hn : e0 = GoError.nil
      · simp only [hn, if_true] at h
        cases hrest : checkElems V rest with
        | done q2 =>
          obtain ⟨rest', e1⟩ := q2
          rw [hrest] at h
          simp at h
          rw [← h.1, he, ih rest' e1 (fun y hy => hl y (List.mem_cons_of_mem _ hy)) hrest]
        | panic m => rw [hrest] at h; simp at h
        | outOfFuel => rw [hrest] at h; simp at h
      · simp [hn] at h
        rw [← h.1, he]
    | panic m => rw [hv] at h; simp at h
    | outOfFuel => rw [hv] at h; simp at h

theorem checkFields_unchanged (V : Any → Run (Any × GoError))
    (hV : ∀ x a err, V x = .done (a, err) → (∀ w, x = some w → ¬ ReachNull true w) → a = x)
    (l l' : List (StructField × Val)) (err : GoError)
    (hl : ∀ p ∈ l, isPrivateField p.1.Name = .done false →
      ∀ w, p.2.Interface = some w → ¬ ReachNull true w)
    (h : checkFields V l = .done (l', err)) : l' = l := by
  induction l generalizing l' err with
  | nil => simp [checkFields] at h; exact h.1
  | cons p rest ih =>
    obtain ⟨f, x⟩ := p
    have hrestl : ∀ p ∈ rest, isPrivateField p.1.Name = .done false →
        ∀ w, p.2.Interface = some w → ¬ ReachNull true w :=
      fun y hy => hl y (List.mem_cons_of_mem _ hy)
    simp only [checkFields] at h
    cases hpf : isPrivateField f.Name with
    | done b =>
      rw [hpf] at h
      cases b with
      | true =>
        simp only at h
        cases hrest : checkFields V rest with
        | done q2 =>
          obtain ⟨rest', e1⟩ := q2
          rw [hrest] at h
          simp at h
          rw [← h.1, ih rest' e1 hrestl hrest]
        | panic m => rw [hrest] at h; simp at h
        | outOfFuel => rw [hrest] at h; simp at h
      | false =>
        simp only at h
        by_cases hp : f.PkgPath = ""
        · simp only [hp, if_true] at h
          cases hv : V x.Interface with
          | done q =>
            obtain ⟨a, e0⟩ := q
            rw [hv] at h
            have ha : a = x.Interface :=
              hV _ _ _ hv (hl (f, x) (List.mem_cons_self _ _) hpf)
            have he : x.restore a = x := by rw [ha]; exact restore_interface x
            by_cases hn : e0 = GoError.nil
            · simp only [hn, if_true] at h
              cases hrest : checkFields V rest with
              | done q2 =>
                obtain ⟨rest', e1⟩ := q2
                rw [hrest] at h
                simp at h
                rw [← h.1, he, ih rest' e1 hrestl hrest]
              | panic m => rw [hrest] at h; simp at h
              | outOfFuel => rw [hrest] at h; simp at h
            · simp [hn] at h
              rw [← h.1, he]
          | panic m => rw [hv] at h; simp at h
          | outOfFuel => rw [hv] at h; simp at h
        · simp [hp] at h
    | panic m => rw [hpf] at h; simp at h
    | outOfFuel => rw [hpf] at h; simp at h

theorem descend_unchanged (V : Any → Run (Any × GoError))
    (hV : ∀ x a err, V x = .done (a, err) → (∀ w, x = some w → ¬ ReachNull true w) → a = x)
    (v v' : Val) (err : GoError) (hn : ∀ b, ¬ ReachNull b v)
    (h : descend V v = .done (v', err)) : v' = v := by
  cases v with
  | slice n es =>
    simp only [descend] at h
    cases hl : checkElems V es with
    | done q =>
      obtain ⟨es', e0⟩ := q
      rw [hl] at h
      simp at h
      rw [← h.1, checkElems_unchanged V hV es es' e0 (fun e he w hw hr => by
        obtain ⟨pre, post, rfl⟩ := List.append_of_mem he
        exact hn false (ReachNull.sliceElem false n pre e post w hw hr)) hl]
    | panic m => rw [hl] at h; simp at h
    | outOfFuel => rw [hl] at h; simp at h
  | array n es =>
    simp only [descend] at h
    cases hl : checkElems V es with
    | done q =>
      obtain ⟨es', e0⟩ := q
      rw [hl] at h
      simp at h
      rw [← h.1, checkElems_unchanged V hV es es' e0 (fun e he w hw hr => by
        obtain ⟨pre, post, rfl⟩ := List.append_of_mem he
        exact hn false (ReachNull.arrayElem false n pre e post w hw hr)) hl]
    | panic m => rw [hl] at h; simp at h
    | outOfFuel => rw [hl] at h; simp at h
  | struct n fs =>
    simp only [descend] at h
    cases hl : checkFields V fs with
    | done q =>
      obtain ⟨fs', e0⟩ := q
      rw [hl] at h
      simp at h
      rw [← h.1, checkFields_unchanged V hV fs fs' e0 (fun p hp hf w hw hr => by
        obtain ⟨pre, post, rfl⟩ := List.append_of_mem hp
        exact hn false (ReachNull.field false n pre p.1 p.2 post w hf hw hr)) hl]
    | panic m => rw [hl] at h; simp at h
    | outOfFuel => rw [hl] at h; simp at h
  | basic _ _ _ => simp [descend] at h; exact h.1.symm
  | map _ _ => simp [descend] at h; exact h.1.symm
  | nilPtr _ _ => simp [descend] at h; exact h.1.symm
  | ptrTo _ _ => simp [descend] at h; exact h.1.symm
  | iface _ _ => simp [descend] at h; exact h.1.symm

theorem checkValue_unchanged (M : Methods) (fuel : Nat) (V : Any → Run (Any × GoError))
    (hV : ∀ x a err, V x = .done (a, err) → (∀ w, x = some w → ¬ ReachNull true w) → a = x)
    (v v' : Any) (err : GoError) (hn : ∀ w, v = some w → ¬ ReachNull false w)
    (h : checkValue M fuel V v = .done (v', err)) : v' = v := by
  unfold checkValue at h
  simp only at h
  split at h
  · simp at h
    exact h.1.symm
  · cases v with
    | none => simp [indirect, ValueOf] at h
    | some x =>
      have hind : indirect fuel (ValueOf (some x)) = indirectLoop fuel x false id := by
        simp [indirect, ValueOf]
      rw [hind] at h
      cases hi : indirectLoop fuel x false id with
      | done r =>
        rw [hi] at h
        simp only at h
        cases hr : checkResolved M V r.value with
        | done q =>
          obtain ⟨w, e0⟩ := q
          rw [hr] at h
          simp at h
          rw [← h.1]
          obtain ⟨e1, hd⟩ := checkResolved_descend_inv M V _ _ _ hr
          obtain ⟨g, hs, hg, hno⟩ := indirectLoop_unchanged fuel x false id r hi (hn x rfl)
          rw [descend_unchanged V hV _ _ _ hno hd, hs, hg]
          rfl
        | panic m => rw [hr] at h; simp at h
        | outOfFuel => rw [hr] at h; simp at h
      | panic m => rw [hi] at h; simp at h
      | outOfFuel => rw [hi] at h; simp at h

theorem checkBody_unchanged (M : Methods) (fuel : Nat) (v v' : Any) (err : GoError)
    (hn : ∀ w, v = some w → ¬ ReachNull false w)
    (h : checkBody M fuel v = .done (v', err)) : v' = v := by
  induction fuel generalizing v v' err with
  | zero => exact checkValue_unchanged M 0 _ (fun x a e hx => by simp at hx) v v' err hn h
  | succ k ih =>
    refine checkValue_unchanged M (k + 1) _ (fun x a e hx hxn => ?_) v v' err hn h
    rw [Validate_Check] at hx
    cases x with
    | none => exact ih none a e (fun w hw => Option.noConfusion hw) hx
    | some w =>
      have hw := hxn w rfl
      have hne : ∀ n el, w ≠ .nilPtr n el := fun n el hc => hw (hc ▸ ReachNull.slot n el)
      have hb : bindNull (some w) = some w := by
        cases w with
        | nilPtr n el => exact absurd rfl (hne n el)
        | _ => rfl
      rw [hb] at hx
      refine ih (some w) a e (fun w' hw' hr => ?_) hx
      simp only [Option.some.injEq] at hw'
      subst hw'
      exact hw (reachNull_of_nonNil false true _ hr hne)

theorem checkLoop_unchanged (body : Any → Run (Any × GoError)) (l l' : List Any)
    (err : GoError)
    (hb : ∀ x ∈ l, ∀ a e, body x = .done (a, e) → a = x)
    (h : checkLoop body l = .done (l', err)) : l' = l := by
  induction l generalizing l' err with
  | nil => simp [checkLoop] at h; exact h.1
  | cons v rest ih =>
    simp only [checkLoop] at h
    cases hv : body v with
    | done q =>
      obtain ⟨a, e0⟩ := q
      rw [hv] at h
      have ha : a = v := hb v (List.mem_cons_self _ _) a e0 hv
      by_cases hn : e0 = GoError.nil
      · simp only [hn, if_true] at h
        cases hrest : checkLoop body rest with
        | done q2 =>
          obtain ⟨rest', e1⟩ := q2
          rw [hrest] at h
          simp at h
          rw [← h.1, ha, ih rest' e1 (fun y hy => hb y (List.mem_cons_of_mem _ hy)) hrest]
        | panic m => rw [hrest] at h; simp at h
        | outOfFuel => rw [hrest] at h; simp at h
      · simp [hn] at h
        rw [← h.1, ha]
    | panic m => rw [hv] at h; simp at h
    | outOfFuel => rw [hv] at h; simp at h

/-- C16. Frame of the traversal: whenever `Check` returns, each argument it hands back is
the argument it was given with some null pointer slots bound to fresh zero values and with
nothing else changed (`Binds`); and when no null pointer slot of the arguments is reachable
by resolution, the arguments are handed back unchanged. -/
theorem C16_only_null_slots_are_bound (M : Methods) (fuel : Nat) (vs vs' : List Any)
    (err : GoError) (h : Check M fuel vs = .done (vs', err)) :
    List.Forall₂ BindsAny vs vs'
      ∧ ((∀ v, some v ∈ vs → ¬ ReachNull false v) → vs' = vs) := by
  rw [Check_eq_checkLoop] at h
  refine ⟨checkLoop_binds _ (checkBody_binds M fuel) vs vs' err h, fun hn => ?_⟩
  refine checkLoop_unchanged _ vs vs' err (fun x hx a e hxa => ?_) h
  refine checkBody_unchanged M fuel x a e (fun w hw => ?_) hxa
  subst hw
  exact hn w hx

/-- C16 (witness): a pointer to a record whose field `Slot` points at a null `*T` slot and
whose field `Name` is a string: the slot is bound to a fresh zero `T`, the rest stays; and
a pointer to an int next to a null pointer argument, where no null slot is reachable and
the arguments come back unchanged. -/
theorem C16_only_null_slots_are_bound_witness :
    List.Forall₂ BindsAny
        [some (.ptrTo "" (.struct "R" [(⟨"Slot", "", false⟩, .ptrTo "" (.nilPtr "" (.struct "T" []))),
          (⟨"Name", "", false⟩, .basic "string" .String 3)]))]
        [some (.ptrTo "" (.struct "R" [(⟨"Slot", "", false⟩, .ptrTo "" (.ptrTo "" (.struct "T" []))),
          (⟨"Name", "", false⟩, .basic "string" .String 3)]))]
      ∧ [some (Val.ptrTo "" (.basic "int" .Int 7)), some (.nilPtr "" (.struct "T" []))]
        = [some (Val.ptrTo "" (.basic "int" .Int 7)), some (.nilPtr "" (.struct "T" []))] :=
  ⟨(C16_only_null_slots_are_bound noMethods 5
      [some (.ptrTo "" (.struct "R" [(⟨"Slot", "", false⟩, .ptrTo "" (.nilPtr "" (.struct "T" []))),
        (⟨"Name", "", false⟩, .basic "string" .String 3)]))]
      [some (.ptrTo "" (.struct "R" [(⟨"Slot", "", false⟩, .ptrTo "" (.ptrTo "" (.struct "T" []))),
        (⟨"Name", "", false⟩, .basic "string" .String 3)]))]
      .nil rfl).1,
    (C16_only_null_slots_are_bound (alwaysFailing [("T", "zero T")]) 5
      [some (Val.ptrTo "" (.basic "int" .Int 7)), some (.nilPtr "" (.struct "T" []))]
      [some (Val.ptrTo "" (.basic "int" .Int 7)), some (.nilPtr "" (.struct "T" []))]
      .nil rfl).2
      (fun v hv hr => by
        simp only [List.mem_cons, Option.some.injEq, List.mem_singleton, List.not_mem_nil,
          or_false] at hv
        rcases hv with hv | hv
        · subst hv
          cases hr with
          | deref _ _ _ hc => cases hc
        · subst hv
          cases hr)⟩

/-- What `Binds` leaves alone: the kind, the type name and the length of every value, and
every value that is not a pointer, an interface slot, a sequence or a record altogether. -/
theorem Binds_preserves (a b : Val) (h : Binds a b) :
    b.Kind = a.Kind ∧ b.typeName = a.typeName ∧ b.len = a.len
      ∧ (a.Kind ≠ Kind.Ptr → a.Kind ≠ Kind.Interface → a.Kind ≠ Kind.Slice →
          a.Kind ≠ Kind.Array → a.Kind ≠ Kind.Struct → b = a) := by
  induction h with
  | refl v => exact ⟨rfl, rfl, rfl, fun _ _ _ _ _ => rfl⟩
  | trans _ _ ih1 ih2 =>
    obtain ⟨k1, n1, l1, s1⟩ := ih1
    obtain ⟨k2, n2, l2, s2⟩ := ih2
    refine ⟨k2.trans k1, n2.trans n1, l2.trans l1, fun hp hi hs ha hst => ?_⟩
    have := s1 hp hi hs ha hst
    subst this
    exact s2 hp hi hs ha hst
  | bind m e => exact ⟨rfl, rfl, rfl, fun hp => absurd rfl hp⟩
  | cell _ _ => exact ⟨rfl, rfl, rfl, fun hp => absurd rfl hp⟩
  | box _ _ => exact ⟨rfl, rfl, rfl, fun _ hi => absurd rfl hi⟩
  | sliceElem _ _ =>
    exact ⟨rfl, rfl, by simp [Val.len], fun _ _ hs => absurd rfl hs⟩
  | arrayElem _ _ =>
    exact ⟨rfl, rfl, by simp [Val.len], fun _ _ _ ha => absurd rfl ha⟩
  | field _ _ =>
    exact ⟨rfl, rfl, by simp [Val.len], fun _ _ _ _ hst => absurd rfl hst⟩

/-! ## C12: the fuel bound exists for every value whose types do not refer to themselves -/

theorem goType_boundedBy_le (d d' : Nat) (hle : d ≤ d') (t : GoType)
    (h : t.boundedBy d = true) : t.boundedBy d' = true := by
  induction hle with
  | refl => exact h
  | step _ ih => exact goType_boundedBy_succ _ t ih

theorem val_boundedBy_le (d d' : Nat) (hle : d ≤ d') (v : Val)
    (h : v.boundedBy d = true) : v.boundedBy d' = true := by
  induction hle with
  | refl => exact h
  | step _ ih => exact val_boundedBy_succ _ v ih

mutual
theorem goType_bounded_of_nonRecursive :
    ∀ t : GoType, t.nonRecursive = true → ∃ d, t.boundedBy d = true
  | .basic _ _, _ => ⟨1, rfl⟩
  | .map _, _ => ⟨1, rfl⟩
  | .slice _, _ => ⟨1, rfl⟩
  | .iface _, _ => ⟨1, rfl⟩
  | .recur _ _, h => by simp [GoType.nonRecursive] at h
  | .self _, h => by simp [GoType.nonRecursive] at h
  | .ptr _ e, h => by
    simp only [GoType.nonRecursive] at h
    obtain ⟨d, hd⟩ := goType_bounded_of_nonRecursive e h
    exact ⟨d + 1, by simpa [GoType.boundedBy] using hd⟩
  | .array _ _ e, h => by
    simp only [GoType.nonRecursive] at h
    obtain ⟨d, hd⟩ := goType_bounded_of_nonRecursive e h
    exact ⟨d + 1, by simpa [GoType.boundedBy] using hd⟩
  | .struct _ fs, h => by
    simp only [GoType.nonRecursive] at h
    obtain ⟨d, hd⟩ := fieldTypes_bounded_of_nonRecursive fs h
    exact ⟨d + 1, by simpa [GoType.boundedBy] using hd⟩
theorem fieldTypes_bounded_of_nonRecursive :
    ∀ fs : List (StructField × GoType), nonRecursiveFieldTypes fs = true →
      ∃ d, fs.all (fun p => p.2.boundedBy d) = true
  | [], _ => ⟨0, rfl⟩
  | (_, t) :: rest, h => by
    simp only [nonRecursiveFieldTypes, Bool.and_eq_true] at h
    obtain ⟨d1, h1⟩ := goType_bounded_of_nonRecursive t h.1
    obtain ⟨d2, h2⟩ := fieldTypes_bounded_of_nonRecursive rest h.2
    refine ⟨max d1 d2, ?_⟩
    simp only [List.all_cons, Bool.and_eq_true]
    refine ⟨goType_boundedBy_le d1 _ (le_max_left _ _) t h1, ?_⟩
    rw [List.all_eq_true] at h2 ⊢
    exact fun p hp => goType_boundedBy_le d2 _ (le_max_right _ _) p.2 (h2 p hp)
end

mutual
theorem val_bounded_of_nonRecursive :
    ∀ v : Val, v.nonRecursive = true → ∃ d, v.boundedBy d = true
  | .basic _ _ _, _ => ⟨1, rfl⟩
  | .map _ _, _ => ⟨1, rfl⟩
  | .iface _ none, _ => ⟨1, rfl⟩
  | .iface _ (some x), h => by
    simp only [Val.nonRecursive] at h
    obtain ⟨d, hd⟩ := val_bounded_of_nonRecursive x h
    exact ⟨d + 1, by simpa [Val.boundedBy] using hd⟩
  | .nilPtr _ e, h => by
    simp only [Val.nonRecursive] at h
    obtain ⟨d, hd⟩ := goType_bounded_of_nonRecursive e h
    exact ⟨d + 1, by simpa [Val.boundedBy] using hd⟩
  | .ptrTo _ c, h => by
    simp only [Val.nonRecursive] at h
    obtain ⟨d, hd⟩ := val_bounded_of_nonRecursive c h
    exact ⟨d + 1, by simpa [Val.boundedBy] using hd⟩
  | .slice _ es, h => by
    simp only [Val.nonRecursive] at h
    obtain ⟨d, hd⟩ := vals_bounded_of_nonRecursive es h
    exact ⟨d + 1, by simpa [Val.boundedBy] using hd⟩
  | .array _ es, h => by
    simp only [Val.nonRecursive] at h
    obtain ⟨d, hd⟩ := vals_bounded_of_nonRecursive es h
    exact ⟨d + 1, by simpa [Val.boundedBy] using hd⟩
  | .struct _ fs, h => by
    simp only [Val.nonRecursive] at h
    obtain ⟨d, hd⟩ := fields_bounded_of_nonRecursive fs h
    exact ⟨d + 1, by simpa [Val.boundedBy] using hd⟩
theorem vals_bounded_of_nonRecursive :
    ∀ es : List Val, nonRecursiveVals es = true → ∃ d, es.all (fun e => e.boundedBy d) = true
  | [], _ => ⟨0, rfl⟩
  | e :: rest, h => by
    simp only [nonRecursiveVals, Bool.and_eq_true] at h
    obtain ⟨d1, h1⟩ := val_bounded_of_nonRecursive e h.1
    obtain ⟨d2, h2⟩ := vals_bounded_of_nonRecursive rest h.2
    refine ⟨max d1 d2, ?_⟩
    simp only [List.all_cons, Bool.and_eq_true]
    refine ⟨val_boundedBy_le d1 _ (le_max_left _ _) e h1, ?_⟩
    rw [List.all_eq_true] at h2 ⊢
    exact fun p hp => val_boundedBy_le d2 _ (le_max_right _ _) p (h2 p hp)
theorem fields_bounded_of_nonRecursive :
    ∀ fs : List (StructField × Val), nonRecursiveFields fs = true →
      ∃ d, fs.all (fun p => p.2.boundedBy d) = true
  | [], _ => ⟨0, rfl⟩
  | (_, x) :: rest, h => by
    simp only [nonRecursiveFields, Bool.and_eq_true] at h
    obtain ⟨d1, h1⟩ := val_bounded_of_nonRecursive x h.1
    obtain ⟨d2, h2⟩ := fields_bounded_of_nonRecursive rest h.2
    refine ⟨max d1 d2, ?_⟩
    simp only [List.all_cons, Bool.and_eq_true]
    refine ⟨val_boundedBy_le d1 _ (le_max_left _ _) x h1, ?_⟩
    rw [List.all_eq_true] at h2 ⊢
    exact fun p hp => val_boundedBy_le d2 _ (le_max_right _ _) p.2 (h2 p hp)
end

theorem args_bounded_of_nonRecursive (vs : List Any)
    (h : ∀ v, some v ∈ vs → v.nonRecursive = true) :
    ∃ d, ∀ v, some v ∈ vs → v.boundedBy d = true := by
  induction vs with
  | nil => exact ⟨0, fun v hv => absurd hv (List.not_mem_nil _)⟩
  | cons a rest ih =>
    obtain ⟨d2, h2⟩ := ih (fun v hv => h v (List.mem_cons_of_mem _ hv))
    cases a with
    | none =>
      refine ⟨d2, fun v hv => ?_⟩
      rcases List.mem_cons.mp hv with hv | hv
      · exact absurd hv (by simp)
      · exact h2 v hv
    | some x =>
      obtain ⟨d1, h1⟩ := val_bounded_of_nonRecursive x (h x (List.mem_cons_self _ _))
      refine ⟨max d1 d2, fun v hv => ?_⟩
      rcases List.mem_cons.mp hv with hv | hv
      · simp only [Option.some.injEq] at hv
        subst hv
        exact val_boundedBy_le d1 _ (le_max_left _ _) v h1
      · exact val_boundedBy_le d2 _ (le_max_right _ _) v (h2 v hv)

/-- C12 (amended). Termination: for arguments in whose types no declaration refers to
itself (the element types of their null pointers, at any depth, are written without
`recur`), there is a fuel from which on `Check` finishes (it returns or panics), always
with the same result. Each recursive call is made on an element or a field of the resolved
value, and each binding of a null pointer goes on with a fresh zero value whose type has
one level fewer. -/
theorem C12_check_terminates (M : Methods) (vs : List Any)
    (h : ∀ v, some v ∈ vs → v.nonRecursive = true) :
    ∃ N, ∀ fuel, N ≤ fuel →
      Check M fuel vs ≠ .outOfFuel ∧ Check M fuel vs = Check M N vs := by
  obtain ⟨d, hd⟩ := args_bounded_of_nonRecursive vs h
  refine ⟨d, fun fuel hle => ⟨Check_finishes_of_bounded M d vs hd fuel hle, ?_⟩⟩
  exact Check_mono_le M d fuel hle vs _ rfl (Check_finishes_of_bounded M d vs hd d (le_refl d))

/-- C12 (witness): a pointer to a record holding a slice of pointers and a pointer to a
null `**int` slot, followed by the untyped nil. -/
theorem C12_check_terminates_witness :
    ∃ N, ∀ fuel, N ≤ fuel →
      Check (alwaysFailing [("S", "bad")]) fuel
        [some (.ptrTo "" (.struct "R" [(⟨"Items", "", false⟩, .slice "" [.ptrTo "" (.struct "S" [])]),
          (⟨"Count", "", false⟩, .ptrTo "" (.nilPtr "" (.ptr "" (.basic "int" .Int)))) ])), none]
        ≠ .outOfFuel
      ∧ Check (alwaysFailing [("S", "bad")]) fuel
        [some (.ptrTo "" (.struct "R" [(⟨"Items", "", false⟩, .slice "" [.ptrTo "" (.struct "S" [])]),
          (⟨"Count", "", false⟩, .ptrTo "" (.nilPtr "" (.ptr "" (.basic "int" .Int)))) ])), none]
        = Check (alwaysFailing [("S", "bad")]) N
        [some (.ptrTo "" (.struct "R" [(⟨"Items", "", false⟩, .slice "" [.ptrTo "" (.struct "S" [])]),
          (⟨"Count", "", false⟩, .ptrTo "" (.nilPtr "" (.ptr "" (.basic "int" .Int)))) ])), none] :=
  C12_check_terminates (alwaysFailing [("S", "bad")])
    [some (.ptrTo "" (.struct "R" [(⟨"Items", "", false⟩, .slice "" [.ptrTo "" (.struct "S" [])]),
      (⟨"Count", "", false⟩, .ptrTo "" (.nilPtr "" (.ptr "" (.basic "int" .Int)))) ])), none]
    (fun v hv => by
      simp only [List.mem_cons, Option.some.injEq, List.mem_singleton, reduceCtorEq,
        or_false, List.not_mem_nil] at hv
      subst hv
      rfl)

end Validity
